import Mathlib

set_option maxHeartbeats 1000000

/-!
Verification development for the PureVisor hypervisor / HCI engine.

Each section below is a shallow embedding of one subsystem of the C source,
translated definition-by-definition from the files under `src/`:

* `PureVisor.Cpuid`      — `src/vmm/vmexit.c` (`handle_cpuid`)
* `PureVisor.Scheduler`  — `src/cluster/scheduler.c` (`node_is_feasible`,
  `scheduler_score_node`)
* `PureVisor.Raft`       — `src/storage/distributed.c` (`handle_vote_request`,
  `handle_append_request`)
* `PureVisor.Heap`       — `src/mm/heap.c` (`kmalloc` growth path, `split_block`)
* `PureVisor.Pool`       — `src/storage/pool.c` and `src/storage/block.c` /
  `src/storage/memblk.c` (extent allocation, `volume_submit`, device I/O)
* `PureVisor.Paging`     — `src/mm/paging.c` (`paging_map`, `paging_unmap`,
  `paging_get_phys`)
* `PureVisor.Pmm`        — `src/mm/pmm.c` (buddy allocator)

Machine integers are modelled as `Nat`, with explicit `% 2 ^ 32` / `% 2 ^ 64`
reductions wherever the C arithmetic can wrap.  C pointers that form intrusive
linked lists are modelled as Lean lists; arrays indexed by an integer are
modelled as functions out of `Nat`.
-/

namespace PureVisor

/-- Update one slot of a `Nat`-indexed table (array store). -/
def upd {α : Type} (f : Nat → α) (i : Nat) (v : α) : Nat → α :=
  fun j => if j = i then v else f j

theorem upd_same {α : Type} (f : Nat → α) (i : Nat) (v : α) : upd f i v i = v := by
  simp [upd]

theorem upd_other {α : Type} (f : Nat → α) (i : Nat) (v : α) (j : Nat) (h : j ≠ i) :
    upd f i v j = f j := by
  simp [upd, h]

end PureVisor

namespace PureVisor.Cpuid

/-- Result registers of the CPUID instruction (`cpuid_result_t` in
`include/arch/x86_64/cpu.h`); each field is a 32-bit value. -/
structure cpuid_result_t where
  eax : Nat
  ebx : Nat
  ecx : Nat
  edx : Nat
  deriving DecidableEq, Repr

/-- `CPUID_FEAT_ECX_VMX` = `BIT(5)` (`include/arch/x86_64/cpu.h`). -/
def CPUID_FEAT_ECX_VMX : Nat := 1 <<< 5

/-- 32-bit all-ones mask; `x &&& (mask32 ^^^ b)` is the C expression
`x & ~b` on a `uint32_t`. -/
def mask32 : Nat := 0xFFFFFFFF

/-- Shallow embedding of `handle_cpuid` (`src/vmm/vmexit.c`, lines 116-152).
The host CPUID instruction is a parameter `host` mapping `(leaf, subleaf)` to
the physical result.  `rax`/`rcx` are the guest registers; the C code
truncates them to 32 bits before use. -/
def handle_cpuid (host : Nat → Nat → cpuid_result_t) (rax rcx : Nat) : cpuid_result_t :=
  let eax := rax % 2 ^ 32
  let ecx := rcx % 2 ^ 32
  let result := host eax ecx
  if eax = 1 then
    -- hide the VMX capability bit, then the hypervisor-present bit
    let e1 := result.ecx &&& (mask32 ^^^ CPUID_FEAT_ECX_VMX)
    let e2 := e1 &&& (mask32 ^^^ (1 <<< 31))
    { result with ecx := e2 }
  else if eax = 0x40000000 then
    { result with eax := 0x40000001, ebx := 0x65727550, ecx := 0x6F736956,
                  edx := 0x00000072 }
  else if eax = 0x40000001 then
    { result with eax := 0, ebx := 0, ecx := 0, edx := 0 }
  else
    result

end PureVisor.Cpuid

namespace PureVisor.Scheduler

/-- Scheduling policies (`include/cluster/scheduler.h`). -/
def SCHED_POLICY_SPREAD : Nat := 0

def SCHED_POLICY_PACK : Nat := 1

/-- Scoring weights (`include/cluster/scheduler.h`). -/
def WEIGHT_CPU : Nat := 40

def WEIGHT_MEMORY : Nat := 40

def WEIGHT_STORAGE : Nat := 10

def WEIGHT_NETWORK : Nat := 10

/-- `NODE_STATE_ONLINE` (`include/cluster/node.h`). -/
def NODE_STATE_ONLINE : Nat := 2

/-- The fields of `cluster_node_t` that the scheduler reads
(`include/cluster/node.h`): identity, state, health, resource snapshot and
current VM count. -/
structure cluster_node_t where
  id : Nat
  name : String
  state : Nat
  health_score : Nat
  network_healthy : Bool
  vm_count : Nat
  cpu_total_threads : Nat
  memory_total_bytes : Nat
  memory_free_bytes : Nat
  memory_used_bytes : Nat
  storage_total_bytes : Nat
  storage_free_bytes : Nat
  tags : List String
  deriving DecidableEq, Repr

/-- A virtual machine as the scheduler sees it: its id and the id of the node
hosting it (`vm->host_node` pointer comparison is modelled as node-id
equality). -/
structure virtual_machine_t where
  id : Nat
  host_node_id : Nat
  deriving DecidableEq, Repr

/-- The VM manager is a list of VMs (`vm_manager_t`). -/
structure vm_manager_t where
  vms : List virtual_machine_t
  deriving DecidableEq, Repr

/-- `virt_vm_find` (`src/cluster/vm.c`, lines 242-252): first VM in the list
with the given id. -/
def virt_vm_find (mgr : vm_manager_t) (id : Nat) : Option virtual_machine_t :=
  mgr.vms.find? (fun vm => vm.id = id)

/-- `node_has_tag` (`src/cluster/node.c`, lines 106-116). -/
def node_has_tag (node : cluster_node_t) (tag : String) : Bool :=
  node.tags.any (fun t => t = tag)

/-- The scheduler fields read during feasibility / scoring
(`include/cluster/scheduler.h`, initialised in `scheduler_init`). -/
structure scheduler_t where
  vm_manager : vm_manager_t
  enable_overcommit : Bool
  cpu_overcommit_ratio : Nat
  memory_overcommit_ratio : Nat
  deriving DecidableEq, Repr

/-- A placement request (`sched_request_t`), restricted to the fields read by
`node_is_feasible` and `scheduler_score_node`. -/
structure sched_request_t where
  vcpus : Nat
  memory : Nat
  policy : Nat
  required_tags : List String
  forbidden_nodes : List String
  affinity_vm_ids : List Nat
  anti_affinity_vm_ids : List Nat
  deriving DecidableEq, Repr

/-- 64-bit wrap-around subtraction (`uint64_t` `a - b`). -/
def sub64 (a b : Nat) : Nat := (a + 2 ^ 64 - b % 2 ^ 64) % 2 ^ 64

/-- `node_is_feasible` (`src/cluster/scheduler.c`, lines 39-97).  The CPU and
memory computations use `uint64_t` arithmetic; `node->vm_count * 2` is
`uint32_t` arithmetic. -/
def node_is_feasible (sched : scheduler_t) (node : cluster_node_t)
    (req : sched_request_t) : Bool :=
  if node.state ≠ NODE_STATE_ONLINE then false
  else if node.health_score < 50 then false
  else if req.forbidden_nodes.any (fun f => node.name = f) then false
  else if req.required_tags.any (fun t => ¬ node_has_tag node t) then false
  else
    let available_vcpus0 := node.cpu_total_threads
    let available_vcpus1 :=
      if sched.enable_overcommit then
        (available_vcpus0 * sched.cpu_overcommit_ratio) % 2 ^ 64 / 100
      else available_vcpus0
    let available_vcpus := sub64 available_vcpus1 ((node.vm_count * 2) % 2 ^ 32)
    if req.vcpus > available_vcpus then false
    else
      let available_mem :=
        if sched.enable_overcommit then
          sub64 ((node.memory_total_bytes * sched.memory_overcommit_ratio) % 2 ^ 64 / 100)
            node.memory_used_bytes
        else node.memory_free_bytes
      if req.memory > available_mem then false
      else true

/-- The output of `scheduler_score_node` (`node_score_t`,
`include/cluster/scheduler.h`): every score field is a `uint32_t`. -/
structure node_score_t where
  feasible : Bool
  total_score : Nat
  cpu_score : Nat
  memory_score : Nat
  storage_score : Nat
  network_score : Nat
  affinity_score : Nat
  deriving DecidableEq, Repr

/-- The all-zero score record produced by the `memset` at the top of
`scheduler_score_node`. -/
def zero_score : node_score_t :=
  { feasible := false, total_score := 0, cpu_score := 0, memory_score := 0,
    storage_score := 0, network_score := 0, affinity_score := 0 }

/-- Affinity loop of `scheduler_score_node` (lines 148-154): +25 for each
affinity VM co-located on this node (`uint32_t` arithmetic). -/
def affinity_pass (sched : scheduler_t) (node : cluster_node_t)
    (ids : List Nat) (acc : Nat) : Nat :=
  match ids with
  | [] => acc
  | id :: rest =>
    let acc1 :=
      match virt_vm_find sched.vm_manager id with
      | some vm => if vm.host_node_id = node.id then (acc + 25) % 2 ^ 32 else acc
      | none => acc
    affinity_pass sched node rest acc1

/-- Anti-affinity loop of `scheduler_score_node` (lines 157-167): −50
(clamped at 0) for each anti-affinity VM co-located on this node. -/
def anti_affinity_pass (sched : scheduler_t) (node : cluster_node_t)
    (ids : List Nat) (acc : Nat) : Nat :=
  match ids with
  | [] => acc
  | id :: rest =>
    let acc1 :=
      match virt_vm_find sched.vm_manager id with
      | some vm =>
        if vm.host_node_id = node.id then
          if acc ≥ 50 then acc - 50 else 0
        else acc
      | none => acc
    anti_affinity_pass sched node rest acc1

/-- Shallow embedding of `scheduler_score_node` (`src/cluster/scheduler.c`,
lines 103-186).  Intermediate CPU/memory/storage computations are `uint64_t`;
each result is stored into a `uint32_t` field of `node_score_t`. -/
def scheduler_score_node (sched : scheduler_t) (node : cluster_node_t)
    (req : sched_request_t) : node_score_t :=
  let feasible := node_is_feasible sched node req
  if ¬ feasible then { zero_score with feasible := false, total_score := 0 }
  else
    let total_cpu := node.cpu_total_threads
    let used_cpu := (node.vm_count * 2) % 2 ^ 32
    let cpu_score :=
      if total_cpu > 0 then (sub64 total_cpu used_cpu * 100) % 2 ^ 64 / total_cpu % 2 ^ 32
      else 0
    let total_mem := node.memory_total_bytes
    let free_mem := node.memory_free_bytes
    let memory_score :=
      if total_mem > 0 then (free_mem * 100) % 2 ^ 64 / total_mem % 2 ^ 32 else 0
    let total_storage := node.storage_total_bytes
    let free_storage := node.storage_free_bytes
    let storage_score :=
      if total_storage > 0 then (free_storage * 100) % 2 ^ 64 / total_storage % 2 ^ 32
      else 100
    let network_score := if node.network_healthy then 100 else 0
    let affinity1 := affinity_pass sched node req.affinity_vm_ids 50
    let affinity2 := anti_affinity_pass sched node req.anti_affinity_vm_ids affinity1
    let affinity_score := if affinity2 > 100 then 100 else affinity2
    let total0 :=
      (cpu_score * WEIGHT_CPU + memory_score * WEIGHT_MEMORY +
        storage_score * WEIGHT_STORAGE + network_score * WEIGHT_NETWORK) % 2 ^ 32 / 100
    let total_score :=
      if req.policy = SCHED_POLICY_PACK then (100 + 2 ^ 32 - total0) % 2 ^ 32 else total0
    { feasible := true, total_score := total_score, cpu_score := cpu_score,
      memory_score := memory_score, storage_score := storage_score,
      network_score := network_score, affinity_score := affinity_score }

end PureVisor.Scheduler

namespace PureVisor.Raft

/-- A Raft log array slot (`raft_log_entry_t`, `include/storage/distributed.h`);
the payload bytes are kept abstract as a list. -/
structure raft_log_entry_t where
  index : Nat
  term : Nat
  type : Nat
  data_len : Nat
  data : List Nat
  deriving DecidableEq, Repr

/-- The Raft context fields used by the vote / append handlers
(`raft_context_t`, `include/storage/distributed.h`).  The in-memory log array
is modelled as a function from array slot to entry (slot `index - first_index`
as in the C code). -/
structure raft_context_t where
  node_id : Nat
  state : Nat
  current_term : Nat
  voted_for : Int
  log : Nat → raft_log_entry_t
  first_index : Nat
  last_index : Nat
  commit_index : Nat
  leader_id : Nat
  votes_received : Nat
  last_heartbeat : Nat

/-- Raft role constants (`include/storage/distributed.h`). -/
def RAFT_FOLLOWER : Nat := 0

def RAFT_CANDIDATE : Nat := 1

def RAFT_LEADER : Nat := 2

/-- `get_log_entry` (`src/storage/distributed.c`, lines 24-30). -/
def get_log_entry (raft : raft_context_t) (index : Nat) : Option raft_log_entry_t :=
  if index < raft.first_index ∨ index > raft.last_index then none
  else some (raft.log (index - raft.first_index))

/-- `get_last_log_term` (`src/storage/distributed.c`, lines 32-37). -/
def get_last_log_term (raft : raft_context_t) : Nat :=
  if raft.last_index = 0 then 0
  else
    match get_log_entry raft raft.last_index with
    | some entry => entry.term
    | none => 0

/-- `become_follower` (`src/storage/distributed.c`, lines 69-78). -/
def become_follower (raft : raft_context_t) (term : Nat) : raft_context_t :=
  { raft with state := RAFT_FOLLOWER, current_term := term, voted_for := -1,
              votes_received := 0 }

/-- `raft_vote_request_t` (header fields flattened). -/
structure raft_vote_request_t where
  from_node : Nat
  term : Nat
  last_log_index : Nat
  last_log_term : Nat
  deriving DecidableEq, Repr

/-- `raft_vote_response_t` (header fields flattened). -/
structure raft_vote_response_t where
  from_node : Nat
  term : Nat
  granted : Bool
  deriving DecidableEq, Repr

/-- Shallow embedding of `handle_vote_request` (`src/storage/distributed.c`,
lines 132-167).  `now` stands for the `rdtsc()` value used to reset the
election timer; the response handed to `send_message` is returned. -/
def handle_vote_request (raft : raft_context_t) (req : raft_vote_request_t)
    (now : Nat) : raft_context_t × raft_vote_response_t :=
  -- update term if needed
  let raft1 := if req.term > raft.current_term then become_follower raft req.term else raft
  -- check if we can grant the vote
  if req.term ≥ raft1.current_term ∧
      (raft1.voted_for = -1 ∨ raft1.voted_for = (req.from_node : Int)) then
    let last_term := get_last_log_term raft1
    if req.last_log_term > last_term ∨
        (req.last_log_term = last_term ∧ req.last_log_index ≥ raft1.last_index) then
      let raft2 := { raft1 with voted_for := (req.from_node : Int), last_heartbeat := now }
      (raft2, { from_node := raft2.node_id, term := raft2.current_term, granted := true })
    else
      (raft1, { from_node := raft1.node_id, term := raft1.current_term, granted := false })
  else
    (raft1, { from_node := raft1.node_id, term := raft1.current_term, granted := false })

/-- `raft_append_request_t` (header fields flattened).  The concatenated log
entries that follow the fixed fields on the wire are not represented because
`handle_append_request` never reads them. -/
structure raft_append_request_t where
  from_node : Nat
  term : Nat
  prev_log_index : Nat
  prev_log_term : Nat
  leader_commit : Nat
  entry_count : Nat
  deriving DecidableEq, Repr

/-- `raft_append_response_t` (header fields flattened). -/
structure raft_append_response_t where
  from_node : Nat
  term : Nat
  success : Bool
  match_index : Nat
  deriving DecidableEq, Repr

/-- Shallow embedding of `handle_append_request` (`src/storage/distributed.c`,
lines 192-243).  `now` stands for the `rdtsc()` heartbeat stamp. -/
def handle_append_request (raft : raft_context_t) (req : raft_append_request_t)
    (now : Nat) : raft_context_t × raft_append_response_t :=
  let raft1 := if req.term > raft.current_term then become_follower raft req.term else raft
  if req.term < raft1.current_term then
    (raft1, { from_node := raft1.node_id, term := raft1.current_term, success := false,
              match_index := 0 })
  else
    let raft2 := { raft1 with leader_id := req.from_node, last_heartbeat := now }
    let raft3 := if raft2.state = RAFT_CANDIDATE then become_follower raft2 req.term else raft2
    -- check log consistency
    let consistent :=
      if req.prev_log_index > 0 then
        match get_log_entry raft3 req.prev_log_index with
        | none => false
        | some prev => prev.term = req.prev_log_term
      else true
    if ¬ consistent then
      (raft3, { from_node := raft3.node_id, term := raft3.current_term, success := false,
                match_index := 0 })
    else
      -- append entries (simplified in the C source: the log is not touched)
      -- update commit index
      let raft4 :=
        if req.leader_commit > raft3.commit_index then
          { raft3 with commit_index := min req.leader_commit raft3.last_index }
        else raft3
      (raft4, { from_node := raft4.node_id, term := raft4.current_term, success := true,
                match_index := req.prev_log_index + req.entry_count })

end PureVisor.Raft

namespace PureVisor.Heap

/-- `ALIGN_UP(x, a)` for a power-of-two `a` (`include/lib/types.h`). -/
def ALIGN_UP (x a : Nat) : Nat := (x + a - 1) / a * a

/-- `HEADER_SIZE = ALIGN_UP(sizeof(block_header_t), 16)`; the header is
4 × `uint32_t` + 2 pointers = 32 bytes (`src/mm/heap.c`, line 30). -/
def HEADER_SIZE : Nat := ALIGN_UP 32 16

/-- `MIN_BLOCK_SIZE = HEADER_SIZE + 16` (`src/mm/heap.c`, line 31). -/
def MIN_BLOCK_SIZE : Nat := HEADER_SIZE + 16

/-- `PAGE_SIZE` (`include/lib/types.h`). -/
def PAGE_SIZE : Nat := 4096

/-- Internal size `kmalloc` works with after rounding the request
(`src/mm/heap.c`, lines 202-203): `size = ALIGN_UP(size, 16) + HEADER_SIZE`,
then at least `MIN_BLOCK_SIZE`. -/
def kmalloc_adjusted_size (n : Nat) : Nat :=
  let size := ALIGN_UP n 16 + HEADER_SIZE
  if size < MIN_BLOCK_SIZE then MIN_BLOCK_SIZE else size

/-- `pages_needed` in the growth path of `kmalloc` (lines 211-212):
`(size + PAGE_SIZE - 1) / PAGE_SIZE`, but at least 4. -/
def kmalloc_pages_needed (size : Nat) : Nat :=
  let p := (size + PAGE_SIZE - 1) / PAGE_SIZE
  if p < 4 then 4 else p

/-- The PMM order requested by the growth path (line 214):
`pages_needed > 1 ? 2 : 0`. -/
def kmalloc_grow_order (size : Nat) : Nat :=
  if kmalloc_pages_needed size > 1 then 2 else 0

/-- Size of the free block created by the growth path (line 223):
`(1 << (pages_needed > 1 ? 2 : 0)) * PAGE_SIZE`. -/
def kmalloc_grow_block_size (size : Nat) : Nat :=
  (1 <<< kmalloc_grow_order size) * PAGE_SIZE

/-- `remaining = block->size - size` in `split_block` (line 145): `block->size`
is a `uint32_t` promoted to `size_t`, so the subtraction wraps modulo `2 ^ 64`. -/
def split_block_remaining (block_size size : Nat) : Nat :=
  (block_size % 2 ^ 32 + 2 ^ 64 - size % 2 ^ 64) % 2 ^ 64

/-- Outcome of `split_block(block, size)` on a block of byte length
`block_size` located at byte offset 0 (`src/mm/heap.c`, lines 143-161):
if a split happens, the offset and size of the carved-off block. -/
def split_block (block_size size : Nat) : Option (Nat × Nat) :=
  let remaining := split_block_remaining block_size size
  if remaining ≥ MIN_BLOCK_SIZE then some (size, remaining) else none

/-- Summary of one run of the `kmalloc` growth path (`src/mm/heap.c`,
lines 209-233) followed by `split_block` (line 236), for a request of `n`
bytes when no existing free block fits: the size of the region obtained from
the PMM, the adjusted request size, and the offset/size of the free block
fabricated by `split_block` inside (or beyond) that region. -/
structure grow_outcome_t where
  region_size : Nat
  request_size : Nat
  carved : Option (Nat × Nat)
  deriving DecidableEq, Repr

/-- The growth path of `kmalloc n` assuming `find_free_block` found nothing:
allocate `1 << order` pages, use that block, split it at the adjusted size. -/
def kmalloc_grow_path (n : Nat) : grow_outcome_t :=
  let size := kmalloc_adjusted_size n
  let block_size := kmalloc_grow_block_size size
  { region_size := block_size, request_size := size,
    carved := split_block block_size size }

end PureVisor.Heap

namespace PureVisor.Pool

/-- Bytes in a megabyte. -/
def MB : Nat := 1024 * 1024

/-- `POOL_EXTENT_SIZE = 4 MB` (`include/storage/pool.h`). -/
def POOL_EXTENT_SIZE : Nat := 4 * MB

/-- Pool states (`include/storage/pool.h`). -/
def POOL_STATE_OFFLINE : Nat := 0

def POOL_STATE_DEGRADED : Nat := 1

def POOL_STATE_ONLINE : Nat := 2

/-- Extent states (`include/storage/pool.h`). -/
def EXTENT_FREE : Nat := 0

def EXTENT_ALLOCATED : Nat := 1

/-- `POOL_MAX_DEVICES` (`include/storage/pool.h`). -/
def POOL_MAX_DEVICES : Nat := 16

/-- Block request operations (`include/storage/block.h`). -/
def BLOCK_OP_READ : Nat := 0

def BLOCK_OP_WRITE : Nat := 1

/-- A block device (`block_device_t`) reduced to the fields the pool layer
reads, with a RAM backing store as in `src/storage/memblk.c` (`mem_submit`
reads and writes `mdev->memory` byte-wise).  Statistics fields that no claim
observes are omitted. -/
structure block_device_t where
  size : Nat
  readonly : Bool
  contents : Nat → Nat
  deriving Inhabited

/-- Byte-range store into a device (the `memcpy` of `mem_submit`,
`src/storage/memblk.c` line 47). -/
def dev_write_bytes (d : block_device_t) (off : Nat) (buf : Nat → Nat) (len : Nat) :
    block_device_t :=
  { d with contents := fun a => if off ≤ a ∧ a < off + len then buf (a - off) else d.contents a }

/-- `block_write` (`src/storage/block.c`, lines 119-166) composed with
`mem_submit` (`src/storage/memblk.c`): rejects read-only devices and
out-of-range requests, otherwise stores the payload.  Returns the updated
device and the status. -/
def block_write (d : block_device_t) (off : Nat) (buf : Nat → Nat) (len : Nat) :
    block_device_t × Int :=
  if d.readonly then (d, -1)
  else if off + len > d.size then (d, -1)
  else (dev_write_bytes d off buf len, 0)

/-- `block_read` (`src/storage/block.c`, lines 73-117) composed with
`mem_submit`: out-of-range requests fail leaving the caller's buffer
untouched; otherwise the buffer's first `len` bytes are filled from the
device.  Returns the final buffer and the status. -/
def block_read (d : block_device_t) (off : Nat) (buf : Nat → Nat) (len : Nat) :
    (Nat → Nat) × Int :=
  if off + len > d.size then (buf, -1)
  else ((fun i => if i < len then d.contents (off + i) else buf i), 0)

/-- `extent_info_t` (`include/storage/pool.h`).  `replica_extents` is the
3-slot id array, modelled as a function (only indices `< replica_count` are
ever read). -/
structure extent_info_t where
  state : Nat
  volume_id : Nat
  volume_offset : Nat
  device_id : Nat
  device_offset : Nat
  replica_count : Nat
  replica_extents : Nat → Nat

/-- The all-zero extent record (`kmalloc(..., GFP_ZERO)`). -/
def zero_extent : extent_info_t :=
  { state := 0, volume_id := 0, volume_offset := 0, device_id := 0, device_offset := 0,
    replica_count := 0, replica_extents := fun _ => 0 }

/-- `storage_pool_t` (`include/storage/pool.h`) reduced to the fields the
extent allocator and `volume_submit` read and write. -/
structure storage_pool_t where
  state : Nat
  devices : Nat → block_device_t
  device_count : Nat
  extents : Nat → extent_info_t
  total_extents : Nat
  free_extents : Nat
  next_extent : Nat
  total_size : Nat
  free_size : Nat
  used_size : Nat
  read_ops : Nat
  write_ops : Nat
  read_bytes : Nat
  write_bytes : Nat

/-- `storage_volume_t` (`include/storage/pool.h`) reduced to the fields the
I/O path reads and writes. -/
structure storage_volume_t where
  online : Bool
  size : Nat
  allocated : Nat
  replication : Nat
  thin_provisioned : Bool
  extent_map : Nat → Nat
  num_extents : Nat

/-- The pool produced by `pool_create` (`src/storage/pool.c`, lines 200-221):
`kmalloc(..., GFP_ZERO)` yields an all-zero record, then state is set to
`POOL_STATE_OFFLINE` (also 0). -/
def pool_create : storage_pool_t :=
  { state := POOL_STATE_OFFLINE, devices := fun _ => default, device_count := 0,
    extents := fun _ => zero_extent, total_extents := 0, free_extents := 0,
    next_extent := 0, total_size := 0, free_size := 0, used_size := 0,
    read_ops := 0, write_ops := 0, read_bytes := 0, write_bytes := 0 }

/-- `pool_add_device` (`src/storage/pool.c`, lines 252-302): appends the
device, grows the extent table with one fresh `EXTENT_FREE` extent per
`POOL_EXTENT_SIZE` of the device, and brings an offline pool online. -/
def pool_add_device (pool : storage_pool_t) (dev : block_device_t) :
    Option storage_pool_t :=
  if pool.device_count ≥ POOL_MAX_DEVICES then none
  else
    let dev_idx := pool.device_count
    let dev_extents := dev.size / POOL_EXTENT_SIZE
    let old_total := pool.total_extents
    let new_total := old_total + dev_extents
    let exts := fun i =>
      if old_total ≤ i ∧ i < new_total then
        { zero_extent with state := EXTENT_FREE, device_id := dev_idx,
                           device_offset := (i - old_total) * POOL_EXTENT_SIZE }
      else pool.extents i
    some { pool with
      devices := PureVisor.upd pool.devices dev_idx dev,
      device_count := dev_idx + 1,
      extents := exts,
      total_extents := new_total,
      free_extents := pool.free_extents + dev_extents,
      total_size := pool.total_size + dev_extents * POOL_EXTENT_SIZE,
      free_size := (pool.free_extents + dev_extents) * POOL_EXTENT_SIZE,
      state := if pool.state = POOL_STATE_OFFLINE then POOL_STATE_ONLINE else pool.state }

/-- Mark extent `i` allocated and advance the rotating cursor (the body of the
scan loops in `pool_alloc_extent`). -/
def pool_mark_allocated (pool : storage_pool_t) (i : Nat) : storage_pool_t :=
  { pool with
    extents := PureVisor.upd pool.extents i { (pool.extents i) with state := EXTENT_ALLOCATED },
    free_extents := pool.free_extents - 1,
    next_extent := i + 1 }

/-- `pool_alloc_extent` (`src/storage/pool.c`, lines 123-152): scan from the
rotating cursor `next_extent` to the end, then wrap scanning `1 ..
next_extent - 1`; the first `EXTENT_FREE` extent becomes allocated. -/
def pool_alloc_extent (pool : storage_pool_t) : Option (storage_pool_t × Nat) :=
  if pool.free_extents = 0 then none
  else
    match (List.range' pool.next_extent (pool.total_extents - pool.next_extent)).find?
        (fun i => (pool.extents i).state = EXTENT_FREE) with
    | some i => some (pool_mark_allocated pool i, i)
    | none =>
      match (List.range' 1 (pool.next_extent - 1)).find?
          (fun i => (pool.extents i).state = EXTENT_FREE) with
      | some i => some (pool_mark_allocated pool i, i)
      | none => none

/-- `pool_free_extent` (`src/storage/pool.c`, lines 154-161). -/
def pool_free_extent (pool : storage_pool_t) (extent_id : Nat) : storage_pool_t :=
  if 0 < extent_id ∧ extent_id < pool.total_extents then
    { pool with
      extents := PureVisor.upd pool.extents extent_id
        { (pool.extents extent_id) with state := EXTENT_FREE, volume_id := 0 },
      free_extents := pool.free_extents + 1 }
  else pool

/-- One replica-allocation step of `pool_alloc_replicated_extent`
(`src/storage/pool.c`, lines 178-189): allocate one extent, link it into the
primary's replica table at slot `ids.length - 1`, or roll everything back on
failure. -/
def pool_alloc_replica_step (acc : storage_pool_t × Option (List Nat)) :
    storage_pool_t × Option (List Nat) :=
  match acc with
  | (pool, none) => (pool, none)
  | (pool, some ids) =>
    match pool_alloc_extent pool with
    | none => (ids.foldl pool_free_extent pool, none)
    | some (pool1, idr) =>
      let id0 := ids.headD 0
      let slot := ids.length - 1
      let pool2 := { pool1 with
        extents := PureVisor.upd pool1.extents id0
          { (pool1.extents id0) with
            replica_extents := PureVisor.upd (pool1.extents id0).replica_extents slot idr } }
      (pool2, some (ids ++ [idr]))

/-- `pool_alloc_replicated_extent` (`src/storage/pool.c`, lines 163-194):
allocate one primary and `replication` replicas; on success record the
replica count on the primary.  Returns the ids `[primary, replicas…]`. -/
def pool_alloc_replicated_extent (pool : storage_pool_t) (replication : Nat) :
    storage_pool_t × Option (List Nat) :=
  if pool.free_extents < replication + 1 then (pool, none)
  else
    match pool_alloc_extent pool with
    | none => (pool, none)
    | some (pool1, id0) =>
      match (List.range replication).foldl (fun acc _ => pool_alloc_replica_step acc)
          (pool1, some [id0]) with
      | (pool2, none) => (pool2, none)
      | (pool2, some ids) =>
        ({ pool2 with
            extents := PureVisor.upd pool2.extents id0
              { (pool2.extents id0) with replica_count := replication } },
          some ids)

/-- One iteration of the thick pre-allocation loop of `volume_create`
(`src/storage/pool.c`, lines 384-398): allocate a replicated extent for
logical extent `i`, stamp owner id and volume offset on the primary, record
it in the extent map.  The C rollback path returns `NULL`; it is collapsed to
`none` here (no claim observes the rolled-back pool). -/
def volume_thick_step (vid : Nat) (replication : Nat)
    (acc : Option (storage_pool_t × storage_volume_t)) (i : Nat) :
    Option (storage_pool_t × storage_volume_t) :=
  match acc with
  | none => none
  | some (pool, vol) =>
    match pool_alloc_replicated_extent pool replication with
    | (_, none) => none
    | (pool1, some ids) =>
      let id0 := ids.headD 0
      let pool2 := { pool1 with
        extents := PureVisor.upd pool1.extents id0
          { (pool1.extents id0) with volume_id := vid,
                                     volume_offset := i * POOL_EXTENT_SIZE } }
      some (pool2, { vol with extent_map := PureVisor.upd vol.extent_map i id0 })

/-- `volume_create` (`src/storage/pool.c`, lines 346-428), reduced to the pool
and volume state it produces.  `vid` is the id `next_volume_id++` would
assign.  The extent map starts all zero (`GFP_ZERO`); a thick volume
pre-allocates every logical extent and charges `used_size`/`free_size`. -/
def volume_create (pool : storage_pool_t) (vid : Nat) (size replication : Nat)
    (thin : Bool) : Option (storage_pool_t × storage_volume_t) :=
  if pool.state = POOL_STATE_OFFLINE then none
  else
    let num_extents := (size + POOL_EXTENT_SIZE - 1) / POOL_EXTENT_SIZE
    let needed := num_extents * (replication + 1)
    if ¬ thin ∧ pool.free_extents < needed then none
    else
      let vol0 : storage_volume_t :=
        { online := false, size := num_extents * POOL_EXTENT_SIZE, allocated := 0,
          replication := replication, thin_provisioned := thin,
          extent_map := fun _ => 0, num_extents := num_extents }
      if thin then some (pool, { vol0 with online := true })
      else
        match (List.range num_extents).foldl (volume_thick_step vid replication)
            (some (pool, vol0)) with
        | none => none
        | some (pool1, vol1) =>
          let vol2 := { vol1 with allocated := vol1.size, online := true }
          some ({ pool1 with used_size := pool1.used_size + vol2.size,
                             free_size := pool1.free_size - vol2.size }, vol2)

/-- Result of `volume_submit`: the pool and volume afterwards, the request
status, and the request buffer after completion (reads fill it in place). -/
structure submit_result_t where
  pool : storage_pool_t
  vol : storage_volume_t
  status : Int
  buffer : Nat → Nat

/-- One iteration of the replica loop of `volume_submit` (`src/storage/pool.c`,
lines 83-89): write the payload to replica `r` of `ext`; the `block_write`
status is discarded. -/
def write_replica_step (ext : extent_info_t) (extent_offset : Nat) (buf : Nat → Nat)
    (len : Nat) (p : storage_pool_t) (r : Nat) : storage_pool_t :=
  let rep_ext := ext.replica_extents r
  let rep := p.extents rep_ext
  let rep_dev := p.devices rep.device_id
  let rep_offset := rep.device_offset + extent_offset
  let wr := block_write rep_dev rep_offset buf len
  { p with devices := PureVisor.upd p.devices rep.device_id wr.1 }

/-- The replica loop of `volume_submit` (`src/storage/pool.c`, lines 83-89):
write the same payload to every replica extent of `ext`. -/
def write_replicas (pool : storage_pool_t) (ext : extent_info_t)
    (extent_offset : Nat) (buf : Nat → Nat) (len : Nat) : storage_pool_t :=
  (List.range ext.replica_count).foldl (write_replica_step ext extent_offset buf len) pool

/-- Shallow embedding of `volume_submit` (`src/storage/pool.c`, lines 26-99):
extent lookup, thin allocate-on-write, zero-fill reads of unmapped extents,
then the device I/O and the replica writes. -/
def volume_submit (pool : storage_pool_t) (vol : storage_volume_t)
    (op offset len : Nat) (buf : Nat → Nat) : submit_result_t :=
  if ¬ vol.online ∨ pool.state = POOL_STATE_OFFLINE then
    { pool := pool, vol := vol, status := -1, buffer := buf }
  else
    let extent_idx := offset / POOL_EXTENT_SIZE
    let extent_offset := offset % POOL_EXTENT_SIZE
    if extent_idx ≥ vol.num_extents then
      { pool := pool, vol := vol, status := -1, buffer := buf }
    else
      let pe0 := vol.extent_map extent_idx
      -- thin provisioning: allocate on write
      let step : Option (storage_pool_t × storage_volume_t × Nat) :=
        if pe0 = 0 ∧ op = BLOCK_OP_WRITE then
          match pool_alloc_extent pool with
          | none => none
          | some (pool1, pe) =>
            some (pool1,
              { vol with extent_map := PureVisor.upd vol.extent_map extent_idx pe,
                         allocated := vol.allocated + POOL_EXTENT_SIZE }, pe)
        else some (pool, vol, pe0)
      match step with
      | none => { pool := pool, vol := vol, status := -1, buffer := buf }
      | some (pool1, vol1, pool_extent) =>
        -- unallocated read returns zeros
        if pool_extent = 0 ∧ op = BLOCK_OP_READ then
          { pool := pool1, vol := vol1, status := 0,
            buffer := fun i => if i < len then 0 else buf i }
        else
          let ext := pool1.extents pool_extent
          let phys_dev := pool1.devices ext.device_id
          let phys_offset := ext.device_offset + extent_offset
          if op = BLOCK_OP_READ then
            let rd := block_read phys_dev phys_offset buf len
            { pool := { pool1 with read_ops := pool1.read_ops + 1,
                                   read_bytes := pool1.read_bytes + len },
              vol := vol1, status := rd.2, buffer := rd.1 }
          else if op = BLOCK_OP_WRITE then
            let wr := block_write phys_dev phys_offset buf len
            let pool2 := { pool1 with devices := PureVisor.upd pool1.devices ext.device_id wr.1 }
            let pool3 := write_replicas pool2 ext extent_offset buf len
            { pool := { pool3 with write_ops := pool3.write_ops + 1,
                                   write_bytes := pool3.write_bytes + len },
              vol := vol1, status := wr.2, buffer := buf }
          else
            { pool := pool1, vol := vol1, status := 0, buffer := buf }

end PureVisor.Pool

namespace PureVisor.Paging

/-- Page-table entry flag bits (`include/mm/paging.h`). -/
def PTE_PRESENT : Nat := 1

def PTE_WRITABLE : Nat := 2

def PTE_USER : Nat := 4

def PTE_CACHE_DISABLE : Nat := 16

def PTE_HUGE : Nat := 128

def PTE_NO_EXECUTE : Nat := 2 ^ 63

/-- `PTE_ADDR_MASK` (`include/mm/paging.h`). -/
def PTE_ADDR_MASK : Nat := 0x000FFFFFFFFFF000

/-- Mapping request flags (`include/mm/paging.h`). -/
def MAP_USER : Nat := 0x01

def MAP_WRITE : Nat := 0x02

def MAP_EXEC : Nat := 0x04

def MAP_NOCACHE : Nat := 0x08

def MAP_HUGE_2M : Nat := 0x10

def MAP_HUGE_1G : Nat := 0x20

def PAGE_SIZE : Nat := 4096

def TWO_MB : Nat := 2 * 1024 * 1024

def ONE_GB : Nat := 1024 * 1024 * 1024

/-- Table index extraction macros (`include/mm/paging.h`, lines 31-35). -/
def pml4_index (v : Nat) : Nat := (v >>> 39) % 512

def pdpt_index (v : Nat) : Nat := (v >>> 30) % 512

def pd_index (v : Nat) : Nat := (v >>> 21) % 512

def pt_index (v : Nat) : Nat := (v >>> 12) % 512

def page_offset (v : Nat) : Nat := v % 4096

/-- A page directory entry.  The raw 64-bit word of the C table is kept for
huge entries (its address and permission bits are read back by
`paging_get_phys`); a pointer entry holds its page table structurally, a raw
zero word is `absent`.  Page tables (the leaf level) are raw-word arrays. -/
inductive PDE where
  | absent
  | huge (raw : Nat)
  | table (pt : Nat → Nat)

/-- A page-directory-pointer-table entry (1 GiB huge pages live here). -/
inductive PDPTE where
  | absent
  | huge (raw : Nat)
  | table (pd : Nat → PDE)

/-- A PML4 entry; the C code never writes `PTE_HUGE` at this level. -/
inductive PML4E where
  | absent
  | table (pdpt : Nat → PDPTE)

/-- A virtual-memory context: its top-level table (`vm_context_t.pml4`). -/
def PML4 : Type := Nat → PML4E

/-- The user (lower-half) part of the context built by
`paging_create_context` (`src/mm/paging.c`, lines 130-151): all entries
clear.  The kernel mappings copied into the upper half are not modelled; the
claims below only exercise lower-half addresses. -/
def paging_empty_context : PML4 := fun _ => PML4E.absent

/-- `flags_to_pte` (`src/mm/paging.c`, lines 27-37). -/
def flags_to_pte (flags : Nat) : Nat :=
  let f1 := PTE_PRESENT
  let f2 := if flags &&& MAP_WRITE ≠ 0 then f1 ||| PTE_WRITABLE else f1
  let f3 := if flags &&& MAP_USER ≠ 0 then f2 ||| PTE_USER else f2
  let f4 := if flags &&& MAP_EXEC = 0 then f3 ||| PTE_NO_EXECUTE else f3
  if flags &&& MAP_NOCACHE ≠ 0 then f4 ||| PTE_CACHE_DISABLE else f4

/-- The raw word found by `get_pte(pml4, virt, false)` followed by the
caller's dereference (`src/mm/paging.c`, lines 59-110): walks the four
levels, stopping at a huge entry at the PDPT or PD level; `none` when an
intermediate entry is not present. -/
def get_pte_lookup (m : PML4) (virt : Nat) : Option Nat :=
  match m (pml4_index virt) with
  | .absent => none
  | .table pdpt =>
    match pdpt (pdpt_index virt) with
    | .absent => none
    | .huge v => some v
    | .table pd =>
      match pd (pd_index virt) with
      | .absent => none
      | .huge v => some v
      | .table pt => some (pt (pt_index virt))

/-- `paging_get_phys` (`src/mm/paging.c`, lines 296-304):
`(*pte & PTE_ADDR_MASK) | PAGE_OFFSET(virt)`, or 0 when unmapped. -/
def paging_get_phys (m : PML4) (virt : Nat) : Nat :=
  match get_pte_lookup m virt with
  | none => 0
  | some v =>
    if v &&& PTE_PRESENT = 0 then 0 else (v &&& PTE_ADDR_MASK) ||| page_offset virt

/-- `get_pte(pml4, virt, true)` followed by the store `*pte = val` — one
iteration of the 4 KiB loop of `paging_map` (`src/mm/paging.c`, lines
262-272).  Missing intermediate tables are created zeroed.  When the walk
meets a huge entry at the PDPT or PD level, `get_pte` returns that slot and
the store turns it into a non-huge entry whose pointee is an arbitrary
physical frame; that frame is not a modelled table and reads back as an
empty one. -/
def map4k_one (m : PML4) (virt val : Nat) : PML4 :=
  let i4 := pml4_index virt
  let i3 := pdpt_index virt
  let i2 := pd_index virt
  let i1 := pt_index virt
  let pdpt : Nat → PDPTE :=
    match m i4 with
    | .table t => t
    | .absent => fun _ => PDPTE.absent
  match pdpt i3 with
  | .huge _ =>
    PureVisor.upd m i4 (.table (PureVisor.upd pdpt i3 (PDPTE.table (fun _ => PDE.absent))))
  | _ =>
    let pd : Nat → PDE :=
      match pdpt i3 with
      | .table t => t
      | _ => fun _ => PDE.absent
    match pd i2 with
    | .huge _ =>
      PureVisor.upd m i4 (.table (PureVisor.upd pdpt i3
        (.table (PureVisor.upd pd i2 (PDE.table (fun _ => 0))))))
    | _ =>
      let pt : Nat → Nat :=
        match pd i2 with
        | .table t => t
        | _ => fun _ => 0
      PureVisor.upd m i4 (.table (PureVisor.upd pdpt i3
        (.table (PureVisor.upd pd i2 (.table (PureVisor.upd pt i1 val))))))

/-- The chain creation performed by `get_pte(pml4, virt, true)` alone
(`src/mm/paging.c`, lines 59-110): missing PDPT/PD/PT tables are allocated
and linked; the walk stops (modifying nothing further) at a huge entry. -/
def ensure_chain (m : PML4) (virt : Nat) : PML4 :=
  let i4 := pml4_index virt
  let i3 := pdpt_index virt
  let i2 := pd_index virt
  let pdpt : Nat → PDPTE :=
    match m i4 with
    | .table t => t
    | .absent => fun _ => PDPTE.absent
  match pdpt i3 with
  | .huge _ => m
  | _ =>
    let pd : Nat → PDE :=
      match pdpt i3 with
      | .table t => t
      | _ => fun _ => PDE.absent
    match pd i2 with
    | .huge _ => m
    | _ =>
      let pt : Nat → Nat :=
        match pd i2 with
        | .table t => t
        | _ => fun _ => 0
      PureVisor.upd m i4 (.table (PureVisor.upd pdpt i3
        (.table (PureVisor.upd pd i2 (.table pt)))))

/-- One iteration of the 1 GiB loop of `paging_map` (`src/mm/paging.c`, lines
215-228): `get_pte(..., true)` creates the chain (the PD/PT it allocates are
immediately orphaned), then the PDPT slot is overwritten with
`phys | pte_flags | PTE_HUGE`. -/
def map1g_one (m : PML4) (virt val : Nat) : PML4 :=
  let m1 := ensure_chain m virt
  match m1 (pml4_index virt) with
  | .absent => m1
  | .table pdpt =>
    PureVisor.upd m1 (pml4_index virt) (.table (PureVisor.upd pdpt (pdpt_index virt) (.huge val)))

/-- One iteration of the 2 MiB loop of `paging_map` (`src/mm/paging.c`, lines
233-257): PML4/PDPT entries are created if not present, then the PD slot is
written with `phys | pte_flags | PTE_HUGE`.  The code checks only
`PTE_PRESENT` on the PDPT entry: if that entry is a 1 GiB huge page its
address bits are dereferenced as a page directory and the store lands in an
unmodelled physical frame, leaving the tables unchanged. -/
def map2m_one (m : PML4) (virt val : Nat) : PML4 :=
  let i4 := pml4_index virt
  let i3 := pdpt_index virt
  let i2 := pd_index virt
  let pdpt : Nat → PDPTE :=
    match m i4 with
    | .table t => t
    | .absent => fun _ => PDPTE.absent
  match pdpt i3 with
  | .huge _ => m
  | _ =>
    let pd : Nat → PDE :=
      match pdpt i3 with
      | .table t => t
      | _ => fun _ => PDE.absent
    PureVisor.upd m i4 (.table (PureVisor.upd pdpt i3
      (.table (PureVisor.upd pd i2 (PDE.huge val)))))

/-- Walk state threaded through the three mapping loops of `paging_map`. -/
structure map_cursor where
  m : PML4
  virt : Nat
  phys : Nat
  size : Nat

/-- The `while (size >= GB)` loop of `paging_map` (lines 215-228). -/
def map_loop_1g (c : map_cursor) (pte_flags : Nat) : map_cursor :=
  if h : c.size ≥ ONE_GB then
    map_loop_1g
      { m := map1g_one c.m c.virt (c.phys ||| pte_flags ||| PTE_HUGE),
        virt := c.virt + ONE_GB, phys := c.phys + ONE_GB, size := c.size - ONE_GB }
      pte_flags
  else c
termination_by c.size
decreasing_by simp only [ONE_GB] at h ⊢; omega

/-- The `while (size >= 2 * MB)` loop of `paging_map` (lines 233-257). -/
def map_loop_2m (c : map_cursor) (pte_flags : Nat) : map_cursor :=
  if h : c.size ≥ TWO_MB then
    map_loop_2m
      { m := map2m_one c.m c.virt (c.phys ||| pte_flags ||| PTE_HUGE),
        virt := c.virt + TWO_MB, phys := c.phys + TWO_MB, size := c.size - TWO_MB }
      pte_flags
  else c
termination_by c.size
decreasing_by simp only [TWO_MB] at h ⊢; omega

/-- The trailing 4 KiB loop of `paging_map` (lines 262-272).  (`size` is a
`size_t` in C; on a size that is not a multiple of the page size the C
subtraction would wrap — `Nat` subtraction saturates instead.  All claims use
page-aligned sizes, where the two agree.) -/
def map_loop_4k (c : map_cursor) (pte_flags : Nat) : map_cursor :=
  if h : c.size > 0 then
    map_loop_4k
      { m := map4k_one c.m c.virt (c.phys ||| pte_flags),
        virt := c.virt + PAGE_SIZE, phys := c.phys + PAGE_SIZE, size := c.size - PAGE_SIZE }
      pte_flags
  else c
termination_by c.size
decreasing_by simp only [PAGE_SIZE] at h ⊢; omega

/-- `paging_map` (`src/mm/paging.c`, lines 205-275).  Page-table allocation
always succeeds in the model, so the `-1` failure paths are not represented. -/
def paging_map (m : PML4) (virt phys size flags : Nat) : PML4 :=
  let pte_flags := flags_to_pte flags
  let c0 : map_cursor := { m := m, virt := virt, phys := phys, size := size }
  let c1 := if flags &&& MAP_HUGE_1G ≠ 0 then map_loop_1g c0 pte_flags else c0
  let c2 := if flags &&& MAP_HUGE_2M ≠ 0 then map_loop_2m c1 pte_flags else c1
  (map_loop_4k c2 pte_flags).m

/-- One iteration of `paging_unmap` (`src/mm/paging.c`, lines 281-291):
`get_pte(..., false)`, and if the entry is present, store 0 through it. -/
def unmap_one (m : PML4) (virt : Nat) : PML4 :=
  let i4 := pml4_index virt
  let i3 := pdpt_index virt
  let i2 := pd_index virt
  let i1 := pt_index virt
  match m i4 with
  | .absent => m
  | .table pdpt =>
    match pdpt i3 with
    | .absent => m
    | .huge v =>
      if v &&& PTE_PRESENT ≠ 0 then PureVisor.upd m i4 (.table (PureVisor.upd pdpt i3 .absent))
      else m
    | .table pd =>
      match pd i2 with
      | .absent => m
      | .huge v =>
        if v &&& PTE_PRESENT ≠ 0 then
          PureVisor.upd m i4 (.table (PureVisor.upd pdpt i3 (.table (PureVisor.upd pd i2 .absent))))
        else m
      | .table pt =>
        if pt i1 &&& PTE_PRESENT ≠ 0 then
          PureVisor.upd m i4 (.table (PureVisor.upd pdpt i3
            (.table (PureVisor.upd pd i2 (.table (PureVisor.upd pt i1 0))))))
        else m

/-- `paging_unmap` (`src/mm/paging.c`, lines 277-294). -/
def paging_unmap (m : PML4) (virt size : Nat) : PML4 :=
  if h : size > 0 then
    paging_unmap (unmap_one m virt) (virt + PAGE_SIZE)
      (if size ≥ PAGE_SIZE then size - PAGE_SIZE else 0)
  else m
termination_by size
decreasing_by simp only [PAGE_SIZE] at *; split <;> omega

end PureVisor.Paging

namespace PureVisor.Pmm

/-- `PMM_MAX_ORDER` (`include/mm/pmm.h`). -/
def PMM_MAX_ORDER : Nat := 11

def PAGE_SIZE : Nat := 4096

/-- Page flags (`include/mm/pmm.h`). -/
def PAGE_FLAG_PRESENT : Nat := 1

def PAGE_FLAG_FREE : Nat := 2

def PAGE_FLAG_KERNEL : Nat := 4

def PAGE_FLAG_RESERVED : Nat := 16

/-- Zone indices (`mem_zone_t`). -/
def ZONE_DMA : Nat := 0

def ZONE_NORMAL : Nat := 1

def ZONE_HIGH : Nat := 2

/-- A page descriptor (`page_t`); the intrusive `next`/`prev` pointers live in
the per-zone lists of the model instead. -/
structure page_t where
  flags : Nat
  order : Nat
  refcount : Nat
  deriving DecidableEq, Repr

/-- A buddy free list (`free_list_t`): the chain of block-head page frame
numbers starting at `head`, plus the block counter. -/
structure free_list_t where
  head : List Nat
  count : Nat
  deriving DecidableEq, Repr

/-- A memory zone (`zone_t`) reduced to the fields the allocator mutates. -/
structure zone_t where
  free_lists : Nat → free_list_t
  free_pages : Nat

/-- The allocator state: the global page descriptor array, the three zones and
the statistics counters of `src/mm/pmm.c`. -/
structure pmm_state_t where
  pages : Nat → page_t
  page_count : Nat
  zones : Nat → zone_t
  stats_alloc_count : Nat
  stats_free_count : Nat
  stats_free_memory : Nat
  stats_used_memory : Nat

/-- `get_zone` (`src/mm/pmm.c`, lines 40-45), as a zone index. -/
def get_zone (addr : Nat) : Nat :=
  if addr < 16 * (1024 * 1024) then ZONE_DMA
  else if addr < 4 * (1024 * 1024 * 1024) then ZONE_NORMAL
  else ZONE_HIGH

/-- Zone of a page frame number (`get_zone` applied to its address). -/
def zone_of_pfn (pfn : Nat) : Nat := get_zone (pfn * PAGE_SIZE)

/-- `free_list_add` (`src/mm/pmm.c`, lines 47-60): stamp the page descriptor
(`flags = PAGE_FLAG_FREE`, the order), push the block onto the list head, and
credit `2 ^ order` pages to the zone. -/
def free_list_add (s : pmm_state_t) (z pfn order : Nat) : pmm_state_t :=
  let zone := s.zones z
  let fl := zone.free_lists order
  { s with
    pages := PureVisor.upd s.pages pfn
      { (s.pages pfn) with flags := PAGE_FLAG_FREE, order := order },
    zones := PureVisor.upd s.zones z
      { zone with
        free_lists := PureVisor.upd zone.free_lists order
          { head := pfn :: fl.head, count := fl.count + 1 },
        free_pages := zone.free_pages + 2 ^ order } }

/-- `free_list_remove` (`src/mm/pmm.c`, lines 62-74): unlink a block assumed
to be on the list (the C code unlinks through the page's `next`/`prev`
pointers) and debit `2 ^ order` pages.  The page's flags are NOT cleared
here.  (The C counters are `uint64_t`; the saturating `Nat` subtraction
agrees on every state where the block really is on the list.) -/
def free_list_remove (s : pmm_state_t) (z pfn order : Nat) : pmm_state_t :=
  let zone := s.zones z
  let fl := zone.free_lists order
  { s with
    zones := PureVisor.upd s.zones z
      { zone with
        free_lists := PureVisor.upd zone.free_lists order
          { head := fl.head.erase pfn, count := fl.count - 1 },
        free_pages := zone.free_pages - 2 ^ order } }

/-- `split_block` (`src/mm/pmm.c`, lines 84-91): while `cur > target`, insert
the upper buddy `pfn + 2 ^ (cur-1)` at order `cur - 1`. -/
def split_block (s : pmm_state_t) (z pfn : Nat) (cur target : Nat) : pmm_state_t :=
  if h : cur > target then
    split_block (free_list_add s z (pfn + 2 ^ (cur - 1)) (cur - 1)) z pfn (cur - 1) target
  else s
termination_by cur
decreasing_by omega

/-- `coalesce_buddies` (`src/mm/pmm.c`, lines 93-104): while below the top
order, merge with the buddy block whenever the buddy's descriptor claims it
free at the same order (`get_buddy` returns `NULL` past the end of the page
array); finally insert the merged block. -/
def coalesce_buddies (s : pmm_state_t) (z pfn order : Nat) : pmm_state_t :=
  if h : order < PMM_MAX_ORDER then
    let buddy_pfn := pfn ^^^ (1 <<< order)
    if buddy_pfn ≥ s.page_count then free_list_add s z pfn order
    else
      let bp := s.pages buddy_pfn
      if bp.flags &&& PAGE_FLAG_FREE = 0 ∨ bp.order ≠ order then free_list_add s z pfn order
      else
        let s1 := free_list_remove s z buddy_pfn order
        let pfn1 := if buddy_pfn < pfn then buddy_pfn else pfn
        coalesce_buddies s1 z pfn1 (order + 1)
  else free_list_add s z pfn order
termination_by PMM_MAX_ORDER - order
decreasing_by simp only [PMM_MAX_ORDER] at *; omega

/-- The inner `for (o = order; o <= PMM_MAX_ORDER; o++)` scan of
`pmm_alloc_pages`: the first order with a non-empty list. -/
def find_order (zone : zone_t) (o : Nat) : Option Nat :=
  if h : o > PMM_MAX_ORDER then none
  else
    match (zone.free_lists o).head with
    | _ :: _ => some o
    | [] => find_order zone (o + 1)
termination_by PMM_MAX_ORDER + 1 - o
decreasing_by simp only [PMM_MAX_ORDER] at *; omega

/-- The body of `pmm_alloc_pages` once a non-empty list of order `o` is found
in zone `z` (`src/mm/pmm.c`, lines 218-233): pop the head block, split down
to the requested order, stamp the descriptor allocated, update statistics,
return the physical address. -/
def alloc_from (s : pmm_state_t) (z o order : Nat) : pmm_state_t × Nat :=
  match ((s.zones z).free_lists o).head with
  | [] => (s, 0)
  | pfn :: _ =>
    let s1 := free_list_remove s z pfn o
    let s2 := if o > order then split_block s1 z pfn o order else s1
    let s3 := { s2 with
      pages := PureVisor.upd s2.pages pfn
        { flags := PAGE_FLAG_PRESENT ||| PAGE_FLAG_KERNEL, order := order, refcount := 1 },
      stats_alloc_count := s2.stats_alloc_count + 1,
      stats_free_memory := s2.stats_free_memory - 2 ^ order * PAGE_SIZE,
      stats_used_memory := s2.stats_used_memory + 2 ^ order * PAGE_SIZE }
    (s3, pfn * PAGE_SIZE)

/-- `pmm_alloc_pages` (`src/mm/pmm.c`, lines 208-240): reject orders above
`PMM_MAX_ORDER`, try `ZONE_NORMAL` then fall back to `ZONE_DMA` (the loop
`for (z = ZONE_NORMAL; z >= ZONE_DMA; z--)` never reaches `ZONE_HIGH`),
return the address or 0. -/
def pmm_alloc_pages (s : pmm_state_t) (order : Nat) : pmm_state_t × Nat :=
  if order > PMM_MAX_ORDER then (s, 0)
  else
    match find_order (s.zones ZONE_NORMAL) order with
    | some o => alloc_from s ZONE_NORMAL o order
    | none =>
      match find_order (s.zones ZONE_DMA) order with
      | some o => alloc_from s ZONE_DMA o order
      | none => (s, 0)

/-- `pmm_free_pages` (`src/mm/pmm.c`, lines 242-264): ignore a null address,
an over-large order, an out-of-range frame or a frame already flagged free;
otherwise update statistics and coalesce the block back in.  (`used_memory`
is `uint64_t` in C; the saturating subtraction agrees whenever the block was
really allocated.) -/
def pmm_free_pages (s : pmm_state_t) (addr order : Nat) : pmm_state_t :=
  if addr = 0 ∨ order > PMM_MAX_ORDER then s
  else
    let pfn := addr / PAGE_SIZE
    if pfn ≥ s.page_count then s
    else if (s.pages pfn).flags &&& PAGE_FLAG_FREE ≠ 0 then s
    else
      let z := get_zone addr
      let s1 := { s with
        stats_free_count := s.stats_free_count + 1,
        stats_free_memory := s.stats_free_memory + 2 ^ order * PAGE_SIZE,
        stats_used_memory := s.stats_used_memory - 2 ^ order * PAGE_SIZE }
      coalesce_buddies s1 z pfn order

/-- `pmm_get_free_pages` (`src/mm/pmm.c`, lines 303-310). -/
def pmm_get_free_pages (s : pmm_state_t) : Nat :=
  (s.zones 0).free_pages + (s.zones 1).free_pages + (s.zones 2).free_pages

/-- Run a list of allocation requests, collecting the `(address, order)` of
each successful allocation (a non-zero returned address). -/
def alloc_run (s : pmm_state_t) : List Nat → pmm_state_t × List (Nat × Nat)
  | [] => (s, [])
  | k :: ks =>
    let r := pmm_alloc_pages s k
    let rest := alloc_run r.1 ks
    (rest.1, (if r.2 ≠ 0 then [(r.2, k)] else []) ++ rest.2)

/-- Free a list of `(address, order)` pairs in order. -/
def free_run (s : pmm_state_t) : List (Nat × Nat) → pmm_state_t
  | [] => s
  | (addr, k) :: rest => free_run (pmm_free_pages s addr k) rest

/-- Does the byte of page `p` lie inside the block of order `o` headed at
`h`? -/
def in_block (h o p : Nat) : Prop := h ≤ p ∧ p < h + 2 ^ o

instance (h o p : Nat) : Decidable (in_block h o p) := by
  unfold in_block; infer_instance

/-- The set of page frames covered by some entry of some free list — the
"free set" of the allocator. -/
def free_covered (s : pmm_state_t) (p : Nat) : Prop :=
  ∃ z < 3, ∃ o < PMM_MAX_ORDER + 1, ∃ h ∈ ((s.zones z).free_lists o).head, in_block h o p

instance (s : pmm_state_t) (p : Nat) : Decidable (free_covered s p) := by
  unfold free_covered; infer_instance

/-- The set of page frames covered either by a free-list block or by an
outstanding allocation of the ghost list `A`. -/
def owned_covered (s : pmm_state_t) (A : List (Nat × Nat)) (p : Nat) : Prop :=
  free_covered s p ∨ ∃ ak ∈ A, in_block ak.1 ak.2 p

instance (s : pmm_state_t) (A : List (Nat × Nat)) (p : Nat) :
    Decidable (owned_covered s A p) := by
  unfold owned_covered; infer_instance

/-- All free-list blocks of the state, as `(head, order)` pairs. -/
def all_blocks (s : pmm_state_t) : List (Nat × Nat) :=
  (List.range 3).flatMap fun z =>
    (List.range (PMM_MAX_ORDER + 1)).flatMap fun o =>
      ((s.zones z).free_lists o).head.map fun h => (h, o)

/-- Two `(head, order)` blocks occupy disjoint page ranges. -/
def blocks_disjoint (a b : Nat × Nat) : Prop :=
  a.1 + 2 ^ a.2 ≤ b.1 ∨ b.1 + 2 ^ b.2 ≤ a.1

instance (a b : Nat × Nat) : Decidable (blocks_disjoint a b) := by
  unfold blocks_disjoint; infer_instance

/-- Structural well-formedness of every free-list entry: non-zero, aligned to
its order, inside the page array, in the list of its own zone, and with a
descriptor that matches the list (`flags = PAGE_FLAG_FREE`, `order` correct). -/
def lists_wf (s : pmm_state_t) : Prop :=
  ∀ z < 3, ∀ o < PMM_MAX_ORDER + 1, ∀ h ∈ ((s.zones z).free_lists o).head,
    0 < h ∧ 2 ^ o ∣ h ∧ h + 2 ^ o ≤ s.page_count ∧ zone_of_pfn h = z ∧
    (s.pages h).flags = PAGE_FLAG_FREE ∧ (s.pages h).order = o

/-- Well-formedness of the ghost allocation list: each outstanding block is
non-zero, aligned, in range, of a legal order, and its head descriptor is the
one `pmm_alloc_pages` wrote. -/
def ghost_wf (s : pmm_state_t) (A : List (Nat × Nat)) : Prop :=
  ∀ ak ∈ A, 0 < ak.1 ∧ 2 ^ ak.2 ∣ ak.1 ∧ ak.1 + 2 ^ ak.2 ≤ s.page_count ∧
    ak.2 ≤ PMM_MAX_ORDER ∧
    (s.pages ak.1).flags = PAGE_FLAG_PRESENT ||| PAGE_FLAG_KERNEL ∧
    (s.pages ak.1).order = ak.2

/-- Any page descriptor with the `PAGE_FLAG_FREE` bit set holds exactly the
value `free_list_add` stores. -/
def flags_clean (s : pmm_state_t) : Prop :=
  ∀ q < s.page_count, (s.pages q).flags &&& PAGE_FLAG_FREE ≠ 0 →
    (s.pages q).flags = PAGE_FLAG_FREE

/-- Start of the buddy-pair ("parent") block of the order-`o` block headed at
`q`. -/
def parent_lo (q o : Nat) : Nat := 2 ^ (o + 1) * (q / 2 ^ (o + 1))

/-- Stale-descriptor safety (with an extra already-merged region `E`, used
only inside the `coalesce_buddies` loop; `E = none` between operations):
whenever a descriptor carries the free pattern `(PAGE_FLAG_FREE, o)`, the
block it describes is aligned and in range, and either it really is on its
zone's free list at order `o`, or its whole parent block lies inside one
single owned block (one free-list block, one outstanding allocation, or the
extra region).  This is what makes the buddy test of `coalesce_buddies`
trustworthy. -/
def stale_ok (s : pmm_state_t) (A : List (Nat × Nat)) (E : Option (Nat × Nat)) : Prop :=
  ∀ o < PMM_MAX_ORDER + 1, ∀ q < s.page_count,
    (s.pages q).flags = PAGE_FLAG_FREE → (s.pages q).order = o →
    2 ^ o ∣ q ∧ q + 2 ^ o ≤ s.page_count ∧
    (q ∈ ((s.zones (zone_of_pfn q)).free_lists o).head ∨
      (∃ b ∈ all_blocks s, parent_lo q o ≥ b.1 ∧ parent_lo q o + 2 ^ (o + 1) ≤ b.1 + 2 ^ b.2) ∨
      (∃ ak ∈ A, parent_lo q o ≥ ak.1 ∧ parent_lo q o + 2 ^ (o + 1) ≤ ak.1 + 2 ^ ak.2) ∨
      (∃ e, E = some e ∧ parent_lo q o ≥ e.1 ∧ parent_lo q o + 2 ^ (o + 1) ≤ e.1 + 2 ^ e.2))

/-- The stored counters agree with the lists: each `free_list_t.count` is the
list length and each zone's `free_pages` is the number of pages its lists
cover. -/
def counts_wf (s : pmm_state_t) : Prop :=
  (∀ z < 3, ∀ o < PMM_MAX_ORDER + 1,
      ((s.zones z).free_lists o).count = ((s.zones z).free_lists o).head.length) ∧
  (∀ z < 3, (s.zones z).free_pages =
      (List.range (PMM_MAX_ORDER + 1)).foldr
        (fun o acc => 2 ^ o * ((s.zones z).free_lists o).head.length + acc) 0) ∧
  s.stats_free_memory = PAGE_SIZE * pmm_get_free_pages s

/-- Page frame 0 is never free (it is below the reserved kernel area at
initialisation and `pmm_free_pages` rejects address 0), so its descriptor
never carries the free pattern. -/
def page0_wf (s : pmm_state_t) : Prop := (s.pages 0).flags &&& PAGE_FLAG_FREE = 0

/-- Full allocator invariant relative to the outstanding allocations `A`. -/
def WF (s : pmm_state_t) (A : List (Nat × Nat)) : Prop :=
  lists_wf s ∧ ghost_wf s A ∧ (all_blocks s ++ A).Pairwise blocks_disjoint ∧
  flags_clean s ∧ stale_ok s A none ∧ counts_wf s ∧ page0_wf s

/-- View an outstanding allocation `(pfn, order)` as the `(address, order)`
pair `pmm_alloc_pages` returned for it. -/
def to_addr (ak : Nat × Nat) : Nat × Nat := (ak.1 * PAGE_SIZE, ak.2)

/-- Recover the `(pfn, order)` pair from a returned `(address, order)` pair. -/
def to_pfn (ak : Nat × Nat) : Nat × Nat := (ak.1 / PAGE_SIZE, ak.2)

/-- A tiny concrete allocator state used to witness the PMM theorems: an
8-frame page array whose frames 1-7 sit on the DMA order-0 free list, exactly
as `pmm_init` builds it (every available page inserted at order 0, frame 0
reserved). -/
def demo_state : pmm_state_t :=
  { pages := fun p =>
      if 1 ≤ p ∧ p < 8 then { flags := PAGE_FLAG_FREE, order := 0, refcount := 0 }
      else { flags := PAGE_FLAG_RESERVED, order := 0, refcount := 0 },
    page_count := 8,
    zones := fun z =>
      if z = 0 then
        { free_lists := fun o =>
            if o = 0 then { head := [7, 6, 5, 4, 3, 2, 1], count := 7 }
            else { head := [], count := 0 },
          free_pages := 7 }
      else { free_lists := fun _ => { head := [], count := 0 }, free_pages := 0 },
    stats_alloc_count := 0, stats_free_count := 0,
    stats_free_memory := 4096 * 7, stats_used_memory := 0 }

end PureVisor.Pmm

namespace PureVisor.Pool

/-- Fallback volume record (used only to satisfy `Option.getD`; every
scenario constructor below succeeds). -/
def default_volume : storage_volume_t :=
  { online := false, size := 0, allocated := 0, replication := 0,
    thin_provisioned := false, extent_map := fun _ => 0, num_extents := 0 }

/-- Scenario (spec S4): one 64 MiB RAM-backed device. -/
def c1_dev : block_device_t := { size := 64 * MB, readonly := false, contents := fun _ => 0 }

/-- Five payload bytes 72, 73, 74, 75, 76 ("HELLO"-style). -/
def c1_buf : Nat → Nat := fun i => if i < 5 then 72 + i else 0

/-- Pool with the 64 MiB device added (16 free extents, pool online). -/
def c1_pool : storage_pool_t := (pool_add_device pool_create c1_dev).getD pool_create

/-- Thin 16 MiB volume, replication `POOL_REPL_NONE`, on that pool. -/
def c1_created : storage_pool_t × storage_volume_t :=
  (volume_create c1_pool 1 (16 * MB) 0 true).getD (pool_create, default_volume)

/-- First write to the fresh thin volume: 5 bytes at offset 0. -/
def c1_write : submit_result_t :=
  volume_submit c1_created.1 c1_created.2 BLOCK_OP_WRITE 0 5 c1_buf

/-- Read back the same 5 bytes (the caller's buffer starts as 99s). -/
def c1_read : submit_result_t :=
  volume_submit c1_write.pool c1_write.vol BLOCK_OP_READ 0 5 (fun _ => 99)

/-- C6 scenario: a writable 12 MiB device and a read-only 8 MiB device. -/
def c6_dev0 : block_device_t := { size := 12 * MB, readonly := false, contents := fun _ => 0 }

def c6_dev1 : block_device_t := { size := 8 * MB, readonly := true, contents := fun _ => 0 }

/-- Pool over both devices (extents 0-2 on device 0, extents 3-4 on device 1). -/
def c6_pool : storage_pool_t :=
  ((pool_add_device pool_create c6_dev0).bind fun p => pool_add_device p c6_dev1).getD
    pool_create

/-- Thick 8 MiB volume with one replica per extent: logical extent 1 is backed
by pool extent 2 (device 0) with replica extent 3 (device 1, read-only). -/
def c6_created : storage_pool_t × storage_volume_t :=
  (volume_create c6_pool 1 (8 * MB) 1 false).getD (pool_create, default_volume)

/-- Five payload bytes 65-69. -/
def c6_buf : Nat → Nat := fun i => if i < 5 then 65 + i else 0

/-- Write 5 bytes at volume offset 4 MiB: the primary lands on device 0, the
replica write hits the read-only device 1 and fails. -/
def c6_write : submit_result_t :=
  volume_submit c6_created.1 c6_created.2 BLOCK_OP_WRITE (4 * MB) 5 c6_buf

/-- Witness scenario for the amended replica theorem: same layout but the
second device is writable. -/
def c6w_dev1 : block_device_t := { size := 8 * MB, readonly := false, contents := fun _ => 0 }

def c6w_pool : storage_pool_t :=
  ((pool_add_device pool_create c6_dev0).bind fun p => pool_add_device p c6w_dev1).getD
    pool_create

def c6w_created : storage_pool_t × storage_volume_t :=
  (volume_create c6w_pool 1 (8 * MB) 1 false).getD (pool_create, default_volume)

end PureVisor.Pool

namespace PureVisor.Raft

/-- A freshly initialised follower at term 1 with an empty log
(`raft_init` state after one term bump). -/
def c2_raft0 : raft_context_t :=
  { node_id := 1, state := RAFT_FOLLOWER, current_term := 1, voted_for := -1,
    log := fun _ => { index := 0, term := 0, type := 0, data_len := 0, data := [] },
    first_index := 0, last_index := 0, commit_index := 0, leader_id := 0,
    votes_received := 0, last_heartbeat := 0 }

/-- An acceptable AppendEntries request carrying one entry: same term,
`prev_log_index = 0`, `leader_commit = 1`. -/
def c2_req : raft_append_request_t :=
  { from_node := 2, term := 1, prev_log_index := 0, prev_log_term := 0,
    leader_commit := 1, entry_count := 1 }

def c2_result : raft_context_t × raft_append_response_t :=
  handle_append_request c2_raft0 c2_req 123

/-- A vote request whose log is exactly as up-to-date as the receiver's
(equal last term, equal last index). -/
def c7_req : raft_vote_request_t :=
  { from_node := 2, term := 1, last_log_index := 0, last_log_term := 0 }

def c7_result : raft_context_t × raft_vote_response_t :=
  handle_vote_request c2_raft0 c7_req 55

end PureVisor.Raft

namespace PureVisor.Scheduler

/-- Counterexample node: online, healthy, 8 threads, 1 VM, half its memory
free, no storage tracked, healthy network. -/
def c5_node : cluster_node_t :=
  { id := 1, name := "n1", state := 2, health_score := 100, network_healthy := true,
    vm_count := 1, cpu_total_threads := 8, memory_total_bytes := 100,
    memory_free_bytes := 50, memory_used_bytes := 50, storage_total_bytes := 0,
    storage_free_bytes := 0, tags := [] }

/-- Scheduler with the `scheduler_init` defaults and one VM (id 7) hosted on
node 1. -/
def c5_sched : scheduler_t :=
  { vm_manager := { vms := [{ id := 7, host_node_id := 1 }] },
    enable_overcommit := true, cpu_overcommit_ratio := 200,
    memory_overcommit_ratio := 150 }

/-- A SPREAD request with one affinity VM (id 7) co-located on the node. -/
def c5_req : sched_request_t :=
  { vcpus := 2, memory := 1, policy := SCHED_POLICY_SPREAD, required_tags := [],
    forbidden_nodes := [], affinity_vm_ids := [7], anti_affinity_vm_ids := [] }

def c5_score : node_score_t := scheduler_score_node c5_sched c5_node c5_req

end PureVisor.Scheduler

namespace PureVisor.Paging

/-- No entry anywhere in the context is a huge-page entry (every mapping was
installed through the 4 KiB path). -/
def pde_no_huge : PDE → Prop
  | .huge _ => False
  | .absent => True
  | .table _ => True

def pdpte_no_huge : PDPTE → Prop
  | .huge _ => False
  | .absent => True
  | .table pd => ∀ i, pde_no_huge (pd i)

def pml4e_no_huge : PML4E → Prop
  | .absent => True
  | .table pdpt => ∀ i, pdpte_no_huge (pdpt i)

def no_huge (m : PML4) : Prop := ∀ i, pml4e_no_huge (m i)

/-- The four table indices of a virtual address — two addresses with the same
tuple share the same page-table slot. -/
def page_tuple (v : Nat) : Nat × Nat × Nat × Nat :=
  (pml4_index v, pdpt_index v, pd_index v, pt_index v)

/-- Counterexample context: `map(ctx, 0, 8 MiB, 2 MiB, WRITE | HUGE_2M)` on a
fresh context. -/
def c3_ctx : PML4 :=
  paging_map paging_empty_context 0 (8 * 1024 * 1024) TWO_MB (MAP_WRITE ||| MAP_HUGE_2M)

end PureVisor.Paging

namespace PureVisor.Cpuid

/-- Claim C9: on a CPUID VM exit with guest EAX = 1 the returned ECX has bit 5
(VMX) and bit 31 (hypervisor-present) cleared; with guest EAX = 0x40000000 the
returned registers are eax = 0x40000001, ebx = "Pure", ecx = "Viso",
edx = "r\0\0\0"; and leaf 0x40000001 returns all zeros. -/
theorem c9_cpuid_leaves (host : Nat → Nat → cpuid_result_t) (rax rcx : Nat) :
    (rax % 2 ^ 32 = 1 →
      Nat.testBit (handle_cpuid host rax rcx).ecx 5 = false ∧
      Nat.testBit (handle_cpuid host rax rcx).ecx 31 = false) ∧
    (rax % 2 ^ 32 = 0x40000000 →
      handle_cpuid host rax rcx =
        { eax := 0x40000001, ebx := 0x65727550, ecx := 0x6F736956, edx := 0x00000072 }) ∧
    (rax % 2 ^ 32 = 0x40000001 →
      (handle_cpuid host rax rcx).eax = 0 ∧ (handle_cpuid host rax rcx).ebx = 0 ∧
      (handle_cpuid host rax rcx).ecx = 0 ∧ (handle_cpuid host rax rcx).edx = 0) := by
  have h5 : Nat.testBit (mask32 ^^^ CPUID_FEAT_ECX_VMX) 5 = false := by decide
  have h31 : Nat.testBit (mask32 ^^^ (1 <<< 31)) 31 = false := by decide
  refine ⟨fun h => ?_, fun h => ?_, fun h => ?_⟩
  · simp only [handle_cpuid, h]
    norm_num [Nat.testBit_land, h5, h31]
  · simp only [handle_cpuid]
    rw [h]
    norm_num
  · simp only [handle_cpuid]
    rw [h]
    norm_num

/-- Witness for `c9_cpuid_leaves`: a host CPUID reporting every ECX bit set,
guest EAX = 1. -/
theorem c9_cpuid_leaves_witness :
    Nat.testBit (handle_cpuid (fun _ _ => ⟨0, 0, 0xFFFFFFFF, 0⟩) 1 0).ecx 5 = false ∧
    Nat.testBit (handle_cpuid (fun _ _ => ⟨0, 0, 0xFFFFFFFF, 0⟩) 1 0).ecx 31 = false :=
  (c9_cpuid_leaves (fun _ _ => ⟨0, 0, 0xFFFFFFFF, 0⟩) 1 0).1 (by decide)

end PureVisor.Cpuid

namespace PureVisor.Scheduler

/-- Claim C5, counterexample: a feasible node with one co-located affinity VM
gets `affinity_score = 75` but `total_score = 70`, the bonus-free weighted
value; the claimed folded-in bonus of `(75 - 50) / 4 = 6` points is absent. -/
theorem c5_affinity_not_folded_counterexample :
    c5_score.feasible = true ∧
    c5_score.affinity_score = 75 ∧
    c5_score.total_score = 70 ∧
    c5_score.total_score ≠
      (c5_score.cpu_score * WEIGHT_CPU + c5_score.memory_score * WEIGHT_MEMORY +
        c5_score.storage_score * WEIGHT_STORAGE + c5_score.network_score * WEIGHT_NETWORK)
          / 100 +
      (c5_score.affinity_score - 50) / 4 := by decide

theorem sub64_eq_sub (a b : Nat) (hba : b ≤ a) (ha : a < 2 ^ 64) : sub64 a b = a - b := by
  have hb : b % 2 ^ 64 = b := Nat.mod_eq_of_lt (lt_of_le_of_lt hba ha)
  unfold sub64
  rw [hb]
  have h1 : a + 2 ^ 64 - b = (a - b) + 2 ^ 64 := by omega
  rw [h1, Nat.add_mod_right, Nat.mod_eq_of_lt (by omega)]

theorem mul100_div_le (x y : Nat) (hxy : x ≤ y) (hy : 0 < y) : x * 100 / y ≤ 100 := by
  have h := Nat.div_le_div_right (c := y) (Nat.mul_le_mul_right 100 hxy)
  calc x * 100 / y ≤ y * 100 / y := h
    _ = 100 := by rw [Nat.mul_comm, Nat.mul_div_cancel 100 hy]

/-- Claim C5, amended: for every feasible node (resource snapshot within the
64-bit ranges the code assumes), the total score equals
`(cpu_score*40 + memory_score*40 + storage_score*10 + network_score*10) / 100`
with NO affinity bonus folded in (the affinity score is computed but unused in
the total), and under policy PACK the total is 100 minus that weighted sum. -/
theorem c5_total_score_amended (sched : scheduler_t) (node : cluster_node_t)
    (req : sched_request_t)
    (hfeas : node_is_feasible sched node req = true)
    (hcpu0 : 0 < node.cpu_total_threads)
    (hused : node.vm_count * 2 ≤ node.cpu_total_threads)
    (hcpu32 : node.cpu_total_threads < 2 ^ 32)
    (hmem : node.memory_free_bytes ≤ node.memory_total_bytes)
    (hmem57 : node.memory_total_bytes < 2 ^ 57)
    (hst : node.storage_free_bytes ≤ node.storage_total_bytes)
    (hst57 : node.storage_total_bytes < 2 ^ 57) :
    (scheduler_score_node sched node req).cpu_score =
      (node.cpu_total_threads - node.vm_count * 2) * 100 / node.cpu_total_threads ∧
    (scheduler_score_node sched node req).memory_score =
      (if 0 < node.memory_total_bytes then
        node.memory_free_bytes * 100 / node.memory_total_bytes else 0) ∧
    (scheduler_score_node sched node req).storage_score =
      (if 0 < node.storage_total_bytes then
        node.storage_free_bytes * 100 / node.storage_total_bytes else 100) ∧
    (scheduler_score_node sched node req).network_score =
      (if node.network_healthy then 100 else 0) ∧
    (req.policy ≠ SCHED_POLICY_PACK →
      (scheduler_score_node sched node req).total_score =
        ((scheduler_score_node sched node req).cpu_score * WEIGHT_CPU +
         (scheduler_score_node sched node req).memory_score * WEIGHT_MEMORY +
         (scheduler_score_node sched node req).storage_score * WEIGHT_STORAGE +
         (scheduler_score_node sched node req).network_score * WEIGHT_NETWORK) / 100) ∧
    (req.policy = SCHED_POLICY_PACK →
      (scheduler_score_node sched node req).total_score =
        100 - ((scheduler_score_node sched node req).cpu_score * WEIGHT_CPU +
         (scheduler_score_node sched node req).memory_score * WEIGHT_MEMORY +
         (scheduler_score_node sched node req).storage_score * WEIGHT_STORAGE +
         (scheduler_score_node sched node req).network_score * WEIGHT_NETWORK) / 100) := by
  have h64 : (2 : Nat) ^ 32 < 2 ^ 64 := by norm_num
  have hvm32 : node.vm_count * 2 % 2 ^ 32 = node.vm_count * 2 :=
    Nat.mod_eq_of_lt (lt_of_le_of_lt hused hcpu32)
  -- the cpu pipeline collapses to plain arithmetic
  have hcpu_field :
      sub64 node.cpu_total_threads (node.vm_count * 2 % 2 ^ 32) * 100 % 2 ^ 64 /
        node.cpu_total_threads % 2 ^ 32 =
      (node.cpu_total_threads - node.vm_count * 2) * 100 / node.cpu_total_threads := by
    rw [hvm32, sub64_eq_sub _ _ hused (lt_trans hcpu32 h64)]
    rw [Nat.mod_eq_of_lt (show (node.cpu_total_threads - node.vm_count * 2) * 100 < 2 ^ 64 by
      omega)]
    exact Nat.mod_eq_of_lt (by
      have := mul100_div_le _ _ (Nat.sub_le node.cpu_total_threads (node.vm_count * 2)) hcpu0
      omega)
  have hmem_field :
      (if node.memory_total_bytes > 0 then
        node.memory_free_bytes * 100 % 2 ^ 64 / node.memory_total_bytes % 2 ^ 32 else 0) =
      (if 0 < node.memory_total_bytes then
        node.memory_free_bytes * 100 / node.memory_total_bytes else 0) := by
    split
    · rw [Nat.mod_eq_of_lt (show node.memory_free_bytes * 100 < 2 ^ 64 by omega)]
      exact Nat.mod_eq_of_lt (by
        have := mul100_div_le _ _ hmem (by assumption)
        omega)
    · rfl
  have hst_field :
      (if node.storage_total_bytes > 0 then
        node.storage_free_bytes * 100 % 2 ^ 64 / node.storage_total_bytes % 2 ^ 32 else 100) =
      (if 0 < node.storage_total_bytes then
        node.storage_free_bytes * 100 / node.storage_total_bytes else 100) := by
    split
    · rw [Nat.mod_eq_of_lt (show node.storage_free_bytes * 100 < 2 ^ 64 by omega)]
      exact Nat.mod_eq_of_lt (by
        have := mul100_div_le _ _ hst (by assumption)
        omega)
    · rfl
  have hscore : scheduler_score_node sched node req =
      { feasible := true,
        total_score :=
          (if req.policy = SCHED_POLICY_PACK then
            (100 + 2 ^ 32 -
              ((node.cpu_total_threads - node.vm_count * 2) * 100 / node.cpu_total_threads *
                  WEIGHT_CPU +
                (if 0 < node.memory_total_bytes then
                  node.memory_free_bytes * 100 / node.memory_total_bytes else 0) *
                  WEIGHT_MEMORY +
                (if 0 < node.storage_total_bytes then
                  node.storage_free_bytes * 100 / node.storage_total_bytes else 100) *
                  WEIGHT_STORAGE +
                (if node.network_healthy then 100 else 0) * WEIGHT_NETWORK) % 2 ^ 32 / 100) %
              2 ^ 32
          else
            ((node.cpu_total_threads - node.vm_count * 2) * 100 / node.cpu_total_threads *
                WEIGHT_CPU +
              (if 0 < node.memory_total_bytes then
                node.memory_free_bytes * 100 / node.memory_total_bytes else 0) *
                WEIGHT_MEMORY +
              (if 0 < node.storage_total_bytes then
                node.storage_free_bytes * 100 / node.storage_total_bytes else 100) *
                WEIGHT_STORAGE +
              (if node.network_healthy then 100 else 0) * WEIGHT_NETWORK) % 2 ^ 32 / 100),
        cpu_score :=
          (node.cpu_total_threads - node.vm_count * 2) * 100 / node.cpu_total_threads,
        memory_score :=
          (if 0 < node.memory_total_bytes then
            node.memory_free_bytes * 100 / node.memory_total_bytes else 0),
        storage_score :=
          (if 0 < node.storage_total_bytes then
            node.storage_free_bytes * 100 / node.storage_total_bytes else 100),
        network_score := (if node.network_healthy then 100 else 0),
        affinity_score :=
          (if anti_affinity_pass sched node req.anti_affinity_vm_ids
              (affinity_pass sched node req.affinity_vm_ids 50) > 100 then 100
           else anti_affinity_pass sched node req.anti_affinity_vm_ids
              (affinity_pass sched node req.affinity_vm_ids 50)) } := by
    simp only [scheduler_score_node, hfeas, not_true_eq_false, if_false, gt_iff_lt,
      hcpu0, if_true]
    rw [hcpu_field]
    simp only [gt_iff_lt] at hmem_field hst_field
    rw [hmem_field, hst_field]
  -- component bounds, to undo the 32-bit wraps in the total
  have hcpu_le : (node.cpu_total_threads - node.vm_count * 2) * 100 /
      node.cpu_total_threads ≤ 100 := mul100_div_le _ _ (Nat.sub_le _ _) hcpu0
  have hmem_le : (if 0 < node.memory_total_bytes then
      node.memory_free_bytes * 100 / node.memory_total_bytes else 0) ≤ 100 := by
    split
    · exact mul100_div_le _ _ hmem (by assumption)
    · omega
  have hst_le : (if 0 < node.storage_total_bytes then
      node.storage_free_bytes * 100 / node.storage_total_bytes else 100) ≤ 100 := by
    split
    · exact mul100_div_le _ _ hst (by assumption)
    · omega
  have hnet_le : (if node.network_healthy then (100 : Nat) else 0) ≤ 100 := by
    split <;> omega
  have hsum_le : (node.cpu_total_threads - node.vm_count * 2) * 100 /
      node.cpu_total_threads * WEIGHT_CPU +
      (if 0 < node.memory_total_bytes then
        node.memory_free_bytes * 100 / node.memory_total_bytes else 0) * WEIGHT_MEMORY +
      (if 0 < node.storage_total_bytes then
        node.storage_free_bytes * 100 / node.storage_total_bytes else 100) * WEIGHT_STORAGE +
      (if node.network_healthy then 100 else 0) * WEIGHT_NETWORK ≤ 10000 := by
    simp only [WEIGHT_CPU, WEIGHT_MEMORY, WEIGHT_STORAGE, WEIGHT_NETWORK]
    omega
  rw [hscore]
  refine ⟨rfl, rfl, rfl, rfl, fun hpol => ?_, fun hpol => ?_⟩
  · simp only [if_neg hpol]
    rw [Nat.mod_eq_of_lt (lt_of_le_of_lt hsum_le (by norm_num))]
  · simp only [if_pos hpol]
    generalize hS : (node.cpu_total_threads - node.vm_count * 2) * 100 /
      node.cpu_total_threads * WEIGHT_CPU +
      (if 0 < node.memory_total_bytes then
        node.memory_free_bytes * 100 / node.memory_total_bytes else 0) * WEIGHT_MEMORY +
      (if 0 < node.storage_total_bytes then
        node.storage_free_bytes * 100 / node.storage_total_bytes else 100) * WEIGHT_STORAGE +
      (if node.network_healthy then 100 else 0) * WEIGHT_NETWORK = S
    rw [hS] at hsum_le
    rw [Nat.mod_eq_of_lt (lt_of_le_of_lt hsum_le (by norm_num))]
    have h1 : 100 + 2 ^ 32 - S / 100 = (100 - S / 100) + 2 ^ 32 := by omega
    rw [h1, Nat.add_mod_right, Nat.mod_eq_of_lt (by omega)]

end PureVisor.Scheduler

namespace PureVisor.Scheduler

/-- Witness for `c5_total_score_amended` on the concrete scenario node. -/
theorem c5_total_score_amended_witness :
    (scheduler_score_node c5_sched c5_node c5_req).cpu_score =
      (c5_node.cpu_total_threads - c5_node.vm_count * 2) * 100 / c5_node.cpu_total_threads ∧
    (scheduler_score_node c5_sched c5_node c5_req).memory_score =
      (if 0 < c5_node.memory_total_bytes then
        c5_node.memory_free_bytes * 100 / c5_node.memory_total_bytes else 0) ∧
    (scheduler_score_node c5_sched c5_node c5_req).storage_score =
      (if 0 < c5_node.storage_total_bytes then
        c5_node.storage_free_bytes * 100 / c5_node.storage_total_bytes else 100) ∧
    (scheduler_score_node c5_sched c5_node c5_req).network_score =
      (if c5_node.network_healthy then 100 else 0) ∧
    (c5_req.policy ≠ SCHED_POLICY_PACK →
      (scheduler_score_node c5_sched c5_node c5_req).total_score =
        ((scheduler_score_node c5_sched c5_node c5_req).cpu_score * WEIGHT_CPU +
         (scheduler_score_node c5_sched c5_node c5_req).memory_score * WEIGHT_MEMORY +
         (scheduler_score_node c5_sched c5_node c5_req).storage_score * WEIGHT_STORAGE +
         (scheduler_score_node c5_sched c5_node c5_req).network_score * WEIGHT_NETWORK)
           / 100) ∧
    (c5_req.policy = SCHED_POLICY_PACK →
      (scheduler_score_node c5_sched c5_node c5_req).total_score =
        100 - ((scheduler_score_node c5_sched c5_node c5_req).cpu_score * WEIGHT_CPU +
         (scheduler_score_node c5_sched c5_node c5_req).memory_score * WEIGHT_MEMORY +
         (scheduler_score_node c5_sched c5_node c5_req).storage_score * WEIGHT_STORAGE +
         (scheduler_score_node c5_sched c5_node c5_req).network_score * WEIGHT_NETWORK)
           / 100) :=
  c5_total_score_amended c5_sched c5_node c5_req (by decide) (by decide) (by decide)
    (by decide) (by decide) (by decide) (by decide) (by decide)

end PureVisor.Scheduler

namespace PureVisor.Raft

/-- Claim C7, counterexample: a candidate whose last log term and last log
index exactly equal the receiver's is granted the vote, although the claim
requires a strictly higher last index when the last terms are equal. -/
theorem c7_vote_equal_index_counterexample :
    c7_result.2.granted = true ∧
    ¬ (c7_req.last_log_term > get_last_log_term c2_raft0 ∨
        (c7_req.last_log_term = get_last_log_term c2_raft0 ∧
          c7_req.last_log_index > c2_raft0.last_index)) := by
  constructor
  · rfl
  · decide

/-- Claim C7, amended: a vote is granted if and only if the request term is
at least the node's current term, the node's voted-for — as it stands after
the step-down that a strictly higher term performs (which resets it) — is
unset or equals the candidate, and the candidate's log is at least as
up-to-date: strictly higher last log term, or equal last term and a last
index at least as high (not strictly higher).  Granting stores the candidate
in voted-for and resets the election timer (`last_heartbeat := now`). -/
theorem c7_vote_grant_iff (raft : raft_context_t) (req : raft_vote_request_t) (now : Nat) :
    ((handle_vote_request raft req now).2.granted = true ↔
      (req.term ≥ raft.current_term ∧
        ((if req.term > raft.current_term then (-1 : Int) else raft.voted_for) = -1 ∨
          (if req.term > raft.current_term then (-1 : Int) else raft.voted_for) =
            (req.from_node : Int)) ∧
        (req.last_log_term > get_last_log_term raft ∨
          (req.last_log_term = get_last_log_term raft ∧
            req.last_log_index ≥ raft.last_index)))) ∧
    ((handle_vote_request raft req now).2.granted = true →
      (handle_vote_request raft req now).1.last_heartbeat = now ∧
      (handle_vote_request raft req now).1.voted_for = (req.from_node : Int)) := by
  by_cases hgt : req.term > raft.current_term
  · simp only [handle_vote_request, become_follower, if_pos hgt]
    simp only [get_last_log_term, get_log_entry]
    split_ifs with hup <;> simp_all <;> omega
  · simp only [handle_vote_request, become_follower, if_neg hgt]
    simp only [get_last_log_term, get_log_entry]
    split_ifs with hcan hup <;> simp_all

end PureVisor.Raft

namespace PureVisor.Raft

/-- Witness for `c7_vote_grant_iff`: the concrete equal-term, equal-index
request is granted and resets the election timer. -/
theorem c7_vote_grant_iff_witness :
    (handle_vote_request c2_raft0 c7_req 55).1.last_heartbeat = 55 ∧
    (handle_vote_request c2_raft0 c7_req 55).1.voted_for = ((c7_req.from_node : Nat) : Int) :=
  (c7_vote_grant_iff c2_raft0 c7_req 55).2 (by decide)

/-- Claim C2: `handle_append_request` accepts the request (same term, matching
`prev_log_index`), answers success with `match_index = prev_log_index +
entry_count`, yet leaves its log untouched — `last_index` stays 0 although the
request carried one entry, so the log does not contain the appended entries
as the claim (and classic Raft) requires; `commit_index` is clamped to the
unchanged `last_index`.  The C source marks the append step "simplified". -/
theorem c2_append_accept_does_not_append :
    c2_result.2.success = true ∧
    c2_result.2.match_index = 1 ∧
    c2_req.entry_count = 1 ∧
    c2_result.1.last_index = 0 ∧
    c2_result.1.commit_index = 0 := by
  refine ⟨rfl, rfl, rfl, rfl, rfl⟩

end PureVisor.Raft

namespace PureVisor.Heap

/-- Claim C4: the growth path of `kmalloc` for a 20000-byte request (adjusted
size 20032) needs 5 pages but allocates order 2 = 4 pages = 16384 bytes,
uses that too-small block without retrying, and `split_block`'s unsigned
`remaining = 16384 - 20032` wraps to `2^64 - 3648 ≥ MIN_BLOCK_SIZE`, so a
free block is fabricated at offset 20032 — beyond the end of the 16384-byte
region — corrupting the heap instead of returning n usable bytes. -/
theorem c4_kmalloc_growth_undersized :
    kmalloc_adjusted_size 20000 = 20032 ∧
    kmalloc_pages_needed 20032 = 5 ∧
    kmalloc_grow_block_size 20032 = 16384 ∧
    kmalloc_grow_block_size 20032 < kmalloc_adjusted_size 20000 ∧
    kmalloc_grow_path 20000 =
      { region_size := 16384, request_size := 20032,
        carved := some (20032, 2 ^ 64 - 3648) } ∧
    (kmalloc_grow_path 20000).region_size <
      ((kmalloc_grow_path 20000).carved.getD (0, 0)).1 := by
  refine ⟨by decide, by decide, by decide, by decide, ?_, by decide⟩
  decide

end PureVisor.Heap

namespace PureVisor.Pool

/-- Claim C1: on a fresh pool (one 64 MiB device) with a thin 16 MiB volume,
the first write succeeds but allocates pool extent id 0 — the value the
extent map uses as its "unallocated" sentinel — so reading the same range
back takes the zero-fill path and returns zeros, not the written bytes, and
`used_size` never moves.  Write-then-read does NOT yield `buf2 == buf`. -/
theorem c1_thin_write_read_lost :
    c1_write.status = 0 ∧
    c1_write.vol.extent_map 0 = 0 ∧
    (c1_write.pool.extents 0).state = EXTENT_ALLOCATED ∧
    c1_read.status = 0 ∧
    (∀ i < 5, c1_read.buffer i = 0) ∧
    c1_buf 0 = 72 ∧
    c1_read.buffer 0 ≠ c1_buf 0 ∧
    c1_write.pool.used_size = c1_created.1.used_size := by decide

/-- Claim C6, counterexample: logical extent 1 of the thick volume is backed
by pool extent 2 (writable device 0) with replica extent 3 on read-only
device 1; the write succeeds (status 0) and the replica `block_write` fails
with -1, yet the pool state stays `POOL_STATE_ONLINE` — it is never
downgraded to `POOL_STATE_DEGRADED` as the claim requires. -/
theorem c6_replica_failure_not_degraded :
    c6_created.2.extent_map 1 = 2 ∧
    (c6_created.1.extents 2).replica_count = 1 ∧
    (c6_created.1.extents 2).replica_extents 0 = 3 ∧
    (c6_created.1.extents 3).device_id = 1 ∧
    (c6_created.1.devices 1).readonly = true ∧
    c6_write.status = 0 ∧
    (block_write (c6_created.1.devices 1) ((c6_created.1.extents 3).device_offset + 0)
      c6_buf 5).2 = -1 ∧
    c6_write.pool.state = POOL_STATE_ONLINE ∧
    POOL_STATE_ONLINE ≠ POOL_STATE_DEGRADED := by decide

end PureVisor.Pool

namespace PureVisor.Pmm

/-- Claim C10: the PMM public interface is total on invalid arguments —
`pmm_alloc_pages` returns 0 (NONE) for every order above 11, and
`pmm_free_pages` leaves the state (free lists, flags, statistics) unchanged
when the address is 0, when the page frame is out of range, or when the
addressed page's descriptor already carries the FREE flag. -/
theorem c10_invalid_args_total (s : pmm_state_t) (addr order : Nat) :
    (order > 11 → pmm_alloc_pages s order = (s, 0)) ∧
    (addr = 0 → pmm_free_pages s addr order = s) ∧
    (addr / PAGE_SIZE ≥ s.page_count → pmm_free_pages s addr order = s) ∧
    ((s.pages (addr / PAGE_SIZE)).flags &&& PAGE_FLAG_FREE ≠ 0 →
      pmm_free_pages s addr order = s) := by
  refine ⟨fun h => ?_, fun h => ?_, fun h => ?_, fun h => ?_⟩
  · rw [pmm_alloc_pages, if_pos (by simp only [PMM_MAX_ORDER]; omega)]
  · rw [pmm_free_pages, if_pos (Or.inl h)]
  · simp only [pmm_free_pages]
    split
    · rfl
    · simp_all
  · simp only [pmm_free_pages]
    split
    · rfl
    · split
      · rfl
      · simp_all

/-- Witness for `c10_invalid_args_total` on the concrete demo allocator
state. -/
theorem c10_invalid_args_total_witness :
    pmm_alloc_pages demo_state 12 = (demo_state, 0) ∧
    pmm_free_pages demo_state 0 5 = demo_state ∧
    pmm_free_pages demo_state (9 * 4096) 0 = demo_state ∧
    pmm_free_pages demo_state (3 * 4096) 0 = demo_state :=
  ⟨(c10_invalid_args_total demo_state 0 12).1 (by decide),
   (c10_invalid_args_total demo_state 0 5).2.1 rfl,
   (c10_invalid_args_total demo_state (9 * 4096) 0).2.2.1 (by decide),
   (c10_invalid_args_total demo_state (3 * 4096) 0).2.2.2 (by decide)⟩

end PureVisor.Pmm

namespace PureVisor.Pool

/-- The replica loop never changes the extent table. -/
theorem foldl_step_extents (ext : extent_info_t) (eo : Nat) (buf : Nat → Nat) (len : Nat)
    (l : List Nat) (p : storage_pool_t) :
    (l.foldl (write_replica_step ext eo buf len) p).extents = p.extents := by
  induction l generalizing p with
  | nil => rfl
  | cons h t ih => simp only [List.foldl_cons, ih, write_replica_step]

/-- The replica loop never changes the pool state field. -/
theorem foldl_step_state (ext : extent_info_t) (eo : Nat) (buf : Nat → Nat) (len : Nat)
    (l : List Nat) (p : storage_pool_t) :
    (l.foldl (write_replica_step ext eo buf len) p).state = p.state := by
  induction l generalizing p with
  | nil => rfl
  | cons h t ih => simp only [List.foldl_cons, ih, write_replica_step]

/-- Devices whose id is hit by no replica of the loop are untouched. -/
theorem foldl_step_frame (ext : extent_info_t) (eo : Nat) (buf : Nat → Nat) (len : Nat)
    (l : List Nat) (p : storage_pool_t) (d : Nat)
    (hd : ∀ r ∈ l, (p.extents (ext.replica_extents r)).device_id ≠ d) :
    (l.foldl (write_replica_step ext eo buf len) p).devices d = p.devices d := by
  induction l generalizing p with
  | nil => rfl
  | cons h t ih =>
    simp only [List.foldl_cons]
    rw [ih]
    · simp only [write_replica_step]
      exact PureVisor.upd_other _ _ _ _ (fun hc => hd h (List.mem_cons_self h t) (by rw [← hc]))
    · intro r hr
      simp only [write_replica_step, PureVisor.upd]
      exact hd r (List.mem_cons_of_mem h hr)

/-- With pairwise-distinct replica devices, the loop leaves replica `r`'s
device exactly as its own `block_write` leaves it. -/
theorem foldl_step_get (ext : extent_info_t) (eo : Nat) (buf : Nat → Nat) (len : Nat)
    (l : List Nat) (p : storage_pool_t) (r : Nat) (hr : r ∈ l) (hnd : l.Nodup)
    (hdistinct : ∀ r2 ∈ l, r2 ≠ r →
      (p.extents (ext.replica_extents r2)).device_id ≠
        (p.extents (ext.replica_extents r)).device_id) :
    (l.foldl (write_replica_step ext eo buf len) p).devices
        ((p.extents (ext.replica_extents r)).device_id) =
      (block_write (p.devices ((p.extents (ext.replica_extents r)).device_id))
        ((p.extents (ext.replica_extents r)).device_offset + eo) buf len).1 := by
  induction l generalizing p with
  | nil => exact absurd hr (List.not_mem_nil r)
  | cons h t ih =>
    rcases List.mem_cons.mp hr with rfl | hrt
    · -- r is the head: the step writes r's device, the tail leaves it alone
      have hrt : r ∉ t := (List.nodup_cons.mp hnd).1
      simp only [List.foldl_cons]
      rw [foldl_step_frame]
      · simp only [write_replica_step]
        rw [PureVisor.upd_same]
      · intro r2 hr2
        simp only [write_replica_step]
        exact hdistinct r2 (List.mem_cons_of_mem r hr2)
          (fun hc => hrt (hc ▸ hr2))
    · -- r is in the tail; the head step touches a different device
      have hh : h ∉ t := (List.nodup_cons.mp hnd).1
      have hne : (p.extents (ext.replica_extents h)).device_id ≠
          (p.extents (ext.replica_extents r)).device_id :=
        hdistinct h (List.mem_cons_self h t) (fun hc => hh (hc ▸ hrt))
      simp only [List.foldl_cons]
      have hext : (write_replica_step ext eo buf len p h).extents = p.extents := rfl
      have hdev : (write_replica_step ext eo buf len p h).devices
          ((p.extents (ext.replica_extents r)).device_id) =
          p.devices ((p.extents (ext.replica_extents r)).device_id) := by
        simp only [write_replica_step]
        exact PureVisor.upd_other _ _ _ _ (fun hc => hne hc.symm)
      have := ih (write_replica_step ext eo buf len p h) hrt (List.nodup_cons.mp hnd).2
        (by rw [hext]; exact fun r2 hr2 hner2 =>
          hdistinct r2 (List.mem_cons_of_mem h hr2) hner2)
      rw [hext, hdev] at this
      exact this

end PureVisor.Pool

namespace PureVisor.Pool

/-- Claim C6, amended: for a write to a mapped (non-sentinel) volume extent
whose replicas sit on pairwise-distinct devices (all distinct from the
primary's), the same payload is written to every replica extent whose device
is writable and in range; a failing replica write is silently ignored — the
pool state is left unchanged (never downgraded to Degraded) and the overall
write completes with the primary write's status. -/
theorem c6_replica_writes_amended (pool : storage_pool_t) (vol : storage_volume_t)
    (off len : Nat) (buf : Nat → Nat)
    (hon : vol.online = true)
    (hst : pool.state ≠ POOL_STATE_OFFLINE)
    (hidx : off / POOL_EXTENT_SIZE < vol.num_extents)
    (he : vol.extent_map (off / POOL_EXTENT_SIZE) ≠ 0)
    (hdistinct :
      ∀ r1 < (pool.extents (vol.extent_map (off / POOL_EXTENT_SIZE))).replica_count,
      ∀ r2 < (pool.extents (vol.extent_map (off / POOL_EXTENT_SIZE))).replica_count,
        r1 ≠ r2 →
        (pool.extents ((pool.extents (vol.extent_map (off / POOL_EXTENT_SIZE))).replica_extents
          r1)).device_id ≠
        (pool.extents ((pool.extents (vol.extent_map (off / POOL_EXTENT_SIZE))).replica_extents
          r2)).device_id)
    (hprim : ∀ r < (pool.extents (vol.extent_map (off / POOL_EXTENT_SIZE))).replica_count,
      (pool.extents ((pool.extents (vol.extent_map (off / POOL_EXTENT_SIZE))).replica_extents
        r)).device_id ≠
      (pool.extents (vol.extent_map (off / POOL_EXTENT_SIZE))).device_id) :
    (volume_submit pool vol BLOCK_OP_WRITE off len buf).pool.state = pool.state ∧
    (volume_submit pool vol BLOCK_OP_WRITE off len buf).status =
      (block_write
        (pool.devices (pool.extents (vol.extent_map (off / POOL_EXTENT_SIZE))).device_id)
        ((pool.extents (vol.extent_map (off / POOL_EXTENT_SIZE))).device_offset +
          off % POOL_EXTENT_SIZE) buf len).2 ∧
    (∀ r < (pool.extents (vol.extent_map (off / POOL_EXTENT_SIZE))).replica_count,
      (pool.devices ((pool.extents ((pool.extents
        (vol.extent_map (off / POOL_EXTENT_SIZE))).replica_extents r)).device_id)).readonly
        = false →
      (pool.extents ((pool.extents (vol.extent_map (off / POOL_EXTENT_SIZE))).replica_extents
          r)).device_offset + off % POOL_EXTENT_SIZE + len ≤
        (pool.devices ((pool.extents ((pool.extents
          (vol.extent_map (off / POOL_EXTENT_SIZE))).replica_extents r)).device_id)).size →
      ∀ i < len,
        ((volume_submit pool vol BLOCK_OP_WRITE off len buf).pool.devices
          ((pool.extents ((pool.extents
            (vol.extent_map (off / POOL_EXTENT_SIZE))).replica_extents r)).device_id)).contents
          ((pool.extents ((pool.extents
            (vol.extent_map (off / POOL_EXTENT_SIZE))).replica_extents r)).device_offset +
            off % POOL_EXTENT_SIZE + i) = buf i) := by
  have hc1 : ¬(¬vol.online = true ∨ pool.state = POOL_STATE_OFFLINE) := by
    simp [hon, hst]
  have hc2 : ¬(off / POOL_EXTENT_SIZE ≥ vol.num_extents) := by omega
  have hc3 : ¬(vol.extent_map (off / POOL_EXTENT_SIZE) = 0 ∧ True) := fun hc => he hc.1
  have hc4 : ¬(vol.extent_map (off / POOL_EXTENT_SIZE) = 0 ∧
      BLOCK_OP_WRITE = BLOCK_OP_READ) := fun hc => he hc.1
  have hc5 : ¬(BLOCK_OP_WRITE = BLOCK_OP_READ) := by decide
  have hsubmit : volume_submit pool vol BLOCK_OP_WRITE off len buf =
      (let ext := pool.extents (vol.extent_map (off / POOL_EXTENT_SIZE))
       let eo := off % POOL_EXTENT_SIZE
       let wr := block_write (pool.devices ext.device_id) (ext.device_offset + eo) buf len
       let pool2 : storage_pool_t :=
         { pool with devices := PureVisor.upd pool.devices ext.device_id wr.1 }
       let pool3 := write_replicas pool2 ext eo buf len
       { pool := { pool3 with write_ops := pool3.write_ops + 1,
                              write_bytes := pool3.write_bytes + len },
         vol := vol, status := wr.2, buffer := buf }) := by
    simp only [volume_submit]
    rw [if_neg hc1, if_neg hc2, if_neg hc3]
    dsimp only []
    rw [if_neg hc4, if_neg hc5, if_pos trivial]
  rw [hsubmit]
  refine ⟨?_, rfl, ?_⟩
  · show (write_replicas _ _ _ _ _).state = pool.state
    rw [write_replicas, foldl_step_state]
  · intro r hr hro hsz i hi
    show ((write_replicas _ _ _ _ _).devices _).contents _ = buf i
    rw [write_replicas]
    have hget := foldl_step_get
      (pool.extents (vol.extent_map (off / POOL_EXTENT_SIZE))) (off % POOL_EXTENT_SIZE)
      buf len
      (List.range (pool.extents (vol.extent_map (off / POOL_EXTENT_SIZE))).replica_count)
      { pool with devices := (PureVisor.upd pool.devices
          (pool.extents (vol.extent_map (off / POOL_EXTENT_SIZE))).device_id
          (block_write
            (pool.devices (pool.extents (vol.extent_map (off / POOL_EXTENT_SIZE))).device_id)
            ((pool.extents (vol.extent_map (off / POOL_EXTENT_SIZE))).device_offset +
              off % POOL_EXTENT_SIZE) buf len).1) }
      r (List.mem_range.mpr hr) (List.nodup_range _)
      (fun r2 hr2 hner2 => hdistinct r2 (List.mem_range.mp hr2) r hr hner2)
    rw [hget]
    dsimp only [] 
    have hp2dev : PureVisor.upd pool.devices
        (pool.extents (vol.extent_map (off / POOL_EXTENT_SIZE))).device_id
        (block_write
          (pool.devices (pool.extents (vol.extent_map (off / POOL_EXTENT_SIZE))).device_id)
          ((pool.extents (vol.extent_map (off / POOL_EXTENT_SIZE))).device_offset +
            off % POOL_EXTENT_SIZE) buf len).1
        ((pool.extents ((pool.extents
          (vol.extent_map (off / POOL_EXTENT_SIZE))).replica_extents r)).device_id) =
        pool.devices ((pool.extents ((pool.extents
          (vol.extent_map (off / POOL_EXTENT_SIZE))).replica_extents r)).device_id) :=
      PureVisor.upd_other _ _ _ _ (hprim r hr)
    rw [hp2dev]
    rw [block_write, if_neg (by rw [hro]; exact Bool.false_ne_true), if_neg (by omega)]
    show (dev_write_bytes _ _ _ _).contents _ = buf i
    rw [dev_write_bytes]
    dsimp only [] 
    rw [if_pos (by omega)]
    congr 1
    omega

end PureVisor.Pool

namespace PureVisor.Pool

/-- Witness for `c6_replica_writes_amended` on the all-writable two-device
scenario: the pool state is unchanged and replica extent 3's device holds the
payload byte. -/
theorem c6_replica_writes_amended_witness :
    (volume_submit c6w_created.1 c6w_created.2 BLOCK_OP_WRITE (4 * MB) 5 c6_buf).pool.state =
      c6w_created.1.state ∧
    ((volume_submit c6w_created.1 c6w_created.2 BLOCK_OP_WRITE (4 * MB) 5 c6_buf).pool.devices
      ((c6w_created.1.extents ((c6w_created.1.extents
        (c6w_created.2.extent_map (4 * MB / POOL_EXTENT_SIZE))).replica_extents
          0)).device_id)).contents
      ((c6w_created.1.extents ((c6w_created.1.extents
        (c6w_created.2.extent_map (4 * MB / POOL_EXTENT_SIZE))).replica_extents
          0)).device_offset + 4 * MB % POOL_EXTENT_SIZE + 0) = c6_buf 0 := by
  have h := c6_replica_writes_amended c6w_created.1 c6w_created.2 (4 * MB) 5 c6_buf
    (by decide) (by decide) (by decide) (by decide)
    (by decide) (by decide)
  exact ⟨h.1, h.2.2 0 (by decide) (by decide) (by decide) 0 (by decide)⟩

end PureVisor.Pool

namespace PureVisor.Paging

/-- With the 1 GiB hint clear and the 2 MiB hint set, `paging_map` runs the
2 MiB loop followed by the (empty) 4 KiB loop. -/
theorem paging_map_eq_2m (m : PML4) (virt phys size flags : Nat)
    (h1 : flags &&& MAP_HUGE_1G = 0) (h2 : flags &&& MAP_HUGE_2M ≠ 0) :
    paging_map m virt phys size flags =
      (map_loop_4k (map_loop_2m { m := m, virt := virt, phys := phys, size := size }
        (flags_to_pte flags)) (flags_to_pte flags)).m := by
  simp only [paging_map]
  rw [if_neg (not_ne_iff.mpr h1), if_pos h2]

/-- With both huge-page hints clear, `paging_map` is just the 4 KiB loop. -/
theorem paging_map_eq_4k (m : PML4) (virt phys size flags : Nat)
    (h1 : flags &&& MAP_HUGE_1G = 0) (h2 : flags &&& MAP_HUGE_2M = 0) :
    paging_map m virt phys size flags =
      (map_loop_4k { m := m, virt := virt, phys := phys, size := size }
        (flags_to_pte flags)).m := by
  simp only [paging_map]
  rw [if_neg (not_ne_iff.mpr h1), if_neg (not_ne_iff.mpr h2)]

/-- Claim C3, counterexample: mapping one 2 MiB huge page of virtual address 0
to physical address 8 MiB and translating `virt + k` at `k = 4096 < size` does
not give `phys + k`: `paging_get_phys` rebuilds the address from the huge PDE
with `PAGE_OFFSET(virt)` — the low 12 bits only — so the translation returns
8 MiB, dropping bits 12-20 of the offset within the huge page. -/
theorem c3_huge_translate_counterexample :
    (0:Nat) + 4096 < TWO_MB ∧
    paging_get_phys c3_ctx ((0:Nat) + 4096) ≠ 8 * 1024 * 1024 + ((0:Nat) + 4096) := by
  have h2 : c3_ctx = (map_loop_4k (map_loop_2m
      { m := paging_empty_context, virt := 0, phys := 8 * 1024 * 1024, size := TWO_MB }
      (flags_to_pte (MAP_WRITE ||| MAP_HUGE_2M))) (flags_to_pte (MAP_WRITE ||| MAP_HUGE_2M))).m := by
    unfold c3_ctx
    exact paging_map_eq_2m _ _ _ _ _ (by decide) (by decide)
  have h3 : map_loop_2m
      { m := paging_empty_context, virt := 0, phys := 8 * 1024 * 1024, size := TWO_MB }
      (flags_to_pte (MAP_WRITE ||| MAP_HUGE_2M)) =
      { m := map2m_one paging_empty_context 0
          (8 * 1024 * 1024 ||| flags_to_pte (MAP_WRITE ||| MAP_HUGE_2M) ||| PTE_HUGE),
        virt := TWO_MB, phys := 8 * 1024 * 1024 + TWO_MB, size := 0 } := by
    rw [map_loop_2m]
    rw [dif_pos (by decide)]
    dsimp only []
    rw [map_loop_2m]
    rw [dif_neg (by decide)]
    norm_num
  rw [h2, h3]
  rw [map_loop_4k, dif_neg (by decide)]
  exact ⟨by decide, by decide⟩

/-- Every PTE built by `flags_to_pte` has the present bit set. -/
theorem flags_to_pte_present (f : Nat) : flags_to_pte f % 2 = 1 := by
  unfold flags_to_pte
  split_ifs <;> decide

/-- The flag bits of `flags_to_pte` lie outside the address mask. -/
theorem flags_to_pte_mask (f : Nat) : flags_to_pte f &&& PTE_ADDR_MASK = 0 := by
  unfold flags_to_pte
  split_ifs <;> decide

/-- The page-table walk depends only on the four table indices. -/
theorem lookup_congr (m : PML4) (w v : Nat) (h : page_tuple w = page_tuple v) :
    get_pte_lookup m w = get_pte_lookup m v := by
  simp only [page_tuple, Prod.mk.injEq] at h
  obtain ⟨h1, h2, h3, h4⟩ := h
  simp only [get_pte_lookup, h1, h2, h3, h4]

/-- A 4 KiB-aligned address below 2^52 is fixed by `PTE_ADDR_MASK`. -/
theorem aligned_and_mask (x : Nat) (ha : x % 4096 = 0) (hb : x < 2 ^ 52) :
    x &&& PTE_ADDR_MASK = x := by
  have hM : PTE_ADDR_MASK = 2 ^ 12 * (2 ^ 40 - 1) := by decide
  apply Nat.eq_of_testBit_eq
  intro j
  rw [Nat.testBit_and]
  by_cases h12 : 12 ≤ j
  · by_cases h52 : j < 52
    · have hMb : PTE_ADDR_MASK.testBit j = true := by
        rw [hM, Nat.testBit_mul_pow_two, Nat.testBit_two_pow_sub_one]
        simp only [h12, decide_True, Bool.true_and, decide_eq_true_eq]
        omega
      rw [hMb, Bool.and_true]
    · have hxb : x.testBit j = false :=
        Nat.testBit_eq_false_of_lt
          (lt_of_lt_of_le hb (Nat.pow_le_pow_right (by norm_num) (by omega)))
      rw [hxb, Bool.false_and]
  · have hxb : x.testBit j = false := by
      have hx : x = 2 ^ 12 * (x / 4096) := by omega
      rw [hx, Nat.testBit_mul_pow_two]
      simp [h12]
    rw [hxb, Bool.false_and]

/-- OR of a 4 KiB-aligned address with a page offset is addition. -/
theorem or_small_add (x r : Nat) (ha : x % 4096 = 0) (hr : r < 4096) :
    x ||| r = x + r := by
  have hx : x = 2 ^ 12 * (x / 4096) := by omega
  rw [hx]
  exact (Nat.mul_add_lt_is_or (by omega) _).symm

/-- Adding a sub-page offset changes neither the table indices nor more than
the page offset. -/
theorem page_tuple_add (v r : Nat) (ha : v % 4096 = 0) (hr : r < 4096) :
    page_tuple (v + r) = page_tuple v ∧ page_offset (v + r) = r := by
  have h12 : (v + r) >>> 12 = v >>> 12 := by
    simp only [Nat.shiftRight_eq_div_pow]
    omega
  refine ⟨?_, by simp only [page_offset]; omega⟩
  simp only [page_tuple, pml4_index, pdpt_index, pd_index, pt_index, Prod.mk.injEq,
    Nat.shiftRight_eq_div_pow]
  norm_num
  omega

/-- On 4 KiB-aligned addresses below 2^48 the four table indices determine
the address. -/
theorem page_tuple_inj (a b : Nat) (ha : a % 4096 = 0) (hb : b % 4096 = 0)
    (ha2 : a < 2 ^ 48) (hb2 : b < 2 ^ 48) (h : page_tuple a = page_tuple b) : a = b := by
  simp only [page_tuple, pml4_index, pdpt_index, pd_index, pt_index, Prod.mk.injEq,
    Nat.shiftRight_eq_div_pow] at h
  obtain ⟨h1, h2, h3, h4⟩ := h
  norm_num at h1 h2 h3 h4
  omega

/-- Normal form of one 4 KiB mapping store on a huge-free context: the walk
installs `val` under the address's four indices, reusing each table that was
already present and zero-initialised tables elsewhere. -/
theorem map4k_one_form (m : PML4) (v val : Nat) (hm : no_huge m) :
    ∃ P D T, map4k_one m v val =
      PureVisor.upd m (pml4_index v) (.table (PureVisor.upd P (pdpt_index v)
        (.table (PureVisor.upd D (pd_index v) (.table (PureVisor.upd T (pt_index v) val)))))) ∧
      (∀ i, pdpte_no_huge (P i)) ∧ (∀ i, pde_no_huge (D i)) ∧
      (m (pml4_index v) = PML4E.absent → P = fun _ => PDPTE.absent) ∧
      (∀ t, m (pml4_index v) = PML4E.table t → P = t) ∧
      (P (pdpt_index v) = PDPTE.absent → D = fun _ => PDE.absent) ∧
      (∀ t, P (pdpt_index v) = PDPTE.table t → D = t) ∧
      (D (pd_index v) = PDE.absent → T = fun _ => 0) ∧
      (∀ t, D (pd_index v) = PDE.table t → T = t) := by
  have hm4 := hm (pml4_index v)
  rcases h4 : m (pml4_index v) with _ | pdpt0
  · refine ⟨fun _ => PDPTE.absent, fun _ => PDE.absent, fun _ => 0, ?_, ?_, ?_, ?_, ?_, ?_, ?_, ?_, ?_⟩
    · simp only [map4k_one, h4]
    · intro i; trivial
    · intro i; trivial
    · intro _; rfl
    · intro t ht; cases ht
    · intro _; rfl
    · intro t ht; cases ht
    · intro _; rfl
    · intro t ht; cases ht
  · rw [h4] at hm4
    simp only [pml4e_no_huge] at hm4
    have hm3 := hm4 (pdpt_index v)
    rcases h3 : pdpt0 (pdpt_index v) with _ | rawh | pd0
    · refine ⟨pdpt0, fun _ => PDE.absent, fun _ => 0, ?_, hm4, ?_, ?_, ?_, ?_, ?_, ?_, ?_⟩
      · simp only [map4k_one, h4, h3]
      · intro i; trivial
      · intro ha; cases ha
      · intro t ht; cases ht; rfl
      · intro _; rfl
      · intro t ht; rw [h3] at ht; cases ht
      · intro _; rfl
      · intro t ht; cases ht
    · rw [h3] at hm3; exact absurd hm3 (by simp [pdpte_no_huge])
    · rw [h3] at hm3
      simp only [pdpte_no_huge] at hm3
      have hm2 := hm3 (pd_index v)
      rcases h2 : pd0 (pd_index v) with _ | rawh | pt0
      · refine ⟨pdpt0, pd0, fun _ => 0, ?_, hm4, hm3, ?_, ?_, ?_, ?_, ?_, ?_⟩
        · simp only [map4k_one, h4, h3, h2]
        · intro ha; cases ha
        · intro t ht; cases ht; rfl
        · intro ha; rw [ha] at h3; cases h3
        · intro t ht; rw [h3] at ht; cases ht; rfl
        · intro _; rfl
        · intro t ht; rw [h2] at ht; cases ht
      · rw [h2] at hm2; exact absurd hm2 (by simp [pde_no_huge])
      · refine ⟨pdpt0, pd0, pt0, ?_, hm4, hm3, ?_, ?_, ?_, ?_, ?_, ?_⟩
        · simp only [map4k_one, h4, h3, h2]
        · intro ha; cases ha
        · intro t ht; cases ht; rfl
        · intro ha; rw [ha] at h3; cases h3
        · intro t ht; rw [h3] at ht; cases ht; rfl
        · intro ha; rw [ha] at h2; cases h2
        · intro t ht; rw [h2] at ht; cases ht; rfl

/-- A 4 KiB mapping store never introduces a huge entry. -/
theorem map4k_one_no_huge (m : PML4) (v val : Nat) (hm : no_huge m) :
    no_huge (map4k_one m v val) := by
  obtain ⟨P, D, T, heq, hP, hD, _⟩ := map4k_one_form m v val hm
  rw [heq]
  intro i
  by_cases hi : i = pml4_index v
  · subst hi
    rw [PureVisor.upd_same]
    simp only [pml4e_no_huge]
    intro j
    by_cases hj : j = pdpt_index v
    · subst hj
      rw [PureVisor.upd_same]
      simp only [pdpte_no_huge]
      intro k
      by_cases hk : k = pd_index v
      · subst hk
        rw [PureVisor.upd_same]
        simp only [pde_no_huge]
      · rw [PureVisor.upd_other _ _ _ _ hk]
        exact hD k
    · rw [PureVisor.upd_other _ _ _ _ hj]
      exact hP j
  · rw [PureVisor.upd_other _ _ _ _ hi]
    exact hm i

/-- After a 4 KiB mapping store, the walk at the stored slot yields `val`. -/
theorem map4k_one_lookup_self (m : PML4) (v val w : Nat) (hm : no_huge m)
    (hw : page_tuple w = page_tuple v) :
    get_pte_lookup (map4k_one m v val) w = some val := by
  obtain ⟨P, D, T, heq, _⟩ := map4k_one_form m v val hm
  rw [lookup_congr _ _ _ hw, heq]
  simp only [get_pte_lookup, PureVisor.upd_same]

/-- A 4 KiB mapping store preserves every mapped entry of a different slot. -/
theorem map4k_one_lookup_frame (m : PML4) (v val w u : Nat) (hm : no_huge m)
    (hw : page_tuple w ≠ page_tuple v) (hl : get_pte_lookup m w = some u) :
    get_pte_lookup (map4k_one m v val) w = some u := by
  obtain ⟨P, D, T, heq, hP, hD, hc1, hc2, hc3, hc4, hc5, hc6⟩ := map4k_one_form m v val hm
  rw [heq]
  simp only [get_pte_lookup] at hl ⊢
  by_cases h4 : pml4_index w = pml4_index v
  · rw [h4] at hl ⊢
    rw [PureVisor.upd_same]
    dsimp only []
    rcases hm4 : m (pml4_index v) with _ | pdpt0
    · rw [hm4] at hl; exact Option.noConfusion hl
    · rw [hm4] at hl
      dsimp only [] at hl
      rw [hc2 pdpt0 hm4]
      by_cases h3 : pdpt_index w = pdpt_index v
      · rw [h3] at hl ⊢
        rw [PureVisor.upd_same]
        dsimp only []
        rcases hm3 : pdpt0 (pdpt_index v) with _ | rawh | pd0
        · rw [hm3] at hl; exact Option.noConfusion hl
        · have hph := hP (pdpt_index v)
          rw [hc2 pdpt0 hm4, hm3] at hph
          exact absurd hph (by simp [pdpte_no_huge])
        · rw [hm3] at hl
          dsimp only [] at hl
          rw [hc4 pd0 (by rw [hc2 pdpt0 hm4]; exact hm3)]
          by_cases h2 : pd_index w = pd_index v
          · rw [h2] at hl ⊢
            rw [PureVisor.upd_same]
            dsimp only []
            have h1 : pt_index w ≠ pt_index v := by
              intro he
              exact hw (by simp only [page_tuple, h4, h3, h2, he])
            rcases hm2 : pd0 (pd_index v) with _ | rawh | pt0
            · rw [hm2] at hl; exact Option.noConfusion hl
            · have hdh := hD (pd_index v)
              rw [hc4 pd0 (by rw [hc2 pdpt0 hm4]; exact hm3), hm2] at hdh
              exact absurd hdh (by simp [pde_no_huge])
            · rw [hm2] at hl
              dsimp only [] at hl
              rw [hc6 pt0 (by rw [hc4 pd0 (by rw [hc2 pdpt0 hm4]; exact hm3)]; exact hm2)]
              rw [PureVisor.upd_other _ _ _ _ h1]
              exact hl
          · rw [PureVisor.upd_other _ _ _ _ h2]
            exact hl
      · rw [PureVisor.upd_other _ _ _ _ h3]
        exact hl
  · rw [PureVisor.upd_other _ _ _ _ h4]
    exact hl

/-- The 4 KiB mapping loop: it keeps the context huge-free, preserves mapped
entries whose slot is hit by none of its pages, and installs
`phys + PAGE_SIZE * q ||| pte` at page `q` when the loop's pages occupy
pairwise-distinct slots. -/
theorem map_loop_4k_spec (pte : Nat) (size : Nat) :
    ∀ m virt phys, no_huge m → size % PAGE_SIZE = 0 →
    no_huge (map_loop_4k { m := m, virt := virt, phys := phys, size := size } pte).m
    ∧ (∀ w u, (∀ q, q < size / PAGE_SIZE → page_tuple w ≠ page_tuple (virt + PAGE_SIZE * q)) →
        get_pte_lookup m w = some u →
        get_pte_lookup (map_loop_4k { m := m, virt := virt, phys := phys, size := size } pte).m w
          = some u)
    ∧ (∀ q, q < size / PAGE_SIZE →
        (∀ q2, q2 < size / PAGE_SIZE → q2 ≠ q →
          page_tuple (virt + PAGE_SIZE * q2) ≠ page_tuple (virt + PAGE_SIZE * q)) →
        get_pte_lookup (map_loop_4k { m := m, virt := virt, phys := phys, size := size } pte).m
          (virt + PAGE_SIZE * q) = some ((phys + PAGE_SIZE * q) ||| pte)) := by
  induction size using Nat.strong_induction_on with
  | _ size ih =>
  intro m virt phys hm hsz
  by_cases h0 : size = 0
  · subst h0
    rw [map_loop_4k, dif_neg (by norm_num)]
    refine ⟨hm, ?_, ?_⟩
    · intro w u _ hl
      exact hl
    · intro q hq
      simp only [PAGE_SIZE] at hq
      omega
  · have hps : size ≥ PAGE_SIZE := by simp only [PAGE_SIZE] at hsz ⊢; omega
    have hstep : map_loop_4k { m := m, virt := virt, phys := phys, size := size } pte =
        map_loop_4k (⟨map4k_one m virt (phys ||| pte), virt + PAGE_SIZE, phys + PAGE_SIZE,
          size - PAGE_SIZE⟩ : map_cursor) pte := by
      rw [map_loop_4k, dif_pos (show size > 0 by omega)]
    rw [hstep]
    have hm2 : no_huge (map4k_one m virt (phys ||| pte)) := map4k_one_no_huge m virt _ hm
    obtain ⟨iha, ihb, ihc⟩ :=
      ih (size - PAGE_SIZE) (by simp only [PAGE_SIZE]; omega)
        (map4k_one m virt (phys ||| pte)) (virt + PAGE_SIZE) (phys + PAGE_SIZE) hm2
        (by simp only [PAGE_SIZE] at hsz ⊢; omega)
    refine ⟨iha, ?_, ?_⟩
    · intro w u hdist hl
      apply ihb w u
      · intro q hq
        have h := hdist (q + 1)
          (by simp only [PAGE_SIZE] at hq ⊢; omega)
        rw [show virt + PAGE_SIZE * (q + 1) = virt + PAGE_SIZE + PAGE_SIZE * q from by ring] at h
        exact h
      · refine map4k_one_lookup_frame m virt (phys ||| pte) w u hm ?_ hl
        have h := hdist 0 (by simp only [PAGE_SIZE] at hps hsz ⊢; omega)
        rw [show virt + PAGE_SIZE * 0 = virt from by ring] at h
        exact h
    · intro q hq hdist
      rcases q with _ | q2
      · rw [show virt + PAGE_SIZE * 0 = virt from by ring,
            show phys + PAGE_SIZE * 0 = phys from by ring]
        apply ihb virt (phys ||| pte)
        · intro q hq2
          have h := hdist (q + 1)
            (by simp only [PAGE_SIZE] at hq2 ⊢; omega)
            (by omega)
          rw [show virt + PAGE_SIZE * (q + 1) = virt + PAGE_SIZE + PAGE_SIZE * q from by ring,
              show virt + PAGE_SIZE * 0 = virt from by ring] at h
          exact fun he => h he.symm
        · exact map4k_one_lookup_self m virt (phys ||| pte) virt hm rfl
      · have h := ihc q2
          (by simp only [PAGE_SIZE] at hq ⊢; omega)
          (by
            intro q3 hq3 hne
            have h := hdist (q3 + 1)
              (by simp only [PAGE_SIZE] at hq3 ⊢; omega)
              (by omega)
            rw [show virt + PAGE_SIZE * (q3 + 1) = virt + PAGE_SIZE + PAGE_SIZE * q3 from by ring,
                show virt + PAGE_SIZE * (q2 + 1) = virt + PAGE_SIZE + PAGE_SIZE * q2 from by ring]
              at h
            exact h)
        rw [show virt + PAGE_SIZE + PAGE_SIZE * q2 = virt + PAGE_SIZE * (q2 + 1) from by ring,
            show phys + PAGE_SIZE + PAGE_SIZE * q2 = phys + PAGE_SIZE * (q2 + 1) from by ring] at h
        exact h

/-- After unmapping one page, any address sharing its slot translates to 0. -/
theorem unmap_one_zero (m : PML4) (v w : Nat) (hw : page_tuple w = page_tuple v) :
    paging_get_phys (unmap_one m v) w = 0 := by
  simp only [paging_get_phys]
  rw [lookup_congr _ _ _ hw]
  rcases h4 : m (pml4_index v) with _ | pdpt
  · simp only [unmap_one, h4, get_pte_lookup]
  · rcases h3 : pdpt (pdpt_index v) with _ | hv | pd
    · simp only [unmap_one, h4, h3, get_pte_lookup]
    · simp only [unmap_one, h4, h3]
      by_cases hp : hv &&& PTE_PRESENT ≠ 0
      · rw [if_pos hp]
        simp only [get_pte_lookup, PureVisor.upd_same]
      · rw [if_neg hp]
        simp only [get_pte_lookup, h4, h3]
        rw [if_pos (not_ne_iff.mp hp)]
    · rcases h2 : pd (pd_index v) with _ | hv | pt
      · simp only [unmap_one, h4, h3, h2, get_pte_lookup]
      · simp only [unmap_one, h4, h3, h2]
        by_cases hp : hv &&& PTE_PRESENT ≠ 0
        · rw [if_pos hp]
          simp only [get_pte_lookup, PureVisor.upd_same]
        · rw [if_neg hp]
          simp only [get_pte_lookup, h4, h3, h2]
          rw [if_pos (not_ne_iff.mp hp)]
      · simp only [unmap_one, h4, h3, h2]
        by_cases hp : pt (pt_index v) &&& PTE_PRESENT ≠ 0
        · rw [if_pos hp]
          simp only [get_pte_lookup, PureVisor.upd_same]
          rw [if_pos (by decide : (0 : Nat) &&& PTE_PRESENT = 0)]
        · rw [if_neg hp]
          simp only [get_pte_lookup, h4, h3, h2]
          rw [if_pos (not_ne_iff.mp hp)]

/-- One unmap step either leaves a translation unchanged or zeroes it. -/
theorem unmap_one_cases (m : PML4) (v w : Nat) :
    paging_get_phys (unmap_one m v) w = paging_get_phys m w ∨
    paging_get_phys (unmap_one m v) w = 0 := by
  rcases h4 : m (pml4_index v) with _ | pdpt
  · left; simp only [unmap_one, h4]
  · rcases h3 : pdpt (pdpt_index v) with _ | hv | pd
    · left; simp only [unmap_one, h4, h3]
    · simp only [unmap_one, h4, h3]
      by_cases hp : hv &&& PTE_PRESENT ≠ 0
      · rw [if_pos hp]
        by_cases hj4 : pml4_index w = pml4_index v
        · by_cases hj3 : pdpt_index w = pdpt_index v
          · right
            simp only [paging_get_phys, get_pte_lookup, hj4, hj3, PureVisor.upd_same]
          · left
            simp only [paging_get_phys, get_pte_lookup, hj4, h4, PureVisor.upd_same]
            rw [PureVisor.upd_other _ _ _ _ hj3]
        · left
          simp only [paging_get_phys, get_pte_lookup]
          rw [PureVisor.upd_other _ _ _ _ hj4]
      · rw [if_neg hp]; left; rfl
    · rcases h2 : pd (pd_index v) with _ | hv | pt
      · left; simp only [unmap_one, h4, h3, h2]
      · simp only [unmap_one, h4, h3, h2]
        by_cases hp : hv &&& PTE_PRESENT ≠ 0
        · rw [if_pos hp]
          by_cases hj4 : pml4_index w = pml4_index v
          · by_cases hj3 : pdpt_index w = pdpt_index v
            · by_cases hj2 : pd_index w = pd_index v
              · right
                simp only [paging_get_phys, get_pte_lookup, hj4, hj3, hj2, PureVisor.upd_same]
              · left
                simp only [paging_get_phys, get_pte_lookup, hj4, hj3, h4, h3,
                  PureVisor.upd_same]
                rw [PureVisor.upd_other _ _ _ _ hj2]
            · left
              simp only [paging_get_phys, get_pte_lookup, hj4, h4, PureVisor.upd_same]
              rw [PureVisor.upd_other _ _ _ _ hj3]
          · left
            simp only [paging_get_phys, get_pte_lookup]
            rw [PureVisor.upd_other _ _ _ _ hj4]
        · rw [if_neg hp]; left; rfl
      · simp only [unmap_one, h4, h3, h2]
        by_cases hp : pt (pt_index v) &&& PTE_PRESENT ≠ 0
        · rw [if_pos hp]
          by_cases hj4 : pml4_index w = pml4_index v
          · by_cases hj3 : pdpt_index w = pdpt_index v
            · by_cases hj2 : pd_index w = pd_index v
              · by_cases hj1 : pt_index w = pt_index v
                · right
                  simp only [paging_get_phys, get_pte_lookup, hj4, hj3, hj2, hj1,
                    PureVisor.upd_same]
                  rw [if_pos (by decide : (0 : Nat) &&& PTE_PRESENT = 0)]
                · left
                  simp only [paging_get_phys, get_pte_lookup, hj4, hj3, hj2, h4, h3, h2,
                    PureVisor.upd_same]
                  rw [PureVisor.upd_other _ _ _ _ hj1]
              · left
                simp only [paging_get_phys, get_pte_lookup, hj4, hj3, h4, h3,
                  PureVisor.upd_same]
                rw [PureVisor.upd_other _ _ _ _ hj2]
            · left
              simp only [paging_get_phys, get_pte_lookup, hj4, h4, PureVisor.upd_same]
              rw [PureVisor.upd_other _ _ _ _ hj3]
          · left
            simp only [paging_get_phys, get_pte_lookup]
            rw [PureVisor.upd_other _ _ _ _ hj4]
        · rw [if_neg hp]; left; rfl

/-- `paging_unmap` never makes a zero translation non-zero. -/
theorem paging_unmap_mono (size : Nat) : ∀ m virt w, paging_get_phys m w = 0 →
    paging_get_phys (paging_unmap m virt size) w = 0 := by
  induction size using Nat.strong_induction_on with
  | _ size ih =>
  intro m virt w h
  by_cases h0 : size = 0
  · subst h0
    rw [paging_unmap, dif_neg (by norm_num)]
    exact h
  · rw [paging_unmap, dif_pos (by omega)]
    apply ih _ (by simp only [PAGE_SIZE]; split <;> omega)
    rcases unmap_one_cases m virt w with hc | hc
    · rw [hc]; exact h
    · exact hc

/-- After `paging_unmap`, every address whose slot is one of the unmapped
pages translates to 0. -/
theorem paging_unmap_zero (size : Nat) : ∀ m virt, size % PAGE_SIZE = 0 →
    ∀ q w, q < size / PAGE_SIZE → page_tuple w = page_tuple (virt + PAGE_SIZE * q) →
    paging_get_phys (paging_unmap m virt size) w = 0 := by
  induction size using Nat.strong_induction_on with
  | _ size ih =>
  intro m virt hsz q w hq hw
  have h0 : size ≠ 0 := by
    intro h; subst h; simp only [PAGE_SIZE] at hq; omega
  have hps : size ≥ PAGE_SIZE := by simp only [PAGE_SIZE] at hsz ⊢; omega
  rw [paging_unmap, dif_pos (by simp only [PAGE_SIZE] at hps; omega), if_pos hps]
  rcases q with _ | q2
  · apply paging_unmap_mono
    apply unmap_one_zero
    rw [hw, show virt + PAGE_SIZE * 0 = virt from by ring]
  · apply ih (size - PAGE_SIZE) (by simp only [PAGE_SIZE]; omega) (unmap_one m virt)
      (virt + PAGE_SIZE) (by simp only [PAGE_SIZE] at hsz ⊢; omega) q2 w
      (by simp only [PAGE_SIZE] at hq ⊢; omega)
    rw [hw, show virt + PAGE_SIZE * (q2 + 1) = virt + PAGE_SIZE + PAGE_SIZE * q2 from by ring]

/-- Claim C3, amended: for 4 KiB mappings (no huge-page hints), on any
huge-free context, page-aligned `virt`, `phys` and `size` with
`virt + size ≤ 2^47` and `phys + size ≤ 2^52`, after
`paging_map(virt, phys, size, flags)` every `k < size` translates as
`paging_get_phys (virt + k) = phys + k`, and after a further
`paging_unmap(virt, size)` it translates to 0.  (With a huge-page hint the
translation property fails; see the counterexample.) -/
theorem c3_translate_after_map_4k (m : PML4) (virt phys size flags k : Nat)
    (hm : no_huge m)
    (h1g : flags &&& MAP_HUGE_1G = 0) (h2m : flags &&& MAP_HUGE_2M = 0)
    (hva : virt % PAGE_SIZE = 0) (hpa : phys % PAGE_SIZE = 0) (hsz : size % PAGE_SIZE = 0)
    (hvb : virt + size ≤ 2 ^ 47) (hpb : phys + size ≤ 2 ^ 52)
    (hk : k < size) :
    paging_get_phys (paging_map m virt phys size flags) (virt + k) = phys + k ∧
    paging_get_phys (paging_unmap (paging_map m virt phys size flags) virt size) (virt + k)
      = 0 := by
  rw [paging_map_eq_4k m virt phys size flags h1g h2m]
  obtain ⟨_, _, hc⟩ := map_loop_4k_spec (flags_to_pte flags) size m virt phys hm hsz
  have hq : k / PAGE_SIZE < size / PAGE_SIZE := by simp only [PAGE_SIZE] at *; omega
  have hdist : ∀ q2, q2 < size / PAGE_SIZE → q2 ≠ k / PAGE_SIZE →
      page_tuple (virt + PAGE_SIZE * q2) ≠ page_tuple (virt + PAGE_SIZE * (k / PAGE_SIZE)) := by
    intro q2 hq2 hne he
    have hsz2 : PAGE_SIZE * (size / PAGE_SIZE) = size := by simp only [PAGE_SIZE] at *; omega
    have heq2 : virt + PAGE_SIZE * q2 = virt + PAGE_SIZE * (k / PAGE_SIZE) := by
      apply page_tuple_inj _ _ _ _ _ _ he
      · simp only [PAGE_SIZE] at *; omega
      · simp only [PAGE_SIZE] at *; omega
      · have : PAGE_SIZE * q2 < size := by
          calc PAGE_SIZE * q2 < PAGE_SIZE * (size / PAGE_SIZE) := by
                simp only [PAGE_SIZE] at *; omega
            _ = size := hsz2
        calc virt + PAGE_SIZE * q2 < virt + size := by omega
          _ ≤ 2 ^ 47 := hvb
          _ < 2 ^ 48 := by norm_num
      · have : PAGE_SIZE * (k / PAGE_SIZE) < size := by
          calc PAGE_SIZE * (k / PAGE_SIZE) < PAGE_SIZE * (size / PAGE_SIZE) := by
                simp only [PAGE_SIZE] at *; omega
            _ = size := hsz2
        calc virt + PAGE_SIZE * (k / PAGE_SIZE) < virt + size := by omega
          _ ≤ 2 ^ 47 := hvb
          _ < 2 ^ 48 := by norm_num
    simp only [PAGE_SIZE] at heq2 hne ⊢
    omega
  have hlook := hc (k / PAGE_SIZE) hq hdist
  have haddr : virt + PAGE_SIZE * (k / PAGE_SIZE) + k % PAGE_SIZE = virt + k := by
    simp only [PAGE_SIZE]; omega
  have htup := page_tuple_add (virt + PAGE_SIZE * (k / PAGE_SIZE)) (k % PAGE_SIZE)
    (by simp only [PAGE_SIZE] at *; omega) (by simp only [PAGE_SIZE]; omega)
  rw [haddr] at htup
  constructor
  · simp only [paging_get_phys]
    rw [lookup_congr _ _ _ htup.1, hlook]
    dsimp only []
    have hpres : ¬(((phys + PAGE_SIZE * (k / PAGE_SIZE)) ||| flags_to_pte flags)
        &&& PTE_PRESENT = 0) := by
      have h1 : (((phys + PAGE_SIZE * (k / PAGE_SIZE)) ||| flags_to_pte flags) &&& 1)
          = ((phys + PAGE_SIZE * (k / PAGE_SIZE)) ||| flags_to_pte flags) % 2 :=
        Nat.and_one_is_mod _
      have h2 : ((phys + PAGE_SIZE * (k / PAGE_SIZE)) ||| flags_to_pte flags) % 2 = 1 := by
        rw [Nat.mod_two_eq_one_iff_testBit_zero, Nat.testBit_or]
        have := flags_to_pte_present flags
        rw [Nat.mod_two_eq_one_iff_testBit_zero] at this
        rw [this]
        exact Bool.or_true _
      simp only [PTE_PRESENT]
      omega
    rw [if_neg hpres]
    have hmask : ((phys + PAGE_SIZE * (k / PAGE_SIZE)) ||| flags_to_pte flags)
        &&& PTE_ADDR_MASK = phys + PAGE_SIZE * (k / PAGE_SIZE) := by
      rw [Nat.and_distrib_right, flags_to_pte_mask, Nat.or_zero]
      apply aligned_and_mask
      · simp only [PAGE_SIZE] at *; omega
      · have : PAGE_SIZE * (k / PAGE_SIZE) ≤ k := by simp only [PAGE_SIZE]; omega
        omega
    rw [hmask, htup.2, or_small_add _ _ (by simp only [PAGE_SIZE] at *; omega)
      (by simp only [PAGE_SIZE] at *; omega)]
    simp only [PAGE_SIZE] at *
    omega
  · exact paging_unmap_zero size _ virt hsz (k / PAGE_SIZE) (virt + k) hq htup.1

/-- Witness for `c3_translate_after_map_4k`: a two-page mapping at
`virt = 4096`, `phys = 8192`, checked at `k = 4100`. -/
theorem c3_translate_after_map_4k_witness :
    paging_get_phys (paging_map paging_empty_context 4096 8192 8192 MAP_WRITE) (4096 + 4100)
      = 8192 + 4100 ∧
    paging_get_phys (paging_unmap (paging_map paging_empty_context 4096 8192 8192 MAP_WRITE)
      4096 8192) (4096 + 4100) = 0 :=
  c3_translate_after_map_4k paging_empty_context 4096 8192 8192 MAP_WRITE 4100
    (fun _ => trivial) (by decide) (by decide) (by decide) (by decide) (by decide)
    (by decide) (by decide) (by decide)

end PureVisor.Paging

namespace PureVisor.Pmm

theorem fla_pages (s : pmm_state_t) (z pfn o : Nat) :
    (free_list_add s z pfn o).pages =
      PureVisor.upd s.pages pfn
        { flags := PAGE_FLAG_FREE, order := o, refcount := (s.pages pfn).refcount } := rfl

theorem fla_page_count (s : pmm_state_t) (z pfn o : Nat) :
    (free_list_add s z pfn o).page_count = s.page_count := rfl

theorem fla_stats (s : pmm_state_t) (z pfn o : Nat) :
    (free_list_add s z pfn o).stats_alloc_count = s.stats_alloc_count ∧
    (free_list_add s z pfn o).stats_free_count = s.stats_free_count ∧
    (free_list_add s z pfn o).stats_free_memory = s.stats_free_memory ∧
    (free_list_add s z pfn o).stats_used_memory = s.stats_used_memory :=
  ⟨rfl, rfl, rfl, rfl⟩

theorem fla_zones_ne (s : pmm_state_t) (z pfn o z2 : Nat) (h : z2 ≠ z) :
    (free_list_add s z pfn o).zones z2 = s.zones z2 := by
  simp only [free_list_add]
  exact PureVisor.upd_other _ _ _ _ h

theorem fla_lists_eq (s : pmm_state_t) (z pfn o : Nat) :
    ((free_list_add s z pfn o).zones z).free_lists o =
      { head := pfn :: ((s.zones z).free_lists o).head,
        count := ((s.zones z).free_lists o).count + 1 } := by
  simp only [free_list_add, PureVisor.upd_same]

theorem fla_lists_ne (s : pmm_state_t) (z pfn o o2 : Nat) (h : o2 ≠ o) :
    ((free_list_add s z pfn o).zones z).free_lists o2 = (s.zones z).free_lists o2 := by
  simp only [free_list_add, PureVisor.upd_same]
  exact PureVisor.upd_other _ _ _ _ h

theorem fla_free_pages (s : pmm_state_t) (z pfn o : Nat) :
    ((free_list_add s z pfn o).zones z).free_pages = (s.zones z).free_pages + 2 ^ o := by
  simp only [free_list_add, PureVisor.upd_same]

theorem flr_pages (s : pmm_state_t) (z pfn o : Nat) :
    (free_list_remove s z pfn o).pages = s.pages := rfl

theorem flr_page_count (s : pmm_state_t) (z pfn o : Nat) :
    (free_list_remove s z pfn o).page_count = s.page_count := rfl

theorem flr_stats (s : pmm_state_t) (z pfn o : Nat) :
    (free_list_remove s z pfn o).stats_alloc_count = s.stats_alloc_count ∧
    (free_list_remove s z pfn o).stats_free_count = s.stats_free_count ∧
    (free_list_remove s z pfn o).stats_free_memory = s.stats_free_memory ∧
    (free_list_remove s z pfn o).stats_used_memory = s.stats_used_memory :=
  ⟨rfl, rfl, rfl, rfl⟩

theorem flr_zones_ne (s : pmm_state_t) (z pfn o z2 : Nat) (h : z2 ≠ z) :
    (free_list_remove s z pfn o).zones z2 = s.zones z2 := by
  simp only [free_list_remove]
  exact PureVisor.upd_other _ _ _ _ h

theorem flr_lists_eq (s : pmm_state_t) (z pfn o : Nat) :
    ((free_list_remove s z pfn o).zones z).free_lists o =
      { head := ((s.zones z).free_lists o).head.erase pfn,
        count := ((s.zones z).free_lists o).count - 1 } := by
  simp only [free_list_remove, PureVisor.upd_same]

theorem flr_lists_ne (s : pmm_state_t) (z pfn o o2 : Nat) (h : o2 ≠ o) :
    ((free_list_remove s z pfn o).zones z).free_lists o2 = (s.zones z).free_lists o2 := by
  simp only [free_list_remove, PureVisor.upd_same]
  exact PureVisor.upd_other _ _ _ _ h

theorem flr_free_pages (s : pmm_state_t) (z pfn o : Nat) :
    ((free_list_remove s z pfn o).zones z).free_pages = (s.zones z).free_pages - 2 ^ o := by
  simp only [free_list_remove, PureVisor.upd_same]

end PureVisor.Pmm

namespace PureVisor.Pmm

theorem mem_all_blocks (s : pmm_state_t) (b : Nat × Nat) :
    b ∈ all_blocks s ↔
      ∃ z < 3, b.2 < PMM_MAX_ORDER + 1 ∧ b.1 ∈ ((s.zones z).free_lists b.2).head := by
  simp only [all_blocks, List.mem_flatMap, List.mem_range, List.mem_map]
  constructor
  · rintro ⟨z, hz, o, ho, h, hh, rfl⟩
    exact ⟨z, hz, ho, hh⟩
  · rintro ⟨z, hz, ho, hh⟩
    exact ⟨z, hz, b.2, ho, b.1, hh, rfl⟩

theorem free_covered_iff (s : pmm_state_t) (q : Nat) :
    free_covered s q ↔ ∃ b ∈ all_blocks s, in_block b.1 b.2 q := by
  simp only [free_covered, mem_all_blocks]
  constructor
  · rintro ⟨z, hz, o, ho, h, hh, hib⟩
    exact ⟨(h, o), ⟨z, hz, ho, hh⟩, hib⟩
  · rintro ⟨b, ⟨z, hz, ho, hh⟩, hib⟩
    exact ⟨z, hz, b.2, ho, b.1, hh, hib⟩

theorem flatMap_congr_mem (l : List Nat) (f g : Nat → List (Nat × Nat))
    (h : ∀ b ∈ l, g b = f b) : l.flatMap g = l.flatMap f := by
  induction l with
  | nil => rfl
  | cons b t ih =>
    simp only [List.flatMap_cons]
    rw [h b (List.mem_cons_self b t), ih (fun c hc => h c (List.mem_cons_of_mem b hc))]

theorem flatMap_perm_single (l : List Nat) (f g : Nat → List (Nat × Nat)) (a : Nat)
    (x : Nat × Nat) (hnd : l.Nodup) (ha : a ∈ l) (hga : (g a).Perm (x :: f a))
    (hother : ∀ b ∈ l, b ≠ a → g b = f b) :
    (l.flatMap g).Perm (x :: l.flatMap f) := by
  induction l with
  | nil => cases ha
  | cons b t ih =>
    rcases List.nodup_cons.mp hnd with ⟨hbt, hndt⟩
    simp only [List.flatMap_cons]
    by_cases hb : b = a
    · subst hb
      have ht : t.flatMap g = t.flatMap f :=
        flatMap_congr_mem t f g fun c hc =>
          hother c (List.mem_cons_of_mem b hc) (fun he => hbt (he ▸ hc))
      rw [ht]
      exact hga.append_right _
    · have hgb : g b = f b := hother b (List.mem_cons_self b t) hb
      rw [hgb]
      have hat : a ∈ t := by
        rcases List.mem_cons.mp ha with h | h
        · exact absurd h.symm hb
        · exact h
      have hperm := ih hndt hat (fun c hc hne => hother c (List.mem_cons_of_mem b hc) hne)
      exact (hperm.append_left _).trans List.perm_middle

theorem all_blocks_add_perm (s : pmm_state_t) (z pfn o : Nat) (hz : z < 3)
    (ho : o < PMM_MAX_ORDER + 1) :
    (all_blocks (free_list_add s z pfn o)).Perm ((pfn, o) :: all_blocks s) := by
  apply flatMap_perm_single _ _ _ z (pfn, o) (List.nodup_range 3) (List.mem_range.mpr hz)
  · apply flatMap_perm_single _ _ _ o (pfn, o) (List.nodup_range _) (List.mem_range.mpr ho)
    · rw [fla_lists_eq]
      exact List.Perm.refl _
    · intro o2 _ hne
      rw [fla_lists_ne s z pfn o o2 hne]
  · intro z2 _ hne
    apply flatMap_congr_mem
    intro o2 _
    rw [fla_zones_ne s z pfn o z2 hne]

theorem all_blocks_remove_perm (s : pmm_state_t) (z pfn o : Nat) (hz : z < 3)
    (ho : o < PMM_MAX_ORDER + 1) (hmem : pfn ∈ ((s.zones z).free_lists o).head) :
    (all_blocks s).Perm ((pfn, o) :: all_blocks (free_list_remove s z pfn o)) := by
  apply flatMap_perm_single _ _ _ z (pfn, o) (List.nodup_range 3) (List.mem_range.mpr hz)
  · apply flatMap_perm_single _ _ _ o (pfn, o) (List.nodup_range _) (List.mem_range.mpr ho)
    · rw [flr_lists_eq]
      have hp : ((s.zones z).free_lists o).head.Perm
          (pfn :: ((s.zones z).free_lists o).head.erase pfn) := List.perm_cons_erase hmem
      exact hp.map _
    · intro o2 _ hne
      rw [flr_lists_ne s z pfn o o2 hne]
  · intro z2 _ hne
    apply flatMap_congr_mem
    intro o2 _
    rw [flr_zones_ne s z pfn o z2 hne]

theorem foldr_sum_congr (l : List Nat) (w w2 : Nat → Nat) (h : ∀ x ∈ l, w2 x = w x) :
    l.foldr (fun o acc => w2 o + acc) 0 = l.foldr (fun o acc => w o + acc) 0 := by
  induction l with
  | nil => rfl
  | cons b t ih =>
    simp only [List.foldr_cons]
    rw [h b (List.mem_cons_self b t), ih (fun c hc => h c (List.mem_cons_of_mem b hc))]

theorem foldr_sum_upd (l : List Nat) (w w2 : Nat → Nat) (j d : Nat) (hnd : l.Nodup)
    (hj : j ∈ l) (hwj : w2 j = w j + d) (h : ∀ x ∈ l, x ≠ j → w2 x = w x) :
    l.foldr (fun o acc => w2 o + acc) 0 = l.foldr (fun o acc => w o + acc) 0 + d := by
  induction l with
  | nil => cases hj
  | cons b t ih =>
    rcases List.nodup_cons.mp hnd with ⟨hbt, hndt⟩
    simp only [List.foldr_cons]
    by_cases hb : b = j
    · subst hb
      rw [hwj, foldr_sum_congr t w w2
        (fun c hc => h c (List.mem_cons_of_mem b hc) (fun he => hbt (he ▸ hc)))]
      omega
    · have hjt : j ∈ t := by
        rcases List.mem_cons.mp hj with he | he
        · exact absurd he.symm hb
        · exact he
      rw [h b (List.mem_cons_self b t) hb,
        ih hndt hjt (fun c hc hne => h c (List.mem_cons_of_mem b hc) hne)]
      omega

theorem blocks_disjoint_symm : ∀ a b : Nat × Nat, blocks_disjoint a b → blocks_disjoint b a := by
  intro a b h
  unfold blocks_disjoint at *
  omega

theorem pairwise_of_perm {l l2 : List (Nat × Nat)} (hp : l.Perm l2)
    (h : l.Pairwise blocks_disjoint) : l2.Pairwise blocks_disjoint :=
  (hp.pairwise_iff (fun hab => blocks_disjoint_symm _ _ hab)).mp h

theorem zone_of_pfn_cases (pfn : Nat) :
    zone_of_pfn pfn = if pfn < 4096 then 0 else if pfn < 2 ^ 20 then 1 else 2 := by
  simp only [zone_of_pfn, get_zone, PAGE_SIZE, ZONE_DMA, ZONE_NORMAL, ZONE_HIGH]
  split_ifs <;> omega

theorem dvd_add_le (a m n : Nat) (ha : 0 < a) (h1 : a ∣ m) (h2 : a ∣ n) (h : m < n) :
    m + a ≤ n := by
  have hd : a ∣ n - m := Nat.dvd_sub' h2 h1
  have := Nat.le_of_dvd (by omega) hd
  omega

theorem zone_of_block (p x d : Nat) (hd : 0 < d) (hal : d ∣ p) (h4 : d ∣ 4096)
    (h20 : d ∣ 2 ^ 20) (hx : p ≤ x) (hx2 : x < p + d) :
    zone_of_pfn x = zone_of_pfn p := by
  rw [zone_of_pfn_cases, zone_of_pfn_cases]
  by_cases hp1 : p < 4096
  · have := dvd_add_le d p 4096 hd hal h4 hp1
    rw [if_pos (by omega), if_pos (by omega)]
  · have hxge : ¬x < 4096 := by
      have : 4096 ≤ p := by omega
      omega
    rw [if_neg hxge, if_neg hp1]
    by_cases hp2 : p < 2 ^ 20
    · have := dvd_add_le d p (2 ^ 20) hd hal h20 hp2
      rw [if_pos (by omega), if_pos (by omega)]
    · have : ¬x < 2 ^ 20 := by omega
      rw [if_neg this, if_neg hp2]

theorem aligned_xor_even (u o : Nat) :
    (2 ^ (o + 1) * u) ^^^ 2 ^ o = 2 ^ (o + 1) * u + 2 ^ o := by
  have hor : 2 ^ (o + 1) * u + 2 ^ o = 2 ^ (o + 1) * u ||| 2 ^ o :=
    Nat.mul_add_lt_is_or (Nat.pow_lt_pow_right (by norm_num) (by omega)) u
  rw [hor]
  apply Nat.eq_of_testBit_eq
  intro j
  rw [Nat.testBit_xor, Nat.testBit_or]
  by_cases hj : j = o
  · subst hj
    rw [Nat.testBit_mul_pow_two]
    simp
  · have h2 : (2 ^ o).testBit j = false := by
      rw [Nat.testBit_two_pow]
      exact decide_eq_false (fun h => hj h.symm)
    rw [h2, Bool.xor_false, Bool.or_false]

theorem buddy_facts (p o : Nat) (hal : 2 ^ o ∣ p) (hp : 0 < p) :
    p ^^^ 2 ^ o ≠ p ∧ 2 ^ o ∣ p ^^^ 2 ^ o ∧
    ((p ^^^ 2 ^ o) = p + 2 ^ o ∨ (p + 2 ^ o = (p ^^^ 2 ^ o) + 2 ^ (o + 1) ∧ 0 ≤ p)) := by
  obtain ⟨t, ht⟩ := hal
  rcases Nat.even_or_odd t with ⟨u, hu⟩ | ⟨u, hu⟩
  · have hpe : p = 2 ^ (o + 1) * u := by
      rw [ht, hu]
      ring
    have hx : p ^^^ 2 ^ o = p + 2 ^ o := by
      rw [hpe]
      exact aligned_xor_even u o
    have hpos : 0 < 2 ^ o := Nat.two_pow_pos o
    refine ⟨by rw [hx]; omega, ?_, Or.inl hx⟩
    rw [hx, ht]
    exact ⟨t + 1, by ring⟩
  · have hpe : p = 2 ^ (o + 1) * u + 2 ^ o := by
      rw [ht, hu]
      ring
    have hbe : (2 ^ (o + 1) * u) ^^^ 2 ^ o = p := by
      rw [aligned_xor_even u o, hpe]
    have hx : p ^^^ 2 ^ o = 2 ^ (o + 1) * u := by
      calc p ^^^ 2 ^ o = ((2 ^ (o + 1) * u) ^^^ 2 ^ o) ^^^ 2 ^ o := by rw [hbe]
        _ = (2 ^ (o + 1) * u) ^^^ (2 ^ o ^^^ 2 ^ o) := Nat.xor_assoc _ _ _
        _ = 2 ^ (o + 1) * u := by rw [Nat.xor_self, Nat.xor_zero]
    have hpow : 2 ^ (o + 1) = 2 * 2 ^ o := by
      rw [pow_succ]
      ring
    have hpos : 0 < 2 ^ o := Nat.two_pow_pos o
    refine ⟨by rw [hx]; omega, ?_, Or.inr ⟨by rw [hx]; omega, by omega⟩⟩
    rw [hx]
    exact ⟨2 * u, by rw [hpow]; ring⟩

theorem parent_lo_facts (q o : Nat) (hal : 2 ^ o ∣ q) :
    (parent_lo q o = q ∨ parent_lo q o + 2 ^ o = q) ∧ parent_lo q o ≤ q ∧
    q + 2 ^ o ≤ parent_lo q o + 2 ^ (o + 1) ∧ 2 ^ (o + 1) ∣ parent_lo q o := by
  obtain ⟨t, ht⟩ := hal
  have hpow : 2 ^ (o + 1) = 2 ^ o * 2 := pow_succ 2 o
  have hpos : 0 < 2 ^ o := Nat.two_pow_pos o
  have hmod : q % 2 ^ (o + 1) = 2 ^ o * (t % 2) := by
    rw [ht, hpow, Nat.mul_mod_mul_left]
  have hdm := Nat.div_add_mod q (2 ^ (o + 1))
  have hplo : parent_lo q o = 2 ^ (o + 1) * (q / 2 ^ (o + 1)) := rfl
  have ht2 := Nat.mod_two_eq_zero_or_one t
  refine ⟨?_, ?_, ?_, ⟨q / 2 ^ (o + 1), rfl⟩⟩
  · rcases ht2 with h | h <;> rw [h] at hmod <;> omega
  · omega
  · rcases ht2 with h | h <;> rw [h] at hmod <;> omega

theorem split_block_spec (z pfn : Nat) (hz : z < 3) :
    ∀ cur, cur ≤ PMM_MAX_ORDER + 1 → ∀ target, target ≤ cur → ∀ s : pmm_state_t,
    (∀ c, target ≤ c → c < cur →
      (split_block s z pfn cur target).pages (pfn + 2 ^ c) =
        { flags := PAGE_FLAG_FREE, order := c,
          refcount := (s.pages (pfn + 2 ^ c)).refcount }) ∧
    (∀ q, (∀ c, target ≤ c → c < cur → q ≠ pfn + 2 ^ c) →
      (split_block s z pfn cur target).pages q = s.pages q) ∧
    (∀ c, target ≤ c → c < cur →
      ((split_block s z pfn cur target).zones z).free_lists c =
        { head := (pfn + 2 ^ c) :: ((s.zones z).free_lists c).head,
          count := ((s.zones z).free_lists c).count + 1 }) ∧
    (∀ c, c < target ∨ cur ≤ c →
      ((split_block s z pfn cur target).zones z).free_lists c = (s.zones z).free_lists c) ∧
    ((split_block s z pfn cur target).zones z).free_pages
      = (s.zones z).free_pages + (2 ^ cur - 2 ^ target) ∧
    (∀ z2, z2 ≠ z → (split_block s z pfn cur target).zones z2 = s.zones z2) ∧
    (split_block s z pfn cur target).page_count = s.page_count ∧
    (split_block s z pfn cur target).stats_alloc_count = s.stats_alloc_count ∧
    (split_block s z pfn cur target).stats_free_count = s.stats_free_count ∧
    (split_block s z pfn cur target).stats_free_memory = s.stats_free_memory ∧
    (split_block s z pfn cur target).stats_used_memory = s.stats_used_memory ∧
    (all_blocks (split_block s z pfn cur target)).Perm
      (((List.range' target (cur - target)).map fun c => (pfn + 2 ^ c, c))
        ++ all_blocks s) := by
  intro cur
  induction cur using Nat.strong_induction_on with
  | _ cur ih =>
  intro hcur target htc s
  by_cases h0 : cur = target
  · subst h0
    rw [split_block, dif_neg (by omega)]
    refine ⟨fun c h1 h2 => by omega, fun q _ => rfl, fun c h1 h2 => by omega,
      fun c _ => rfl, by omega, fun z2 _ => rfl, rfl, rfl, rfl, rfl, rfl, ?_⟩
    simp only [Nat.sub_self, List.range'_zero, List.map_nil, List.nil_append]
    exact List.Perm.refl _
  · have hgt : cur > target := by omega
    rw [split_block, dif_pos hgt]
    obtain ⟨ih1, ih2, ih3, ih4, ih5, ih6, ih7, ih8, ih9, ih10, ih11, ih12⟩ :=
      ih (cur - 1) (by omega) (by omega) target (by omega)
        (free_list_add s z (pfn + 2 ^ (cur - 1)) (cur - 1))
    have hne : ∀ c, c < cur - 1 → pfn + 2 ^ c ≠ pfn + 2 ^ (cur - 1) := by
      intro c hc
      have := Nat.pow_lt_pow_right (by norm_num : 1 < 2) hc
      omega
    refine ⟨?_, ?_, ?_, ?_, ?_, ?_, ?_, ?_, ?_, ?_, ?_, ?_⟩
    · intro c h1 h2
      by_cases hce : c = cur - 1
      · subst hce
        rw [ih2 _ (fun c2 hc1 hc2 => (hne c2 hc2).symm), fla_pages, PureVisor.upd_same]
      · rw [ih1 c h1 (by omega), fla_pages, PureVisor.upd_other _ _ _ _ (hne c (by omega))]
    · intro q hq
      rw [ih2 q (fun c hc1 hc2 => hq c hc1 (by omega)), fla_pages,
        PureVisor.upd_other _ _ _ _ (hq (cur - 1) (by omega) (by omega))]
    · intro c h1 h2
      by_cases hce : c = cur - 1
      · subst hce
        rw [ih4 _ (Or.inr (le_refl _)), fla_lists_eq]
      · rw [ih3 c h1 (by omega), fla_lists_ne _ _ _ _ _ (by omega)]
    · intro c hc
      rw [ih4 c (by omega), fla_lists_ne _ _ _ _ _ (by omega)]
    · rw [ih5, fla_free_pages]
      have h1 : 2 ^ cur = 2 * 2 ^ (cur - 1) := by
        rw [← pow_succ']
        congr 1
        omega
      have h2 : 2 ^ target ≤ 2 ^ (cur - 1) :=
        Nat.pow_le_pow_right (by norm_num) (by omega)
      omega
    · intro z2 hz2
      rw [ih6 z2 hz2, fla_zones_ne _ _ _ _ _ hz2]
    · rw [ih7, fla_page_count]
    · rw [ih8]; exact (fla_stats s z _ _).1
    · rw [ih9]; exact (fla_stats s z _ _).2.1
    · rw [ih10]; exact (fla_stats s z _ _).2.2.1
    · rw [ih11]; exact (fla_stats s z _ _).2.2.2
    · have hperm2 := all_blocks_add_perm s z (pfn + 2 ^ (cur - 1)) (cur - 1) hz (by omega)
      have hr : (List.range' target (cur - target)).map (fun c => (pfn + 2 ^ c, c))
            ++ all_blocks s
          = (List.range' target (cur - 1 - target)).map (fun c => (pfn + 2 ^ c, c))
            ++ ((pfn + 2 ^ (cur - 1), cur - 1) :: all_blocks s) := by
        have h1 : cur - target = (cur - 1 - target) + 1 := by omega
        rw [h1, List.range'_1_concat, List.map_append, List.append_assoc]
        have h2 : target + (cur - 1 - target) = cur - 1 := by omega
        rw [h2]
        rfl
      rw [hr]
      exact ih12.trans (List.Perm.append_left _ hperm2)

theorem blocks_disjoint_ne (a b : Nat × Nat) (h : blocks_disjoint a b) : a ≠ b := by
  intro he
  subst he
  unfold blocks_disjoint at h
  have := Nat.two_pow_pos a.2
  omega

theorem all_blocks_nodup (s : pmm_state_t) (A : List (Nat × Nat))
    (hP : (all_blocks s ++ A).Pairwise blocks_disjoint) : (all_blocks s).Nodup :=
  ((hP.sublist (List.sublist_append_left _ _)).imp
    (fun hab => blocks_disjoint_ne _ _ hab))

theorem flatMap_sublist (l : List Nat) (f : Nat → List (Nat × Nat)) (a : Nat) (ha : a ∈ l) :
    (f a).Sublist (l.flatMap f) := by
  induction l with
  | nil => cases ha
  | cons b t ih =>
    simp only [List.flatMap_cons]
    rcases List.mem_cons.mp ha with he | ht
    · subst he
      exact List.sublist_append_left _ _ |>.trans (List.Sublist.refl _)
    · exact (ih ht).trans (List.sublist_append_right _ _)

theorem head_nodup (s : pmm_state_t) (A : List (Nat × Nat)) (z o : Nat) (hz : z < 3)
    (ho : o < PMM_MAX_ORDER + 1) (hP : (all_blocks s ++ A).Pairwise blocks_disjoint) :
    ((s.zones z).free_lists o).head.Nodup := by
  have hnd := all_blocks_nodup s A hP
  have hsub : (((s.zones z).free_lists o).head.map fun h => (h, o)).Sublist (all_blocks s) := by
    have h1 := flatMap_sublist (List.range (PMM_MAX_ORDER + 1))
      (fun o2 => ((s.zones z).free_lists o2).head.map fun h => (h, o2)) o
      (List.mem_range.mpr ho)
    have h2 := flatMap_sublist (List.range 3)
      (fun z2 => (List.range (PMM_MAX_ORDER + 1)).flatMap fun o2 =>
        ((s.zones z2).free_lists o2).head.map fun h => (h, o2)) z (List.mem_range.mpr hz)
    exact h1.trans h2
  have := hnd.sublist hsub
  exact this.of_map _

theorem pairwise_mem_disjoint (l : List (Nat × Nat)) (hP : l.Pairwise blocks_disjoint)
    (a b : Nat × Nat) (ha : a ∈ l) (hb : b ∈ l) (hne : a ≠ b) : blocks_disjoint a b := by
  have hsymm : Symmetric blocks_disjoint := fun a b hab => blocks_disjoint_symm a b hab
  exact hP.forall hsymm ha hb hne

theorem foldr_sum_ge (l : List Nat) (w : Nat → Nat) (j : Nat) (hj : j ∈ l) :
    w j ≤ l.foldr (fun o acc => w o + acc) 0 := by
  induction l with
  | nil => cases hj
  | cons b t ih =>
    simp only [List.foldr_cons]
    rcases List.mem_cons.mp hj with he | ht
    · subst he
      omega
    · have := ih ht
      omega

theorem foldr_sum_shift (n : Nat) : ∀ hi, hi ≤ n → ∀ lo, lo ≤ hi →
    ∀ w w2 : Nat → Nat,
    (∀ c, lo ≤ c → c < hi → w2 c = w c + 2 ^ c) →
    (∀ c, c < lo ∨ hi ≤ c → w2 c = w c) →
    (List.range n).foldr (fun o acc => w2 o + acc) 0
      = (List.range n).foldr (fun o acc => w o + acc) 0 + (2 ^ hi - 2 ^ lo) := by
  intro hi
  induction hi using Nat.strong_induction_on with
  | _ hi ih =>
  intro hhi lo hlo w w2 h1 h2
  by_cases h0 : hi = lo
  · subst h0
    rw [foldr_sum_congr _ w w2 (fun c _ => h2 c (Nat.lt_or_ge c hi))]
    omega
  · have hgt : lo < hi := by omega
    set w3 : Nat → Nat := fun c => if c = hi - 1 then w c else w2 c with hw3
    have hs1 : (List.range n).foldr (fun o acc => w2 o + acc) 0
        = (List.range n).foldr (fun o acc => w3 o + acc) 0 + 2 ^ (hi - 1) := by
      apply foldr_sum_upd _ _ _ (hi - 1) _ (List.nodup_range n)
        (List.mem_range.mpr (by omega))
      · rw [hw3]
        simp only [if_pos rfl]
        exact h1 (hi - 1) (by omega) (by omega)
      · intro x _ hx
        rw [hw3]
        simp only [if_neg hx]
    have hs2 : (List.range n).foldr (fun o acc => w3 o + acc) 0
        = (List.range n).foldr (fun o acc => w o + acc) 0 + (2 ^ (hi - 1) - 2 ^ lo) := by
      apply ih (hi - 1) (by omega) (by omega) lo (by omega)
      · intro c hc1 hc2
        rw [hw3]
        simp only [if_neg (by omega : ¬c = hi - 1)]
        exact h1 c hc1 (by omega)
      · intro c hc
        rw [hw3]
        by_cases hce : c = hi - 1
        · simp only [if_pos hce]
        · simp only [if_neg hce]
          exact h2 c (by omega)
    have hp : 2 ^ hi = 2 * 2 ^ (hi - 1) := by
      rw [← pow_succ']
      congr 1
      omega
    have hple : 2 ^ lo ≤ 2 ^ (hi - 1) := Nat.pow_le_pow_right (by norm_num) (by omega)
    omega

theorem exists_range_pow (lo hi d : Nat) (h1 : 2 ^ lo ≤ d) (h2 : d < 2 ^ hi) :
    ∃ c, lo ≤ c ∧ c < hi ∧ 2 ^ c ≤ d ∧ d < 2 ^ (c + 1) := by
  have hd : d ≠ 0 := by
    have := Nat.two_pow_pos lo
    omega
  refine ⟨Nat.log2 d, ?_, ?_, Nat.log2_self_le hd, Nat.lt_log2_self⟩
  · by_contra hc
    have : 2 ^ (Nat.log2 d + 1) ≤ 2 ^ lo := Nat.pow_le_pow_right (by norm_num) (by omega)
    have := Nat.lt_log2_self (n := d)
    omega
  · by_contra hc
    have : 2 ^ hi ≤ 2 ^ Nat.log2 d := Nat.pow_le_pow_right (by norm_num) (by omega)
    have := Nat.log2_self_le hd
    omega

theorem disjoint_of_sub (a b c : Nat × Nat) (h : blocks_disjoint a c)
    (hsub : a.1 ≤ b.1 ∧ b.1 + 2 ^ b.2 ≤ a.1 + 2 ^ a.2) : blocks_disjoint b c := by
  unfold blocks_disjoint at *
  omega

theorem sub_block_cases (pfn o order a m q : Nat) (hord : order ≤ o)
    (hpal : 2 ^ o ∣ pfn) (ham : 2 ^ m ∣ a) (h1 : pfn ≤ a) (h2 : a + 2 ^ m ≤ pfn + 2 ^ o)
    (hq1 : a ≤ q) (hq2 : q < a + 2 ^ m) (hqal : 2 ^ (m - 1) ∣ q) (hm : 0 < m)
    (hqp : q ≠ pfn) :
    a + 2 ^ m ≤ pfn + 2 ^ order ∨
    (∃ c, order ≤ c ∧ c < o ∧ pfn + 2 ^ c ≤ a ∧ a + 2 ^ m ≤ pfn + 2 ^ (c + 1)) ∨
    (q = pfn + 2 ^ (m - 1) ∧ order ≤ m - 1 ∧ m - 1 < o) := by
  have hmo : m ≤ o := by
    by_contra hc
    have : 2 ^ o < 2 ^ m := Nat.pow_lt_pow_right (by norm_num) (by omega)
    omega
  have hda : 2 ^ m ∣ a - pfn := Nat.dvd_sub' ham (dvd_trans (pow_dvd_pow 2 hmo) hpal)
  by_cases hle : a + 2 ^ m ≤ pfn + 2 ^ order
  · exact Or.inl hle
  · by_cases hd0 : a = pfn
    · -- the parent starts at pfn and exceeds the allocated part: q is pfn + 2 ^ (m-1)
      subst hd0
      right; right
      have hpow : 2 ^ m = 2 ^ (m - 1) * 2 := by
        rw [← pow_succ]
        congr 1
        omega
      have hqa : 2 ^ (m - 1) ∣ q - a := Nat.dvd_sub' hqal
        (dvd_trans (pow_dvd_pow 2 (by omega)) hpal)
      obtain ⟨t, ht⟩ := hqa
      have hpos : 0 < 2 ^ (m - 1) := Nat.two_pow_pos (m - 1)
      have htlt : t < 2 := by
        by_contra hc
        have : 2 ^ (m - 1) * 2 ≤ 2 ^ (m - 1) * t := Nat.mul_le_mul_left _ (by omega)
        omega
      have hmm : order < m := by
        by_contra hc
        have : 2 ^ m ≤ 2 ^ order := Nat.pow_le_pow_right (by norm_num) (by omega)
        omega
      have h2mo : 2 ^ m ≤ 2 ^ o := Nat.pow_le_pow_right (by norm_num) hmo
      rcases (by omega : t = 0 ∨ t = 1) with ht0 | ht1
      · rw [ht0, Nat.mul_zero] at ht
        omega
      · rw [ht1, Nat.mul_one] at ht
        refine ⟨by omega, by omega, ?_⟩
        by_contra hc
        have : 2 ^ o ≤ 2 ^ (m - 1) := Nat.pow_le_pow_right (by norm_num) (by omega)
        omega
    · -- the parent lies strictly inside: it fits within one split remnant
      right; left
      have hdpos : 0 < a - pfn := by omega
      have hdge : 2 ^ m ≤ a - pfn := Nat.le_of_dvd hdpos hda
      have hdlt : a - pfn < 2 ^ o := by omega
      obtain ⟨c, hc1, hc2, hc3, hc4⟩ := exists_range_pow m o (a - pfn) hdge hdlt
      have hcord : order ≤ c := by
        by_cases hco : order < m
        · omega
        · -- order ≥ m: a - pfn > 2 ^ order - 2 ^ m forces a - pfn ≥ 2 ^ order
          have hdvd2 : 2 ^ m ∣ 2 ^ order := pow_dvd_pow 2 (by omega)
          have hgt : 2 ^ order - 2 ^ m < a - pfn := by omega
          have hge : 2 ^ order ≤ a - pfn := by
            rcases Nat.lt_or_ge (a - pfn) (2 ^ order) with h | h
            · have := dvd_add_le (2 ^ m) (a - pfn) (2 ^ order)
                (Nat.two_pow_pos m) hda hdvd2 h
              omega
            · exact h
          by_contra hcc
          have : 2 ^ order ≤ a - pfn := hge
          have h21 : a - pfn < 2 ^ (c + 1) := hc4
          have h22 : 2 ^ (c + 1) ≤ 2 ^ order := Nat.pow_le_pow_right (by norm_num) (by omega)
          omega
      refine ⟨c, hcord, hc2, by omega, ?_⟩
      -- a - pfn < 2 ^ (c+1) and 2 ^ m divides both, so a - pfn + 2 ^ m ≤ 2 ^ (c+1)
      have hmc : m ≤ c := by
        by_contra hcc
        have : 2 ^ c < 2 ^ m := Nat.pow_lt_pow_right (by norm_num) (by omega)
        omega
      have hdvd3 : 2 ^ m ∣ 2 ^ (c + 1) := pow_dvd_pow 2 (by omega)
      have := dvd_add_le (2 ^ m) (a - pfn) (2 ^ (c + 1)) (Nat.two_pow_pos m) hda hdvd3 hc4
      omega

theorem find_order_spec (zone : zone_t) : ∀ n o o2, PMM_MAX_ORDER + 1 - o = n →
    find_order zone o = some o2 →
    o ≤ o2 ∧ o2 ≤ PMM_MAX_ORDER ∧ ∃ pfn rest, (zone.free_lists o2).head = pfn :: rest := by
  intro n
  induction n with
  | zero =>
    intro o o2 hn h
    rw [find_order, dif_pos (by simp only [PMM_MAX_ORDER] at hn ⊢; omega)] at h
    cases h
  | succ n ih =>
    intro o o2 hn h
    rw [find_order, dif_neg (by simp only [PMM_MAX_ORDER] at hn ⊢; omega)] at h
    rcases hhead : (zone.free_lists o).head with _ | ⟨pfn, rest⟩
    · rw [hhead] at h
      have := ih (o + 1) o2 (by omega) h
      exact ⟨by omega, this.2.1, this.2.2⟩
    · rw [hhead] at h
      cases h
      exact ⟨le_refl _, by simp only [PMM_MAX_ORDER] at hn ⊢; omega, pfn, rest, hhead⟩

theorem alloc_from_eq (s : pmm_state_t) (z o order pfn : Nat) (rest : List Nat)
    (hord : order ≤ o)
    (hhead : ((s.zones z).free_lists o).head = pfn :: rest) :
    alloc_from s z o order =
      ({ split_block (free_list_remove s z pfn o) z pfn o order with
          pages := PureVisor.upd (split_block (free_list_remove s z pfn o) z pfn o order).pages
            pfn { flags := PAGE_FLAG_PRESENT ||| PAGE_FLAG_KERNEL, order := order,
                  refcount := 1 },
          stats_alloc_count :=
            (split_block (free_list_remove s z pfn o) z pfn o order).stats_alloc_count + 1,
          stats_free_memory :=
            (split_block (free_list_remove s z pfn o) z pfn o order).stats_free_memory
              - 2 ^ order * PAGE_SIZE,
          stats_used_memory :=
            (split_block (free_list_remove s z pfn o) z pfn o order).stats_used_memory
              + 2 ^ order * PAGE_SIZE }, pfn * PAGE_SIZE) := by
  have hif : (if o > order then split_block (free_list_remove s z pfn o) z pfn o order
      else free_list_remove s z pfn o) =
      split_block (free_list_remove s z pfn o) z pfn o order := by
    split
    · rfl
    · rw [split_block, dif_neg (by omega)]
  simp only [alloc_from, hhead]
  rw [hif]

theorem alloc_basics (s : pmm_state_t) (A : List (Nat × Nat)) (z o order pfn : Nat)
    (rest : List Nat) (hWF : WF s A) (hz : z < 3) (ho : o ≤ PMM_MAX_ORDER) (hord : order ≤ o)
    (hhead : ((s.zones z).free_lists o).head = pfn :: rest) :
    0 < pfn ∧ 2 ^ o ∣ pfn ∧ pfn + 2 ^ o ≤ s.page_count ∧ zone_of_pfn pfn = z ∧
    (s.pages pfn).flags = PAGE_FLAG_FREE ∧ (s.pages pfn).order = o ∧
    (∀ c, c < o → zone_of_pfn (pfn + 2 ^ c) = z ∧ 2 ^ c ∣ pfn + 2 ^ c ∧
      pfn + 2 ^ c + 2 ^ c ≤ s.page_count) ∧
    (∀ x ∈ all_blocks (free_list_remove s z pfn o) ++ A, blocks_disjoint (pfn, o) x) ∧
    (all_blocks (free_list_remove s z pfn o) ++ A).Pairwise blocks_disjoint := by
  obtain ⟨hL, hG, hP, hF, hS, hC, hZ⟩ := hWF
  have hmem : pfn ∈ ((s.zones z).free_lists o).head := by
    rw [hhead]; exact List.mem_cons_self _ _
  obtain ⟨hpos, hal, hrange, hzone, hfl, hor⟩ :=
    hL z hz o (by simp only [PMM_MAX_ORDER] at ho ⊢; omega) pfn hmem
  have hperm1 := all_blocks_remove_perm s z pfn o hz
    (by simp only [PMM_MAX_ORDER] at ho ⊢; omega) hmem
  have hPc : ((pfn, o) :: (all_blocks (free_list_remove s z pfn o) ++ A)).Pairwise
      blocks_disjoint := by
    apply pairwise_of_perm _ hP
    have h1 := hperm1.append_right A
    simpa using h1
  obtain ⟨hdisj, hP1⟩ := List.pairwise_cons.mp hPc
  refine ⟨hpos, hal, hrange, hzone, hfl, hor, ?_, hdisj, hP1⟩
  intro c hc
  have hdvd : 2 ^ c ∣ pfn := dvd_trans (pow_dvd_pow 2 (by omega)) hal
  have hlt : 2 ^ c ≤ 2 ^ o := Nat.pow_le_pow_right (by norm_num) (by omega)
  refine ⟨?_, dvd_add hdvd dvd_rfl, ?_⟩
  · rw [← hzone]
    apply zone_of_block pfn (pfn + 2 ^ c) (2 ^ o) (Nat.two_pow_pos o) hal
    · have h412 : (4096 : Nat) = 2 ^ 12 := by norm_num
      rw [h412]
      exact pow_dvd_pow 2 (by simp only [PMM_MAX_ORDER] at ho; omega)
    · exact pow_dvd_pow 2 (by simp only [PMM_MAX_ORDER] at ho; omega)
    · omega
    · have h2pos : 0 < 2 ^ c := Nat.two_pow_pos c
      have : 2 ^ c < 2 ^ o := Nat.pow_lt_pow_right (by norm_num) (by omega)
      omega
  · have hsucc : 2 ^ c + 2 ^ c = 2 ^ (c + 1) := by
      rw [pow_succ]
      ring
    have : 2 ^ (c + 1) ≤ 2 ^ o := Nat.pow_le_pow_right (by norm_num) (by omega)
    omega

theorem alloc_char (s : pmm_state_t) (z o order pfn : Nat)
    (rest : List Nat) (ho : o ≤ PMM_MAX_ORDER) (hord : order ≤ o) (hz : z < 3)
    (hhead : ((s.zones z).free_lists o).head = pfn :: rest) :
    (alloc_from s z o order).1.pages pfn =
      { flags := PAGE_FLAG_PRESENT ||| PAGE_FLAG_KERNEL, order := order, refcount := 1 } ∧
    (∀ c, order ≤ c → c < o → (alloc_from s z o order).1.pages (pfn + 2 ^ c) =
      { flags := PAGE_FLAG_FREE, order := c,
        refcount := (s.pages (pfn + 2 ^ c)).refcount }) ∧
    (∀ q, q ≠ pfn → (∀ c, order ≤ c → c < o → q ≠ pfn + 2 ^ c) →
      (alloc_from s z o order).1.pages q = s.pages q) ∧
    (∀ z2, z2 ≠ z → (alloc_from s z o order).1.zones z2 = s.zones z2) ∧
    (∀ c, order ≤ c → c < o → ((alloc_from s z o order).1.zones z).free_lists c =
      { head := (pfn + 2 ^ c) :: ((s.zones z).free_lists c).head,
        count := ((s.zones z).free_lists c).count + 1 }) ∧
    (((alloc_from s z o order).1.zones z).free_lists o =
      { head := ((s.zones z).free_lists o).head.erase pfn,
        count := ((s.zones z).free_lists o).count - 1 }) ∧
    (∀ c, c < order ∨ o < c → ((alloc_from s z o order).1.zones z).free_lists c
      = (s.zones z).free_lists c) ∧
    (alloc_from s z o order).1.page_count = s.page_count ∧
    (all_blocks (alloc_from s z o order).1).Perm
      (((List.range' order (o - order)).map fun c => (pfn + 2 ^ c, c))
        ++ all_blocks (free_list_remove s z pfn o)) := by
  obtain ⟨sp1, sp2, sp3, sp4, sp5, sp6, sp7, sp8, sp9, sp10, sp11, sp12⟩ :=
    split_block_spec z pfn hz o (by simp only [PMM_MAX_ORDER] at ho ⊢; omega) order hord
      (free_list_remove s z pfn o)
  rw [alloc_from_eq s z o order pfn rest hord hhead]
  refine ⟨?_, ?_, ?_, ?_, ?_, ?_, ?_, ?_, ?_⟩
  · show PureVisor.upd _ pfn _ pfn = _
    rw [PureVisor.upd_same]
  · intro c hc1 hc2
    show PureVisor.upd _ pfn _ (pfn + 2 ^ c) = _
    have hne : pfn + 2 ^ c ≠ pfn := by
      have := Nat.two_pow_pos c
      omega
    rw [PureVisor.upd_other _ _ _ _ hne, sp1 c hc1 hc2, flr_pages]
  · intro q hq1 hq2
    show PureVisor.upd _ pfn _ q = _
    rw [PureVisor.upd_other _ _ _ _ hq1, sp2 q (fun c hc1 hc2 => hq2 c hc1 hc2), flr_pages]
  · intro z2 hz2
    show (split_block (free_list_remove s z pfn o) z pfn o order).zones z2 = _
    rw [sp6 z2 hz2, flr_zones_ne s z pfn o z2 hz2]
  · intro c hc1 hc2
    show ((split_block (free_list_remove s z pfn o) z pfn o order).zones z).free_lists c = _
    rw [sp3 c hc1 hc2, flr_lists_ne s z pfn o c (by omega)]
  · show ((split_block (free_list_remove s z pfn o) z pfn o order).zones z).free_lists o = _
    rw [sp4 o (Or.inr (le_refl o)), flr_lists_eq]
  · intro c hc
    show ((split_block (free_list_remove s z pfn o) z pfn o order).zones z).free_lists c = _
    rw [sp4 c (by omega), flr_lists_ne s z pfn o c (by omega)]
  · show (split_block (free_list_remove s z pfn o) z pfn o order).page_count = _
    rw [sp7, flr_page_count]
  · exact sp12

theorem alloc_outside (s : pmm_state_t) (A : List (Nat × Nat)) (z o pfn : Nat)
    (hP : (all_blocks s ++ A).Pairwise blocks_disjoint) (hz : z < 3)
    (ho12 : o < PMM_MAX_ORDER + 1) (hmem : pfn ∈ ((s.zones z).free_lists o).head) :
    (∀ h2 o2, (h2, o2) ∈ all_blocks s → (h2, o2) ≠ (pfn, o) → ¬ in_block pfn o h2) ∧
    (∀ ak, ak ∈ A → ¬ in_block pfn o ak.1) := by
  have hpmem : (pfn, o) ∈ all_blocks s := (mem_all_blocks s _).mpr ⟨z, hz, ho12, hmem⟩
  constructor
  · intro h2 o2 hmem2 hne
    have hd := pairwise_mem_disjoint _ (hP.sublist (List.sublist_append_left _ _))
      (h2, o2) (pfn, o) hmem2 hpmem hne
    unfold blocks_disjoint at hd
    dsimp only [] at hd
    have := Nat.two_pow_pos o2
    simp only [in_block]
    omega
  · intro ak hak
    have hcross := (List.pairwise_append.mp hP).2.2 (pfn, o) hpmem ak hak
    unfold blocks_disjoint at hcross
    dsimp only [] at hcross
    have := Nat.two_pow_pos ak.2
    simp only [in_block]
    omega

theorem notin_block_ne (pfn o order q2 : Nat) (hord : order ≤ o) (hq : ¬ in_block pfn o q2) :
    q2 ≠ pfn ∧ ∀ c, order ≤ c → c < o → q2 ≠ pfn + 2 ^ c := by
  simp only [in_block] at hq
  have h1 := Nat.two_pow_pos o
  constructor
  · intro he
    subst he
    omega
  · intro c hc1 hc2 he
    subst he
    have h2 : 2 ^ c < 2 ^ o := Nat.pow_lt_pow_right (by norm_num) hc2
    have h3 := Nat.two_pow_pos c
    omega

theorem alloc_wf_lists (s : pmm_state_t) (A : List (Nat × Nat)) (z o order pfn : Nat)
    (rest : List Nat) (hWF : WF s A) (hz : z < 3) (ho : o ≤ PMM_MAX_ORDER) (hord : order ≤ o)
    (hhead : ((s.zones z).free_lists o).head = pfn :: rest) :
    lists_wf (alloc_from s z o order).1 := by
  obtain ⟨hpos, hal, hrange, hzone, hflg, hor, hrem, hdisj, hP1⟩ :=
    alloc_basics s A z o order pfn rest hWF hz ho hord hhead
  obtain ⟨hL, hG, hP, hF, hS, hC, hZ⟩ := hWF
  obtain ⟨ch1, ch2, ch3, ch4, ch5, ch6, ch7, ch8, ch9⟩ :=
    alloc_char s z o order pfn rest ho hord hz hhead
  have ho12 : o < PMM_MAX_ORDER + 1 := by omega
  have hmem : pfn ∈ ((s.zones z).free_lists o).head := by
    rw [hhead]; exact List.mem_cons_self _ _
  obtain ⟨hBout, _⟩ := alloc_outside s A z o pfn hP hz ho12 hmem
  have hold : ∀ z2, z2 < 3 → ∀ o2, o2 < PMM_MAX_ORDER + 1 → (z2 = z → o2 ≠ o) →
      ∀ h, h ∈ ((s.zones z2).free_lists o2).head →
      0 < h ∧ 2 ^ o2 ∣ h ∧ h + 2 ^ o2 ≤ (alloc_from s z o order).1.page_count ∧
      zone_of_pfn h = z2 ∧
      ((alloc_from s z o order).1.pages h).flags = PAGE_FLAG_FREE ∧
      ((alloc_from s z o order).1.pages h).order = o2 := by
    intro z2 hz2 o2 ho2 hne h hh
    obtain ⟨f1, f2, f3, f4, f5, f6⟩ := hL z2 hz2 o2 ho2 h hh
    have habs : (h, o2) ∈ all_blocks s := (mem_all_blocks s _).mpr ⟨z2, hz2, ho2, hh⟩
    have hneq : (h, o2) ≠ (pfn, o) := by
      intro he
      rcases Prod.mk.injEq h o2 pfn o ▸ he with ⟨he1, he2⟩
      by_cases hzz : z2 = z
      · exact hne hzz he2
      · rw [← he1] at hzone
        rw [f4] at hzone
        exact hzz hzone
    have hout := hBout h o2 habs hneq
    obtain ⟨hq1, hq2⟩ := notin_block_ne pfn o order h hord hout
    rw [ch8, ch3 h hq1 hq2]
    exact ⟨f1, f2, f3, f4, f5, f6⟩
  intro z2 hz2 o2 ho2 h hh
  by_cases hzz : z2 = z
  · rw [hzz] at hh ⊢
    by_cases hro : order ≤ o2 ∧ o2 < o
    · rw [ch5 o2 hro.1 hro.2] at hh
      rcases List.mem_cons.mp hh with he | hh2
      · subst he
        obtain ⟨g1, g2, g3⟩ := hrem o2 hro.2
        have h2pos := Nat.two_pow_pos o2
        rw [ch8, ch2 o2 hro.1 hro.2]
        exact ⟨by omega, g2, by omega, g1, rfl, rfl⟩
      · exact hold z hz o2 ho2 (fun _ => by omega) h hh2
    · by_cases ho2o : o2 = o
      · rw [ho2o] at hh ho2 ⊢
        rw [ch6] at hh
        dsimp only [] at hh
        have hh2 : h ∈ ((s.zones z).free_lists o).head := List.mem_of_mem_erase hh
        have hnd : ((s.zones z).free_lists o).head.Nodup := head_nodup s A z o hz ho2 hP
        have hhp : h ≠ pfn := by
          intro he
          subst he
          exact hnd.not_mem_erase hh
        obtain ⟨f1, f2, f3, f4, f5, f6⟩ := hL z hz o ho2 h hh2
        have habs : (h, o) ∈ all_blocks s := (mem_all_blocks s _).mpr ⟨z, hz, ho2, hh2⟩
        have hout := hBout h o habs (by simp [hhp])
        obtain ⟨hq1, hq2⟩ := notin_block_ne pfn o order h hord hout
        rw [ch8, ch3 h hq1 hq2]
        exact ⟨f1, f2, f3, f4, f5, f6⟩
      · rw [ch7 o2 (by omega)] at hh
        exact hold z hz o2 ho2 (fun _ => ho2o) h hh
  · rw [ch4 z2 hzz] at hh
    exact hold z2 hz2 o2 ho2 (fun he => absurd he hzz) h hh

theorem alloc_wf_ghost (s : pmm_state_t) (A : List (Nat × Nat)) (z o order pfn : Nat)
    (rest : List Nat) (hWF : WF s A) (hz : z < 3) (ho : o ≤ PMM_MAX_ORDER) (hord : order ≤ o)
    (hhead : ((s.zones z).free_lists o).head = pfn :: rest) :
    ghost_wf (alloc_from s z o order).1 ((pfn, order) :: A) := by
  obtain ⟨hpos, hal, hrange, hzone, hflg, hor, hrem, hdisj, hP1⟩ :=
    alloc_basics s A z o order pfn rest hWF hz ho hord hhead
  obtain ⟨hL, hG, hP, hF, hS, hC, hZ⟩ := hWF
  obtain ⟨ch1, ch2, ch3, ch4, ch5, ch6, ch7, ch8, ch9⟩ :=
    alloc_char s z o order pfn rest ho hord hz hhead
  have ho12 : o < PMM_MAX_ORDER + 1 := by omega
  have hmem : pfn ∈ ((s.zones z).free_lists o).head := by
    rw [hhead]; exact List.mem_cons_self _ _
  obtain ⟨_, hGout⟩ := alloc_outside s A z o pfn hP hz ho12 hmem
  intro ak hak
  rcases List.mem_cons.mp hak with he | hak2
  · subst he
    have hle : 2 ^ order ≤ 2 ^ o := Nat.pow_le_pow_right (by norm_num) hord
    dsimp only []
    rw [ch8, ch1]
    exact ⟨hpos, dvd_trans (pow_dvd_pow 2 hord) hal, by omega, le_trans hord ho, rfl, rfl⟩
  · obtain ⟨f1, f2, f3, f4, f5, f6⟩ := hG ak hak2
    have hout := hGout ak hak2
    obtain ⟨hq1, hq2⟩ := notin_block_ne pfn o order ak.1 hord hout
    rw [ch8, ch3 ak.1 hq1 hq2]
    exact ⟨f1, f2, f3, f4, f5, f6⟩

theorem alloc_wf_flags (s : pmm_state_t) (A : List (Nat × Nat)) (z o order pfn : Nat)
    (rest : List Nat) (hWF : WF s A) (hz : z < 3) (ho : o ≤ PMM_MAX_ORDER) (hord : order ≤ o)
    (hhead : ((s.zones z).free_lists o).head = pfn :: rest) :
    flags_clean (alloc_from s z o order).1 := by
  obtain ⟨hL, hG, hP, hF, hS, hC, hZ⟩ := hWF
  obtain ⟨ch1, ch2, ch3, ch4, ch5, ch6, ch7, ch8, ch9⟩ :=
    alloc_char s z o order pfn rest ho hord hz hhead
  intro q hqpc hbit
  by_cases hqp : q = pfn
  · subst hqp
    rw [ch1] at hbit
    dsimp only [] at hbit
    exact absurd (by decide) hbit
  · by_cases hqr : ∃ c, order ≤ c ∧ c < o ∧ q = pfn + 2 ^ c
    · obtain ⟨c, hc1, hc2, hc3⟩ := hqr
      subst hc3
      rw [ch2 c hc1 hc2]
    · rw [ch3 q hqp (fun c hc1 hc2 he => hqr ⟨c, hc1, hc2, he⟩)] at hbit ⊢
      rw [ch8] at hqpc
      exact hF q hqpc hbit

theorem alloc_wf_page0 (s : pmm_state_t) (A : List (Nat × Nat)) (z o order pfn : Nat)
    (rest : List Nat) (hWF : WF s A) (hz : z < 3) (ho : o ≤ PMM_MAX_ORDER) (hord : order ≤ o)
    (hhead : ((s.zones z).free_lists o).head = pfn :: rest) :
    page0_wf (alloc_from s z o order).1 := by
  obtain ⟨hpos, hal, hrange, hzone, hflg, hor, hrem, hdisj, hP1⟩ :=
    alloc_basics s A z o order pfn rest hWF hz ho hord hhead
  obtain ⟨hL, hG, hP, hF, hS, hC, hZ⟩ := hWF
  obtain ⟨ch1, ch2, ch3, ch4, ch5, ch6, ch7, ch8, ch9⟩ :=
    alloc_char s z o order pfn rest ho hord hz hhead
  show ((alloc_from s z o order).1.pages 0).flags &&& PAGE_FLAG_FREE = 0
  rw [ch3 0 (by omega) (fun c _ _ => by have := Nat.two_pow_pos c; omega)]
  exact hZ

theorem alloc_wf_pairwise (s : pmm_state_t) (A : List (Nat × Nat)) (z o order pfn : Nat)
    (rest : List Nat) (hWF : WF s A) (hz : z < 3) (ho : o ≤ PMM_MAX_ORDER) (hord : order ≤ o)
    (hhead : ((s.zones z).free_lists o).head = pfn :: rest) :
    (all_blocks (alloc_from s z o order).1 ++ (pfn, order) :: A).Pairwise blocks_disjoint := by
  obtain ⟨hpos, hal, hrange, hzone, hflg, hor, hrem, hdisj, hP1⟩ :=
    alloc_basics s A z o order pfn rest hWF hz ho hord hhead
  obtain ⟨hL, hG, hP, hF, hS, hC, hZ⟩ := hWF
  obtain ⟨ch1, ch2, ch3, ch4, ch5, ch6, ch7, ch8, ch9⟩ :=
    alloc_char s z o order pfn rest ho hord hz hhead
  have hle : 2 ^ order ≤ 2 ^ o := Nat.pow_le_pow_right (by norm_num) hord
  have hp1 : (all_blocks (alloc_from s z o order).1 ++ (pfn, order) :: A).Perm
      ((pfn, order) ::
        ((((List.range' order (o - order)).map fun c => (pfn + 2 ^ c, c))
          ++ all_blocks (free_list_remove s z pfn o)) ++ A)) :=
    (ch9.append_right _).trans List.perm_middle
  apply pairwise_of_perm hp1.symm
  rw [List.pairwise_cons]
  constructor
  · intro x hx
    rcases List.mem_append.mp hx with hx1 | hx2
    · rcases List.mem_append.mp hx1 with hxr | hxs
      · obtain ⟨c, hc, hbe⟩ := List.mem_map.mp hxr
        have hcr := List.mem_range'_1.mp hc
        have hcle : 2 ^ order ≤ 2 ^ c := Nat.pow_le_pow_right (by norm_num) (by omega)
        subst hbe
        unfold blocks_disjoint
        dsimp only []
        omega
      · apply disjoint_of_sub (pfn, o) (pfn, order) x (hdisj x (List.mem_append_left A hxs))
        dsimp only []
        omega
    · apply disjoint_of_sub (pfn, o) (pfn, order) x (hdisj x (List.mem_append_right _ hx2))
      dsimp only []
      omega
  · rw [List.append_assoc]
    rw [List.pairwise_append]
    refine ⟨?_, hP1, ?_⟩
    · apply List.Pairwise.map _ _ (List.pairwise_lt_range' order (o - order))
      intro a b hab
      have h1 : 2 ^ (a + 1) ≤ 2 ^ b := Nat.pow_le_pow_right (by norm_num) (by omega)
      have h2 : 2 ^ (a + 1) = 2 ^ a + 2 ^ a := by rw [pow_succ]; ring
      unfold blocks_disjoint
      dsimp only []
      omega
    · intro a ha x hx
      obtain ⟨c, hc, hbe⟩ := List.mem_map.mp ha
      have hcr := List.mem_range'_1.mp hc
      have h1 : 2 ^ (c + 1) ≤ 2 ^ o := Nat.pow_le_pow_right (by norm_num) (by omega)
      have h2 : 2 ^ (c + 1) = 2 ^ c + 2 ^ c := by rw [pow_succ]; ring
      subst hbe
      apply disjoint_of_sub (pfn, o) _ x (hdisj x hx)
      refine ⟨Nat.le_add_right _ _, ?_⟩
      show pfn + 2 ^ c + 2 ^ c ≤ pfn + 2 ^ o
      omega

theorem alloc_wf_counts (s : pmm_state_t) (A : List (Nat × Nat)) (z o order pfn : Nat)
    (rest : List Nat) (hWF : WF s A) (hz : z < 3) (ho : o ≤ PMM_MAX_ORDER) (hord : order ≤ o)
    (hhead : ((s.zones z).free_lists o).head = pfn :: rest) :
    counts_wf (alloc_from s z o order).1 := by
  obtain ⟨hL, hG, hP, hF, hS, hC, hZ⟩ := hWF
  obtain ⟨ch1, ch2, ch3, ch4, ch5, ch6, ch7, ch8, ch9⟩ :=
    alloc_char s z o order pfn rest ho hord hz hhead
  have ho12 : o < PMM_MAX_ORDER + 1 := by
    simp only [PMM_MAX_ORDER] at ho ⊢
    omega
  have hmem : pfn ∈ ((s.zones z).free_lists o).head := by
    rw [hhead]; exact List.mem_cons_self _ _
  have hlen1 : 1 ≤ ((s.zones z).free_lists o).head.length := by
    rw [hhead]; simp
  have hle : 2 ^ order ≤ 2 ^ o := Nat.pow_le_pow_right (by norm_num) hord
  obtain ⟨sp1, sp2, sp3, sp4, sp5, sp6, sp7, sp8, sp9, sp10, sp11, sp12⟩ :=
    split_block_spec z pfn hz o (by omega) order hord (free_list_remove s z pfn o)
  have hfplow : 2 ^ o ≤ (s.zones z).free_pages := by
    rw [hC.2.1 z hz]
    have hge := foldr_sum_ge (List.range (PMM_MAX_ORDER + 1))
      (fun c => 2 ^ c * ((s.zones z).free_lists c).head.length) o (List.mem_range.mpr ho12)
    have h1 : 2 ^ o ≤ 2 ^ o * ((s.zones z).free_lists o).head.length :=
      Nat.le_mul_of_pos_right _ (by omega)
    exact le_trans h1 hge
  have hfp : ((alloc_from s z o order).1.zones z).free_pages + 2 ^ order
      = (s.zones z).free_pages := by
    rw [alloc_from_eq s z o order pfn rest hord hhead]
    show ((split_block (free_list_remove s z pfn o) z pfn o order).zones z).free_pages
        + 2 ^ order = (s.zones z).free_pages
    rw [sp5, flr_free_pages]
    omega
  have hstats : (alloc_from s z o order).1.stats_free_memory + 2 ^ order * PAGE_SIZE
      = s.stats_free_memory := by
    rw [alloc_from_eq s z o order pfn rest hord hhead]
    show (split_block (free_list_remove s z pfn o) z pfn o order).stats_free_memory
        - 2 ^ order * PAGE_SIZE + 2 ^ order * PAGE_SIZE = s.stats_free_memory
    rw [sp10, (flr_stats s z pfn o).2.2.1]
    have h2 := hC.2.2
    have h3 : (s.zones z).free_pages ≤ pmm_get_free_pages s := by
      simp only [pmm_get_free_pages]
      interval_cases z <;> omega
    simp only [PAGE_SIZE] at *
    omega
  have herase : 2 ^ o * (((alloc_from s z o order).1.zones z).free_lists o).head.length
      = 2 ^ o * ((s.zones z).free_lists o).head.length - 2 ^ o := by
    rw [ch6]
    dsimp only []
    rw [List.length_erase_of_mem hmem]
    obtain ⟨l, hl⟩ : ∃ l, ((s.zones z).free_lists o).head.length = l + 1 :=
      ⟨((s.zones z).free_lists o).head.length - 1, by omega⟩
    rw [hl]
    simp only [Nat.add_sub_cancel, Nat.mul_add, Nat.mul_one]
  have hsumz : ((alloc_from s z o order).1.zones z).free_pages =
      (List.range (PMM_MAX_ORDER + 1)).foldr
        (fun o2 acc =>
          2 ^ o2 * (((alloc_from s z o order).1.zones z).free_lists o2).head.length + acc)
        0 := by
    have hwso : 2 ^ o ≤ 2 ^ o * ((s.zones z).free_lists o).head.length :=
      Nat.le_mul_of_pos_right _ (by omega)
    have hstep1 : (List.range (PMM_MAX_ORDER + 1)).foldr
        (fun o2 acc =>
          2 ^ o2 * (((alloc_from s z o order).1.zones z).free_lists o2).head.length + acc)
        0
        = (List.range (PMM_MAX_ORDER + 1)).foldr
          (fun o2 acc =>
            (if o2 = o then 2 ^ o2 * ((s.zones z).free_lists o2).head.length - 2 ^ o
             else 2 ^ o2 * ((s.zones z).free_lists o2).head.length) + acc) 0
          + (2 ^ o - 2 ^ order) := by
      apply foldr_sum_shift (PMM_MAX_ORDER + 1) o (by omega) order hord
      · intro c hc1 hc2
        rw [ch5 c hc1 hc2]
        dsimp only []
        rw [if_neg (by omega), List.length_cons, Nat.mul_succ]
      · intro c hc
        by_cases hco : c = o
        · subst hco
          rw [if_pos rfl, herase]
        · rw [if_neg hco, ch7 c (by omega)]
    have hstep2 : (List.range (PMM_MAX_ORDER + 1)).foldr
        (fun o2 acc => 2 ^ o2 * ((s.zones z).free_lists o2).head.length + acc) 0
        = (List.range (PMM_MAX_ORDER + 1)).foldr
          (fun o2 acc =>
            (if o2 = o then 2 ^ o2 * ((s.zones z).free_lists o2).head.length - 2 ^ o
             else 2 ^ o2 * ((s.zones z).free_lists o2).head.length) + acc) 0
          + 2 ^ o := by
      apply foldr_sum_upd _ _ _ o _ (List.nodup_range _) (List.mem_range.mpr ho12)
      · rw [if_pos rfl]
        omega
      · intro x _ hx
        rw [if_neg hx]
    rw [hstep1]
    have hs := hC.2.1 z hz
    omega
  refine ⟨?_, ?_, ?_⟩
  · intro z2 hz2 o2 ho2
    by_cases hzz : z2 = z
    · rw [hzz]
      by_cases hro : order ≤ o2 ∧ o2 < o
      · rw [ch5 o2 hro.1 hro.2]
        dsimp only []
        rw [List.length_cons, hC.1 z hz o2 ho2]
      · by_cases ho2o : o2 = o
        · rw [ho2o, ch6]
          dsimp only []
          rw [List.length_erase_of_mem hmem, hC.1 z hz o ho12]
        · rw [ch7 o2 (by omega), hC.1 z hz o2 ho2]
    · rw [ch4 z2 hzz, hC.1 z2 hz2 o2 ho2]
  · intro z2 hz2
    by_cases hzz : z2 = z
    · rw [hzz]
      exact hsumz
    · rw [ch4 z2 hzz, hC.2.1 z2 hz2]
  · have hgf : pmm_get_free_pages (alloc_from s z o order).1 + 2 ^ order
        = pmm_get_free_pages s := by
      simp only [pmm_get_free_pages]
      interval_cases z
      · rw [ch4 1 (by omega), ch4 2 (by omega)]
        omega
      · rw [ch4 0 (by omega), ch4 2 (by omega)]
        omega
      · rw [ch4 0 (by omega), ch4 1 (by omega)]
        omega
    have h2 := hC.2.2
    simp only [PAGE_SIZE] at *
    omega

theorem alloc_wf_stale (s : pmm_state_t) (A : List (Nat × Nat)) (z o order pfn : Nat)
    (rest : List Nat) (hWF : WF s A) (hz : z < 3) (ho : o ≤ PMM_MAX_ORDER) (hord : order ≤ o)
    (hhead : ((s.zones z).free_lists o).head = pfn :: rest) :
    stale_ok (alloc_from s z o order).1 ((pfn, order) :: A) none := by
  obtain ⟨hpos, hal, hrange, hzone, hflg, hor, hrem, hdisj, hP1⟩ :=
    alloc_basics s A z o order pfn rest hWF hz ho hord hhead
  obtain ⟨hL, hG, hP, hF, hS, hC, hZ⟩ := hWF
  obtain ⟨ch1, ch2, ch3, ch4, ch5, ch6, ch7, ch8, ch9⟩ :=
    alloc_char s z o order pfn rest ho hord hz hhead
  have ho12 : o < PMM_MAX_ORDER + 1 := by omega
  have hmem : pfn ∈ ((s.zones z).free_lists o).head := by
    rw [hhead]; exact List.mem_cons_self _ _
  have hperm1 := all_blocks_remove_perm s z pfn o hz ho12 hmem
  intro o2 ho2 q hq hfl hor2
  rw [ch8] at hq
  by_cases hqp : q = pfn
  · subst hqp
    rw [ch1] at hfl
    dsimp only [] at hfl
    exact absurd hfl (by decide)
  by_cases hqr : ∃ c, order ≤ c ∧ c < o ∧ q = pfn + 2 ^ c
  · obtain ⟨c, hc1, hc2, hc3⟩ := hqr
    subst hc3
    rw [ch2 c hc1 hc2] at hfl hor2
    dsimp only [] at hfl hor2
    obtain ⟨g1, g2, g3⟩ := hrem c hc2
    refine ⟨by rw [← hor2]; exact g2, by rw [ch8, ← hor2]; omega, Or.inl ?_⟩
    rw [g1, ← hor2, ch5 c hc1 hc2]
    exact List.mem_cons_self _ _
  · have hnr : ∀ c, order ≤ c → c < o → q ≠ pfn + 2 ^ c := fun c h1 h2 he =>
      hqr ⟨c, h1, h2, he⟩
    rw [ch3 q hqp hnr] at hfl hor2
    obtain ⟨f1, f2, fcase⟩ := hS o2 ho2 q hq hfl hor2
    refine ⟨f1, by rw [ch8]; exact f2, ?_⟩
    rcases fcase with hlist | hpar | hghost | hE
    · left
      by_cases hzq : zone_of_pfn q = z
      · rw [hzq] at hlist ⊢
        by_cases hro : order ≤ o2 ∧ o2 < o
        · rw [ch5 o2 hro.1 hro.2]
          exact List.mem_cons_of_mem _ hlist
        · by_cases ho2o : o2 = o
          · rw [ho2o] at hlist ⊢
            rw [ch6]
            dsimp only []
            exact (List.mem_erase_of_ne hqp).mpr hlist
          · rw [ch7 o2 (by omega)]
            exact hlist
      · rw [ch4 _ hzq]
        exact hlist
    · obtain ⟨b, hb, hb1, hb2⟩ := hpar
      by_cases hbpo : b = (pfn, o)
      · subst hbpo
        dsimp only [] at hb1 hb2
        obtain ⟨plf1, plf2, plf3, plf4⟩ := parent_lo_facts q o2 f1
        have hsbc := sub_block_cases pfn o order (parent_lo q o2) (o2 + 1) q hord hal
          (by simpa using plf4) hb1 hb2 plf2 (by have := Nat.two_pow_pos o2; omega)
          (by simpa using f1) (by omega) hqp
        rcases hsbc with hG2 | ⟨c, hcc1, hcc2, hcc3, hcc4⟩ | ⟨he, hge, hlt⟩
        · right; right; left
          refine ⟨(pfn, order), List.mem_cons_self _ _, hb1.trans' ?_, ?_⟩
          · dsimp only []
            omega
          · dsimp only []
            omega
        · right; left
          refine ⟨(pfn + 2 ^ c, c), ?_, ?_, ?_⟩
          · apply ch9.mem_iff.mpr
            apply List.mem_append_left
            exact List.mem_map.mpr ⟨c, List.mem_range'_1.mpr ⟨hcc1, by omega⟩, rfl⟩
          · dsimp only []
            omega
          · dsimp only []
            have h2c : 2 ^ (c + 1) = 2 ^ c + 2 ^ c := by rw [pow_succ]; ring
            omega
        · have he2 : q = pfn + 2 ^ o2 := by simpa using he
          have hge2 : order ≤ o2 := by simpa using hge
          have hlt2 : o2 < o := by simpa using hlt
          exact absurd ⟨o2, hge2, hlt2, he2⟩ hqr
      · right; left
        refine ⟨b, ?_, hb1, hb2⟩
        rcases List.mem_cons.mp (hperm1.mem_iff.mp hb) with he | hb3
        · exact absurd he hbpo
        · exact ch9.mem_iff.mpr (List.mem_append_right _ hb3)
    · right; right; left
      obtain ⟨ak, hak, hak1, hak2⟩ := hghost
      exact ⟨ak, List.mem_cons_of_mem _ hak, hak1, hak2⟩
    · obtain ⟨e, he, _⟩ := hE
      cases he

theorem alloc_from_spec (s : pmm_state_t) (A : List (Nat × Nat)) (z o order pfn : Nat)
    (rest : List Nat) (hWF : WF s A) (hz : z < 3) (ho : o ≤ PMM_MAX_ORDER) (hord : order ≤ o)
    (hhead : ((s.zones z).free_lists o).head = pfn :: rest) :
    (alloc_from s z o order).2 = pfn * PAGE_SIZE ∧
    0 < pfn ∧ pfn + 2 ^ order ≤ s.page_count ∧
    WF (alloc_from s z o order).1 ((pfn, order) :: A) ∧
    (alloc_from s z o order).1.page_count = s.page_count ∧
    (∀ z2, z2 ≠ z → (alloc_from s z o order).1.zones z2 = s.zones z2) ∧
    ((alloc_from s z o order).1.zones z).free_pages + 2 ^ order = (s.zones z).free_pages ∧
    (alloc_from s z o order).1.stats_free_memory + 2 ^ order * PAGE_SIZE
      = s.stats_free_memory ∧
    (alloc_from s z o order).1.stats_used_memory
      = s.stats_used_memory + 2 ^ order * PAGE_SIZE ∧
    (alloc_from s z o order).1.stats_alloc_count = s.stats_alloc_count + 1 ∧
    (alloc_from s z o order).1.stats_free_count = s.stats_free_count ∧
    (∀ q, free_covered (alloc_from s z o order).1 q ↔
      (free_covered s q ∧ ¬ in_block pfn order q)) ∧
    (∀ q, in_block pfn order q → free_covered s q) := by
  have hWF2 := hWF
  obtain ⟨hL, hG, hP, hF, hS, hC, hZ⟩ := hWF2
  obtain ⟨hpos, hal, hrange, hzone, hflg, hor, hrem, hdisj, hP1⟩ :=
    alloc_basics s A z o order pfn rest hWF hz ho hord hhead
  have hmem : pfn ∈ ((s.zones z).free_lists o).head := by
    rw [hhead]; exact List.mem_cons_self _ _
  have ho12 : o < PMM_MAX_ORDER + 1 := by omega
  have hperm1 := all_blocks_remove_perm s z pfn o hz ho12 hmem
  obtain ⟨sp1, sp2, sp3, sp4, sp5, sp6, sp7, sp8, sp9, sp10, sp11, sp12⟩ :=
    split_block_spec z pfn hz o (by omega) order hord (free_list_remove s z pfn o)
  have hWFt : WF (alloc_from s z o order).1 ((pfn, order) :: A) :=
    ⟨alloc_wf_lists s A z o order pfn rest hWF hz ho hord hhead,
     alloc_wf_ghost s A z o order pfn rest hWF hz ho hord hhead,
     alloc_wf_pairwise s A z o order pfn rest hWF hz ho hord hhead,
     alloc_wf_flags s A z o order pfn rest hWF hz ho hord hhead,
     alloc_wf_stale s A z o order pfn rest hWF hz ho hord hhead,
     alloc_wf_counts s A z o order pfn rest hWF hz ho hord hhead,
     alloc_wf_page0 s A z o order pfn rest hWF hz ho hord hhead⟩
  rw [alloc_from_eq s z o order pfn rest hord hhead] at hWFt ⊢
  have hfplow : 2 ^ o ≤ (s.zones z).free_pages := by
    rw [hC.2.1 z hz]
    have hge := foldr_sum_ge (List.range (PMM_MAX_ORDER + 1))
      (fun c => 2 ^ c * ((s.zones z).free_lists c).head.length) o (List.mem_range.mpr ho12)
    have hlen : 1 ≤ ((s.zones z).free_lists o).head.length := by
      rw [hhead]
      simp
    have h1 : 2 ^ o ≤ 2 ^ o * ((s.zones z).free_lists o).head.length :=
      Nat.le_mul_of_pos_right _ (by omega)
    exact le_trans h1 hge
  refine ⟨rfl, hpos, ?_, ?_, ?_, ?_, ?_, ?_, ?_, ?_, ?_, ?_, ?_⟩
  · have : 2 ^ order ≤ 2 ^ o := Nat.pow_le_pow_right (by norm_num) hord
    omega
  · exact hWFt
  · show (split_block (free_list_remove s z pfn o) z pfn o order).page_count = s.page_count
    rw [sp7, flr_page_count]
  · intro z2 hz2
    show (split_block (free_list_remove s z pfn o) z pfn o order).zones z2 = s.zones z2
    rw [sp6 z2 hz2, flr_zones_ne s z pfn o z2 hz2]
  · show ((split_block (free_list_remove s z pfn o) z pfn o order).zones z).free_pages
      + 2 ^ order = (s.zones z).free_pages
    rw [sp5, flr_free_pages]
    have h1 : 2 ^ order ≤ 2 ^ o := Nat.pow_le_pow_right (by norm_num) hord
    omega
  · show (split_block (free_list_remove s z pfn o) z pfn o order).stats_free_memory
      - 2 ^ order * PAGE_SIZE + 2 ^ order * PAGE_SIZE = s.stats_free_memory
    rw [sp10, (flr_stats s z pfn o).2.2.1]
    have h1 : 2 ^ order ≤ 2 ^ o := Nat.pow_le_pow_right (by norm_num) hord
    have h2 := hC.2.2
    have h3 : (s.zones z).free_pages ≤ pmm_get_free_pages s := by
      simp only [pmm_get_free_pages]
      interval_cases z <;> omega
    simp only [PAGE_SIZE] at *
    omega
  · show (split_block (free_list_remove s z pfn o) z pfn o order).stats_used_memory
      + 2 ^ order * PAGE_SIZE = s.stats_used_memory + 2 ^ order * PAGE_SIZE
    rw [sp11, (flr_stats s z pfn o).2.2.2]
  · show (split_block (free_list_remove s z pfn o) z pfn o order).stats_alloc_count + 1
      = s.stats_alloc_count + 1
    rw [sp8, (flr_stats s z pfn o).1]
  · show (split_block (free_list_remove s z pfn o) z pfn o order).stats_free_count
      = s.stats_free_count
    rw [sp9, (flr_stats s z pfn o).2.1]
  · intro q
    have habs : all_blocks
        ({ split_block (free_list_remove s z pfn o) z pfn o order with
            pages := PureVisor.upd
              (split_block (free_list_remove s z pfn o) z pfn o order).pages pfn
              { flags := PAGE_FLAG_PRESENT ||| PAGE_FLAG_KERNEL, order := order,
                refcount := 1 },
            stats_alloc_count :=
              (split_block (free_list_remove s z pfn o) z pfn o order).stats_alloc_count + 1,
            stats_free_memory :=
              (split_block (free_list_remove s z pfn o) z pfn o order).stats_free_memory
                - 2 ^ order * PAGE_SIZE,
            stats_used_memory :=
              (split_block (free_list_remove s z pfn o) z pfn o order).stats_used_memory
                + 2 ^ order * PAGE_SIZE } : pmm_state_t)
        = all_blocks (split_block (free_list_remove s z pfn o) z pfn o order) := rfl
    rw [free_covered_iff, free_covered_iff, habs]
    have hoo : 2 ^ order ≤ 2 ^ o := Nat.pow_le_pow_right (by norm_num) hord
    constructor
    · rintro ⟨b, hb, hib⟩
      rcases List.mem_append.mp (sp12.mem_iff.mp hb) with hb1 | hb1
      · obtain ⟨c, hc, hbe⟩ := List.mem_map.mp hb1
        have hcr := List.mem_range'_1.mp hc
        have hc2 : 2 ^ (c + 1) = 2 ^ c + 2 ^ c := by
          rw [pow_succ]
          ring
        have hcle : 2 ^ (c + 1) ≤ 2 ^ o := Nat.pow_le_pow_right (by norm_num) (by omega)
        have hcge : 2 ^ order ≤ 2 ^ c := Nat.pow_le_pow_right (by norm_num) (by omega)
        subst hbe
        simp only [in_block] at hib ⊢
        refine ⟨⟨(pfn, o), mem_all_blocks s _ |>.mpr ⟨z, hz, ho12, hmem⟩, ?_⟩, ?_⟩
        · show pfn ≤ q ∧ q < pfn + 2 ^ o
          omega
        · omega
      · have hbs : b ∈ all_blocks s := hperm1.mem_iff.mpr (List.mem_cons_of_mem _ hb1)
        have hd := hdisj b (List.mem_append_left A hb1)
        unfold blocks_disjoint at hd
        dsimp only [] at hd
        simp only [in_block] at hib ⊢
        exact ⟨⟨b, hbs, hib⟩, by omega⟩
    · rintro ⟨⟨b, hb, hib⟩, hnin⟩
      rcases List.mem_cons.mp (hperm1.mem_iff.mp hb) with hb1 | hb1
      · subst hb1
        simp only [in_block] at hib hnin
        have hdlow : 2 ^ order ≤ q - pfn := by omega
        have hdhigh : q - pfn < 2 ^ o := by omega
        obtain ⟨c, hc1, hc2, hc3, hc4⟩ := exists_range_pow order o (q - pfn) hdlow hdhigh
        have hc5 : 2 ^ (c + 1) = 2 ^ c + 2 ^ c := by
          rw [pow_succ]
          ring
        refine ⟨(pfn + 2 ^ c, c), sp12.mem_iff.mpr (List.mem_append_left _ ?_), ?_⟩
        · exact List.mem_map.mpr ⟨c, List.mem_range'_1.mpr ⟨hc1, by omega⟩, rfl⟩
        · show pfn + 2 ^ c ≤ q ∧ q < pfn + 2 ^ c + 2 ^ c
          omega
      · exact ⟨b, sp12.mem_iff.mpr (List.mem_append_right _ hb1), hib⟩
  · intro q hq
    rw [free_covered_iff]
    refine ⟨(pfn, o), mem_all_blocks s _ |>.mpr ⟨z, hz, ho12, hmem⟩, ?_⟩
    simp only [in_block] at hq
    have hoo : 2 ^ order ≤ 2 ^ o := Nat.pow_le_pow_right (by norm_num) hord
    show pfn ≤ q ∧ q < pfn + 2 ^ o
    omega

theorem pmm_alloc_spec (s : pmm_state_t) (A : List (Nat × Nat)) (k : Nat)
    (hWF : WF s A) (hk : k ≤ PMM_MAX_ORDER) :
    ((pmm_alloc_pages s k).2 = 0 ∧ (pmm_alloc_pages s k).1 = s) ∨
    (∃ pfn z, z < 3 ∧
      (pmm_alloc_pages s k).2 = pfn * PAGE_SIZE ∧ 0 < pfn ∧
      pfn + 2 ^ k ≤ s.page_count ∧ zone_of_pfn pfn = z ∧
      WF (pmm_alloc_pages s k).1 ((pfn, k) :: A) ∧
      (pmm_alloc_pages s k).1.page_count = s.page_count ∧
      (∀ z2, z2 ≠ z → (pmm_alloc_pages s k).1.zones z2 = s.zones z2) ∧
      ((pmm_alloc_pages s k).1.zones z).free_pages + 2 ^ k = (s.zones z).free_pages ∧
      (pmm_alloc_pages s k).1.stats_free_memory + 2 ^ k * PAGE_SIZE
        = s.stats_free_memory ∧
      (pmm_alloc_pages s k).1.stats_used_memory
        = s.stats_used_memory + 2 ^ k * PAGE_SIZE ∧
      (pmm_alloc_pages s k).1.stats_alloc_count = s.stats_alloc_count + 1 ∧
      (pmm_alloc_pages s k).1.stats_free_count = s.stats_free_count ∧
      (∀ q, free_covered (pmm_alloc_pages s k).1 q ↔
        (free_covered s q ∧ ¬ in_block pfn k q)) ∧
      (∀ q, in_block pfn k q → free_covered s q)) := by
  have hred : pmm_alloc_pages s k =
      (match find_order (s.zones ZONE_NORMAL) k with
       | some o => alloc_from s ZONE_NORMAL o k
       | none =>
         match find_order (s.zones ZONE_DMA) k with
         | some o => alloc_from s ZONE_DMA o k
         | none => (s, 0)) := by
    rw [pmm_alloc_pages, if_neg (by omega)]
  rcases hfo1 : find_order (s.zones ZONE_NORMAL) k with _ | o
  case some =>
    obtain ⟨hko, ho, pfn, rst, hhead⟩ :=
      find_order_spec (s.zones ZONE_NORMAL) (PMM_MAX_ORDER + 1 - k) k o rfl hfo1
    obtain ⟨a1, a2, a3, a4, a5, a6, a7, a8, a9, a10, a11, a12, a13⟩ :=
      alloc_from_spec s A ZONE_NORMAL o k pfn rst hWF (by norm_num [ZONE_NORMAL]) ho hko hhead
    obtain ⟨hpos2, hal2, hrange2, hzone2, _⟩ :=
      alloc_basics s A ZONE_NORMAL o k pfn rst hWF (by norm_num [ZONE_NORMAL]) ho hko hhead
    rw [hred, hfo1]
    exact Or.inr ⟨pfn, ZONE_NORMAL, by norm_num [ZONE_NORMAL], a1, a2, a3, hzone2,
      a4, a5, a6, a7, a8, a9, a10, a11, a12, a13⟩
  case none =>
    rcases hfo2 : find_order (s.zones ZONE_DMA) k with _ | o
    case some =>
      obtain ⟨hko, ho, pfn, rst, hhead⟩ :=
        find_order_spec (s.zones ZONE_DMA) (PMM_MAX_ORDER + 1 - k) k o rfl hfo2
      obtain ⟨a1, a2, a3, a4, a5, a6, a7, a8, a9, a10, a11, a12, a13⟩ :=
        alloc_from_spec s A ZONE_DMA o k pfn rst hWF (by norm_num [ZONE_DMA]) ho hko hhead
      obtain ⟨hpos2, hal2, hrange2, hzone2, _⟩ :=
        alloc_basics s A ZONE_DMA o k pfn rst hWF (by norm_num [ZONE_DMA]) ho hko hhead
      rw [hred, hfo1, hfo2]
      exact Or.inr ⟨pfn, ZONE_DMA, by norm_num [ZONE_DMA], a1, a2, a3, hzone2,
        a4, a5, a6, a7, a8, a9, a10, a11, a12, a13⟩
    case none =>
      rw [hred, hfo1, hfo2]
      exact Or.inl ⟨rfl, rfl⟩

theorem zone_lt3 (x : Nat) : zone_of_pfn x < 3 := by
  rw [zone_of_pfn_cases]
  split_ifs <;> omega

theorem coalesce_add_spec (s : pmm_state_t) (A : List (Nat × Nat)) (z p o : Nat)
    (hLs : lists_wf s) (hGs : ghost_wf s A)
    (hPs : (all_blocks s ++ A).Pairwise blocks_disjoint)
    (hFs : flags_clean s) (hSs : stale_ok s A (some (p, o))) (hZs : page0_wf s)
    (hc1 : (∀ z2, z2 < 3 → ∀ o2, o2 < PMM_MAX_ORDER + 1 →
      ((s.zones z2).free_lists o2).count = ((s.zones z2).free_lists o2).head.length))
    (hc2 : (∀ z2, z2 < 3 → (s.zones z2).free_pages =
      (List.range (PMM_MAX_ORDER + 1)).foldr
        (fun o2 acc => 2 ^ o2 * ((s.zones z2).free_lists o2).head.length + acc) 0))
    (hc3 : s.stats_free_memory = PAGE_SIZE * (pmm_get_free_pages s + 2 ^ o))
    (hppos : 0 < p) (hal : 2 ^ o ∣ p) (hrange : p + 2 ^ o ≤ s.page_count)
    (ho : o ≤ PMM_MAX_ORDER) (hzone : zone_of_pfn p = z) (hz : z < 3)
    (hdisj : ∀ x ∈ all_blocks s ++ A, blocks_disjoint (p, o) x) :
    WF (free_list_add s z p o) A ∧
    (∀ z2, z2 ≠ z → (free_list_add s z p o).zones z2 = s.zones z2) ∧
    ((free_list_add s z p o).zones z).free_pages = (s.zones z).free_pages + 2 ^ o ∧
    (free_list_add s z p o).stats_free_memory = s.stats_free_memory ∧
    (free_list_add s z p o).stats_used_memory = s.stats_used_memory ∧
    (free_list_add s z p o).stats_alloc_count = s.stats_alloc_count ∧
    (free_list_add s z p o).stats_free_count = s.stats_free_count ∧
    (free_list_add s z p o).page_count = s.page_count ∧
    (∀ q, free_covered (free_list_add s z p o) q ↔
      (free_covered s q ∨ in_block p o q)) := by
  have ho12 : o < PMM_MAX_ORDER + 1 := by omega
  have hperm := all_blocks_add_perm s z p o hz ho12
  have hpnotin : ∀ h2 o2, (h2, o2) ∈ all_blocks s → h2 ≠ p := by
    intro h2 o2 hmem2 he
    have hd := hdisj (h2, o2) (List.mem_append_left A hmem2)
    unfold blocks_disjoint at hd
    dsimp only [] at hd
    have := Nat.two_pow_pos o2
    have := Nat.two_pow_pos o
    omega
  have hgnotin : ∀ ak, ak ∈ A → ak.1 ≠ p := by
    intro ak hak he
    have hd := hdisj ak (List.mem_append_right _ hak)
    unfold blocks_disjoint at hd
    dsimp only [] at hd
    have := Nat.two_pow_pos ak.2
    have := Nat.two_pow_pos o
    omega
  have hpg : ∀ q2, q2 ≠ p → (free_list_add s z p o).pages q2 = s.pages q2 := by
    intro q2 hq2
    rw [fla_pages, PureVisor.upd_other _ _ _ _ hq2]
  have hpgp : (free_list_add s z p o).pages p =
      { flags := PAGE_FLAG_FREE, order := o, refcount := (s.pages p).refcount } := by
    rw [fla_pages, PureVisor.upd_same]
  have hlmem : ∀ z2, ∀ o2, ∀ h, h ∈ ((s.zones z2).free_lists o2).head →
      h ∈ (((free_list_add s z p o).zones z2).free_lists o2).head := by
    intro z2 o2 h hh
    by_cases hzz : z2 = z
    · rw [hzz]
      by_cases hoo : o2 = o
      · rw [hoo, fla_lists_eq]
        rw [hzz, hoo] at hh
        exact List.mem_cons_of_mem _ hh
      · rw [fla_lists_ne s z p o o2 hoo]
        rw [hzz] at hh
        exact hh
    · rw [fla_zones_ne s z p o z2 hzz]
      exact hh
  refine ⟨⟨?_, ?_, ?_, ?_, ?_, ⟨?_, ?_, ?_⟩, ?_⟩, ?_, ?_, ?_, ?_, ?_, ?_, ?_, ?_⟩
  · -- lists_wf
    intro z2 hz2 o2 ho2 h hh
    rw [fla_page_count]
    have hmain : (h = p ∧ z2 = z ∧ o2 = o) ∨ h ∈ ((s.zones z2).free_lists o2).head := by
      by_cases hzz : z2 = z
      · by_cases hoo : o2 = o
        · rw [hzz, hoo, fla_lists_eq] at hh
          dsimp only [] at hh
          rcases List.mem_cons.mp hh with he | hh2
          · exact Or.inl ⟨he, hzz, hoo⟩
          · rw [hzz, hoo]
            exact Or.inr hh2
        · rw [hzz, fla_lists_ne s z p o o2 hoo] at hh
          rw [hzz]
          exact Or.inr hh
      · rw [fla_zones_ne s z p o z2 hzz] at hh
        exact Or.inr hh
    rcases hmain with ⟨he, hez, heo⟩ | hh2
    · subst he
      rw [hez, heo, hpgp]
      exact ⟨hppos, hal, hrange, by rw [hzone], rfl, rfl⟩
    · obtain ⟨f1, f2, f3, f4, f5, f6⟩ := hLs z2 hz2 o2 ho2 h hh2
      have hne : h ≠ p := hpnotin h o2 ((mem_all_blocks s _).mpr ⟨z2, hz2, ho2, hh2⟩)
      rw [hpg h hne]
      exact ⟨f1, f2, f3, f4, f5, f6⟩
  · -- ghost_wf
    intro ak hak
    obtain ⟨f1, f2, f3, f4, f5, f6⟩ := hGs ak hak
    rw [fla_page_count, hpg ak.1 (hgnotin ak hak)]
    exact ⟨f1, f2, f3, f4, f5, f6⟩
  · -- pairwise
    have hp2 : (all_blocks (free_list_add s z p o) ++ A).Perm
        ((p, o) :: (all_blocks s ++ A)) := hperm.append_right A
    apply pairwise_of_perm hp2.symm
    rw [List.pairwise_cons]
    exact ⟨hdisj, hPs⟩
  · -- flags_clean
    intro q hq hbit
    rw [fla_page_count] at hq
    by_cases hqp : q = p
    · subst hqp
      rw [hpgp]
    · rw [hpg q hqp] at hbit ⊢
      exact hFs q hq hbit
  · -- stale_ok
    intro oq hoq q hq hfl horq
    rw [fla_page_count] at hq
    by_cases hqp : q = p
    · subst hqp
      rw [hpgp] at horq
      dsimp only [] at horq
      refine ⟨horq ▸ hal, horq ▸ (by rw [fla_page_count]; exact hrange), Or.inl ?_⟩
      rw [hzone, ← horq, fla_lists_eq]
      exact List.mem_cons_self _ _
    · rw [hpg q hqp] at hfl horq
      obtain ⟨f1, f2, fc⟩ := hSs oq hoq q hq hfl horq
      refine ⟨f1, by rw [fla_page_count]; exact f2, ?_⟩
      rcases fc with hlist | ⟨b, hb, hb1, hb2⟩ | hg | ⟨e, he, he1, he2⟩
      · exact Or.inl (hlmem _ _ q hlist)
      · exact Or.inr (Or.inl ⟨b, hperm.mem_iff.mpr (List.mem_cons_of_mem _ hb), hb1, hb2⟩)
      · exact Or.inr (Or.inr (Or.inl hg))
      · cases he
        refine Or.inr (Or.inl ⟨(p, o), hperm.mem_iff.mpr (List.mem_cons_self _ _), ?_, ?_⟩)
        · exact he1
        · exact he2
  · -- counts part 1
    intro z2 hz2 o2 ho2
    by_cases hzz : z2 = z
    · rw [hzz]
      by_cases hoo : o2 = o
      · rw [hoo, fla_lists_eq]
        dsimp only []
        rw [hc1 z hz o ho12, List.length_cons]
      · rw [fla_lists_ne s z p o o2 hoo]
        rw [hzz] at hz2
        exact hc1 z hz2 o2 ho2
    · rw [fla_zones_ne s z p o z2 hzz]
      exact hc1 z2 hz2 o2 ho2
  · -- counts part 2
    intro z2 hz2
    by_cases hzz : z2 = z
    · rw [hzz, fla_free_pages, hc2 z hz]
      have hupd : (List.range (PMM_MAX_ORDER + 1)).foldr
          (fun o2 acc =>
            2 ^ o2 * (((free_list_add s z p o).zones z).free_lists o2).head.length + acc) 0
          = (List.range (PMM_MAX_ORDER + 1)).foldr
            (fun o2 acc => 2 ^ o2 * ((s.zones z).free_lists o2).head.length + acc) 0
            + 2 ^ o := by
        apply foldr_sum_upd _ _ _ o _ (List.nodup_range _) (List.mem_range.mpr ho12)
        · rw [fla_lists_eq]
          dsimp only []
          rw [List.length_cons, Nat.mul_succ]
        · intro x _ hx
          rw [fla_lists_ne s z p o x hx]
      rw [hupd]
    · rw [fla_zones_ne s z p o z2 hzz, hc2 z2 hz2]
  · -- counts part 3
    have hfp2 : pmm_get_free_pages (free_list_add s z p o) = pmm_get_free_pages s + 2 ^ o := by
      simp only [pmm_get_free_pages]
      interval_cases z
      · rw [fla_zones_ne s 0 p o 1 (by omega), fla_zones_ne s 0 p o 2 (by omega),
          fla_free_pages]
        omega
      · rw [fla_zones_ne s 1 p o 0 (by omega), fla_zones_ne s 1 p o 2 (by omega),
          fla_free_pages]
        omega
      · rw [fla_zones_ne s 2 p o 0 (by omega), fla_zones_ne s 2 p o 1 (by omega),
          fla_free_pages]
        omega
    rw [hfp2, (fla_stats s z p o).2.2.1]
    exact hc3
  · -- page0
    show ((free_list_add s z p o).pages 0).flags &&& PAGE_FLAG_FREE = 0
    rw [hpg 0 (by omega)]
    exact hZs
  · intro z2 hz2
    exact fla_zones_ne s z p o z2 hz2
  · exact fla_free_pages s z p o
  · exact (fla_stats s z p o).2.2.1
  · exact (fla_stats s z p o).2.2.2
  · exact (fla_stats s z p o).1
  · exact (fla_stats s z p o).2.1
  · exact fla_page_count s z p o
  · intro q
    rw [free_covered_iff, free_covered_iff]
    constructor
    · rintro ⟨b, hb, hib⟩
      rcases List.mem_cons.mp (hperm.mem_iff.mp hb) with he | hb2
      · subst he
        exact Or.inr hib
      · exact Or.inl ⟨b, hb2, hib⟩
    · rintro (⟨b, hb, hib⟩ | hin)
      · exact ⟨b, hperm.mem_iff.mpr (List.mem_cons_of_mem _ hb), hib⟩
      · exact ⟨(p, o), hperm.mem_iff.mpr (List.mem_cons_self _ _), hin⟩

theorem merged_facts (p o : Nat) (hal : 2 ^ o ∣ p) (hp : 0 < p) :
    (p ^^^ 2 ^ o) ≠ p ∧ 2 ^ o ∣ (p ^^^ 2 ^ o) ∧
    2 ^ (o + 1) ∣ (if (p ^^^ 2 ^ o) < p then (p ^^^ 2 ^ o) else p) ∧
    (if (p ^^^ 2 ^ o) < p then (p ^^^ 2 ^ o) else p) ≤ p ∧
    (if (p ^^^ 2 ^ o) < p then (p ^^^ 2 ^ o) else p) ≤ (p ^^^ 2 ^ o) ∧
    ((if (p ^^^ 2 ^ o) < p then (p ^^^ 2 ^ o) else p) + 2 ^ (o + 1) = p + 2 ^ o ∨
     (if (p ^^^ 2 ^ o) < p then (p ^^^ 2 ^ o) else p) + 2 ^ (o + 1) = (p ^^^ 2 ^ o) + 2 ^ o) ∧
    (∀ q, in_block (if (p ^^^ 2 ^ o) < p then (p ^^^ 2 ^ o) else p) (o + 1) q ↔
      (in_block p o q ∨ in_block (p ^^^ 2 ^ o) o q)) ∧
    parent_lo p o = (if (p ^^^ 2 ^ o) < p then (p ^^^ 2 ^ o) else p) ∧
    parent_lo (p ^^^ 2 ^ o) o = (if (p ^^^ 2 ^ o) < p then (p ^^^ 2 ^ o) else p) := by
  obtain ⟨t, ht⟩ := hal
  have hpos : 0 < 2 ^ o := Nat.two_pow_pos o
  have hpow : 2 ^ (o + 1) = 2 ^ o * 2 := pow_succ 2 o
  have hdiv : ∀ u, (2 ^ (o + 1) * u + 2 ^ o) / 2 ^ (o + 1) = u := by
    intro u
    rw [Nat.add_comm, Nat.add_mul_div_left _ _ (by omega)]
    rw [Nat.div_eq_of_lt (by omega)]
    omega
  have hdiv2 : ∀ u, (2 ^ (o + 1) * u) / 2 ^ (o + 1) = u := by
    intro u
    rw [Nat.mul_div_cancel_left _ (by omega : 0 < 2 ^ (o + 1))]
  rcases Nat.even_or_odd t with ⟨u, hu⟩ | ⟨u, hu⟩
  · have hpe : p = 2 ^ (o + 1) * u := by rw [ht, hu]; ring
    have hx : p ^^^ 2 ^ o = p + 2 ^ o := by
      rw [hpe]; exact aligned_xor_even u o
    have hif : ¬(p ^^^ 2 ^ o) < p := by omega
    rw [hx, if_neg (by omega)]
    refine ⟨by omega, ⟨t + 1, by rw [ht]; ring⟩, ⟨u, hpe⟩, le_refl p, by omega,
      Or.inr (by omega), ?_, ?_, ?_⟩
    · intro q
      simp only [in_block]
      omega
    · show 2 ^ (o + 1) * (p / 2 ^ (o + 1)) = p
      rw [hpe, hdiv2]
    · show 2 ^ (o + 1) * ((p + 2 ^ o) / 2 ^ (o + 1)) = p
      rw [hpe, hdiv]
  · have hpe : p = 2 ^ (o + 1) * u + 2 ^ o := by rw [ht, hu]; ring
    have hbe : (2 ^ (o + 1) * u) ^^^ 2 ^ o = p := by
      rw [aligned_xor_even u o, hpe]
    have hx : p ^^^ 2 ^ o = 2 ^ (o + 1) * u := by
      calc p ^^^ 2 ^ o = ((2 ^ (o + 1) * u) ^^^ 2 ^ o) ^^^ 2 ^ o := by rw [hbe]
        _ = (2 ^ (o + 1) * u) ^^^ (2 ^ o ^^^ 2 ^ o) := Nat.xor_assoc _ _ _
        _ = 2 ^ (o + 1) * u := by rw [Nat.xor_self, Nat.xor_zero]
    rw [hx, if_pos (show 2 ^ (o + 1) * u < p from by omega)]
    refine ⟨by omega, ⟨2 * u, by rw [hpow]; ring⟩, ⟨u, rfl⟩, by omega, le_refl _,
      Or.inl (by omega), ?_, ?_, ?_⟩
    · intro q
      simp only [in_block]
      omega
    · show 2 ^ (o + 1) * (p / 2 ^ (o + 1)) = 2 ^ (o + 1) * u
      rw [hpe, hdiv]
    · show 2 ^ (o + 1) * ((2 ^ (o + 1) * u) / 2 ^ (o + 1)) = 2 ^ (o + 1) * u
      rw [hdiv2]

theorem remove_lists_wf (s : pmm_state_t) (z b o : Nat) (hLs : lists_wf s) :
    lists_wf (free_list_remove s z b o) := by
  intro z2 hz2 o2 ho2 h hh
  rw [flr_page_count, flr_pages]
  apply hLs z2 hz2 o2 ho2 h
  by_cases hzz : z2 = z
  · by_cases hoo : o2 = o
    · rw [hzz, hoo, flr_lists_eq] at hh
      dsimp only [] at hh
      rw [hzz, hoo]
      exact List.mem_of_mem_erase hh
    · rw [hzz, flr_lists_ne s z b o o2 hoo] at hh
      rw [hzz]
      exact hh
  · rw [flr_zones_ne s z b o z2 hzz] at hh
    exact hh

theorem remove_ghost_wf (s : pmm_state_t) (A : List (Nat × Nat)) (z b o : Nat)
    (hGs : ghost_wf s A) : ghost_wf (free_list_remove s z b o) A := by
  intro ak hak
  rw [flr_page_count, flr_pages]
  exact hGs ak hak

theorem remove_flags_clean (s : pmm_state_t) (z b o : Nat) (hFs : flags_clean s) :
    flags_clean (free_list_remove s z b o) := by
  intro q hq hbit
  rw [flr_page_count] at hq
  rw [flr_pages] at hbit ⊢
  exact hFs q hq hbit

theorem remove_page0 (s : pmm_state_t) (z b o : Nat) (hZs : page0_wf s) :
    page0_wf (free_list_remove s z b o) := by
  show ((free_list_remove s z b o).pages 0).flags &&& PAGE_FLAG_FREE = 0
  rw [flr_pages]
  exact hZs

theorem coalesce_spec : ∀ n : Nat, ∀ s : pmm_state_t, ∀ A : List (Nat × Nat), ∀ z p o : Nat,
    PMM_MAX_ORDER - o = n →
    lists_wf s → ghost_wf s A → (all_blocks s ++ A).Pairwise blocks_disjoint →
    flags_clean s → stale_ok s A (some (p, o)) → page0_wf s →
    (∀ z2, z2 < 3 → ∀ o2, o2 < PMM_MAX_ORDER + 1 →
      ((s.zones z2).free_lists o2).count = ((s.zones z2).free_lists o2).head.length) →
    (∀ z2, z2 < 3 → (s.zones z2).free_pages =
      (List.range (PMM_MAX_ORDER + 1)).foldr
        (fun o2 acc => 2 ^ o2 * ((s.zones z2).free_lists o2).head.length + acc) 0) →
    s.stats_free_memory = PAGE_SIZE * (pmm_get_free_pages s + 2 ^ o) →
    0 < p → 2 ^ o ∣ p → p + 2 ^ o ≤ s.page_count → o ≤ PMM_MAX_ORDER →
    zone_of_pfn p = z → z < 3 →
    (∀ x ∈ all_blocks s ++ A, blocks_disjoint (p, o) x) →
    WF (coalesce_buddies s z p o) A ∧
    (∀ z2, z2 ≠ z → (coalesce_buddies s z p o).zones z2 = s.zones z2) ∧
    ((coalesce_buddies s z p o).zones z).free_pages = (s.zones z).free_pages + 2 ^ o ∧
    (coalesce_buddies s z p o).stats_free_memory = s.stats_free_memory ∧
    (coalesce_buddies s z p o).stats_used_memory = s.stats_used_memory ∧
    (coalesce_buddies s z p o).stats_alloc_count = s.stats_alloc_count ∧
    (coalesce_buddies s z p o).stats_free_count = s.stats_free_count ∧
    (coalesce_buddies s z p o).page_count = s.page_count ∧
    (∀ q, free_covered (coalesce_buddies s z p o) q ↔
      (free_covered s q ∨ in_block p o q)) := by
  intro n
  induction n with
  | zero =>
    intro s A z p o hn hLs hGs hPs hFs hSs hZs hc1 hc2 hc3 hppos hal hrange ho hzone hz hdisj
    rw [coalesce_buddies, dif_neg (by omega)]
    exact coalesce_add_spec s A z p o hLs hGs hPs hFs hSs hZs hc1 hc2 hc3 hppos hal hrange
      ho hzone hz hdisj
  | succ n ih =>
    intro s A z p o hn hLs hGs hPs hFs hSs hZs hc1 hc2 hc3 hppos hal hrange ho hzone hz hdisj
    have hlt : o < PMM_MAX_ORDER := by omega
    rw [coalesce_buddies, dif_pos hlt]
    simp only [Nat.one_shiftLeft]
    by_cases hb1 : p ^^^ 2 ^ o ≥ s.page_count
    · rw [if_pos hb1]
      exact coalesce_add_spec s A z p o hLs hGs hPs hFs hSs hZs hc1 hc2 hc3 hppos hal hrange
        ho hzone hz hdisj
    · rw [if_neg hb1]
      by_cases hb2 : (s.pages (p ^^^ 2 ^ o)).flags &&& PAGE_FLAG_FREE = 0 ∨
          (s.pages (p ^^^ 2 ^ o)).order ≠ o
      · rw [if_pos hb2]
        exact coalesce_add_spec s A z p o hLs hGs hPs hFs hSs hZs hc1 hc2 hc3 hppos hal
          hrange ho hzone hz hdisj
      · rw [if_neg hb2]
        push_neg at hb2
        obtain ⟨hbf, hbo⟩ := hb2
        set b := p ^^^ 2 ^ o with hbdef
        set p1 := if b < p then b else p with hp1def
        set s1 := free_list_remove s z b o with hs1def
        have hm := merged_facts p o hal hppos
        rw [← hbdef] at hm
        rw [← hp1def] at hm
        obtain ⟨m1, m2, m3, m4, m5, m6, m7, m8, m9⟩ := hm
        have hbv2 := buddy_facts p o hal hppos
        rw [← hbdef] at hbv2
        obtain ⟨-, -, hbv⟩ := hbv2
        have hM : PMM_MAX_ORDER = 11 := rfl
        have h2o : 0 < 2 ^ o := Nat.two_pow_pos o
        have hpow : 2 ^ (o + 1) = 2 ^ o * 2 := pow_succ 2 o
        have hbval : b = p + 2 ^ o ∨ p = b + 2 ^ o := by
          rcases hbv with h | ⟨h, -⟩
          · exact Or.inl h
          · right; omega
        have hbpc : b < s.page_count := Nat.lt_of_not_le hb1
        have hfb : (s.pages b).flags = PAGE_FLAG_FREE := hFs b hbpc hbf
        have hbpos : 0 < b := by
          rcases Nat.eq_zero_or_pos b with h0 | h0
          · exfalso
            rw [h0] at hfb
            have hZ0 : (s.pages 0).flags &&& PAGE_FLAG_FREE = 0 := hZs
            rw [hfb] at hZ0
            exact absurd hZ0 (by decide)
          · exact h0
        obtain ⟨hbal, hbrange, hbcase⟩ := hSs o (by omega) b hbpc hfb hbo
        have hin_p : in_block p1 (o + 1) p := (m7 p).mpr (Or.inl ⟨le_refl p, by omega⟩)
        have hin_b : in_block p1 (o + 1) b := (m7 b).mpr (Or.inr ⟨le_refl b, by omega⟩)
        have hin_p2 : p1 ≤ p ∧ p < p1 + 2 ^ (o + 1) := hin_p
        have hin_b2 : p1 ≤ b ∧ b < p1 + 2 ^ (o + 1) := hin_b
        have h4096 : (2 : Nat) ^ (o + 1) ∣ 4096 := by
          have h12 : (4096 : Nat) = 2 ^ 12 := by norm_num
          rw [h12]
          exact pow_dvd_pow 2 (by omega)
        have h20 : (2 : Nat) ^ (o + 1) ∣ 2 ^ 20 := pow_dvd_pow 2 (by omega)
        have hzp1 : zone_of_pfn p = zone_of_pfn p1 :=
          zone_of_block p1 p (2 ^ (o + 1)) (Nat.two_pow_pos _) m3 h4096 h20 hin_p2.1 hin_p2.2
        have hzb1 : zone_of_pfn b = zone_of_pfn p1 :=
          zone_of_block p1 b (2 ^ (o + 1)) (Nat.two_pow_pos _) m3 h4096 h20 hin_b2.1 hin_b2.2
        have hzone1 : zone_of_pfn p1 = z := by rw [← hzp1, hzone]
        have hzb : zone_of_pfn b = z := by rw [hzb1, ← hzp1, hzone]
        have hble : b + 2 ^ o ≤ p1 + 2 ^ (o + 1) := by
          rcases m6 with h6 | h6
          · have hdd : 2 ^ o ∣ p + 2 ^ o := Nat.dvd_add hal dvd_rfl
            have hlt2 : b < p + 2 ^ o := by omega
            have := dvd_add_le (2 ^ o) b (p + 2 ^ o) h2o m2 hdd hlt2
            omega
          · omega
        have hple2 : p + 2 ^ o ≤ p1 + 2 ^ (o + 1) := by
          rcases m6 with h6 | h6
          · omega
          · have hdd : 2 ^ o ∣ b + 2 ^ o := Nat.dvd_add m2 dvd_rfl
            have hlt2 : p < b + 2 ^ o := by omega
            have := dvd_add_le (2 ^ o) p (b + 2 ^ o) h2o hal hdd hlt2
            omega
        have hbmem : b ∈ ((s.zones z).free_lists o).head := by
          rcases hbcase with hlist | ⟨b2, hb2m, hb2a, hb2b⟩ | ⟨ak, hakm, haka, hakb⟩ |
            ⟨e, heq, he1, he2⟩
          · rw [hzb] at hlist
            exact hlist
          · exfalso
            rw [m9] at hb2a hb2b
            have hd : p + 2 ^ o ≤ b2.1 ∨ b2.1 + 2 ^ b2.2 ≤ p :=
              hdisj b2 (List.mem_append_left A hb2m)
            have hw2 := Nat.two_pow_pos b2.2
            omega
          · exfalso
            rw [m9] at haka hakb
            have hd : p + 2 ^ o ≤ ak.1 ∨ ak.1 + 2 ^ ak.2 ≤ p :=
              hdisj ak (List.mem_append_right _ hakm)
            have hw2 := Nat.two_pow_pos ak.2
            omega
          · exfalso
            have he3 : e = (p, o) := by injection heq with h; exact h.symm
            rw [he3] at he1 he2
            dsimp only [] at he1 he2
            rw [m9] at he1 he2
            omega
        have hperm2 := all_blocks_remove_perm s z b o hz (by omega) hbmem
        rw [← hs1def] at hperm2
        have hPc : ((b, o) :: (all_blocks s1 ++ A)).Pairwise blocks_disjoint :=
          pairwise_of_perm (hperm2.append_right A) hPs
        obtain ⟨hbdisj, hP1⟩ := List.pairwise_cons.mp hPc
        have hmem_up : ∀ x, x ∈ all_blocks s1 ++ A → x ∈ all_blocks s ++ A := by
          intro x hx
          rcases List.mem_append.mp hx with h | h
          · exact List.mem_append_left A (hperm2.symm.subset (List.mem_cons_of_mem _ h))
          · exact List.mem_append_right _ h
        have hdisj1 : ∀ x ∈ all_blocks s1 ++ A, blocks_disjoint (p1, o + 1) x := by
          intro x hx
          have hdp : p + 2 ^ o ≤ x.1 ∨ x.1 + 2 ^ x.2 ≤ p := hdisj x (hmem_up x hx)
          have hdb : b + 2 ^ o ≤ x.1 ∨ x.1 + 2 ^ x.2 ≤ b := hbdisj x hx
          have hW := Nat.two_pow_pos x.2
          show p1 + 2 ^ (o + 1) ≤ x.1 ∨ x.1 + 2 ^ x.2 ≤ p1
          omega
        have hlen_pos : 0 < ((s.zones z).free_lists o).head.length :=
          List.length_pos.mpr (List.ne_nil_of_mem hbmem)
        have hfp_s1_z : (s1.zones z).free_pages + 2 ^ o = (s.zones z).free_pages := by
          rw [hs1def, flr_free_pages]
          have hge : 2 ^ o * ((s.zones z).free_lists o).head.length ≤
              (s.zones z).free_pages := by
            rw [hc2 z hz]
            exact foldr_sum_ge (List.range (PMM_MAX_ORDER + 1))
              (fun o2 => 2 ^ o2 * ((s.zones z).free_lists o2).head.length) o
              (List.mem_range.mpr (by omega))
          have h1 : 2 ^ o * 1 ≤ 2 ^ o * ((s.zones z).free_lists o).head.length :=
            Nat.mul_le_mul_left _ hlen_pos
          omega
        have hL1 : lists_wf s1 := remove_lists_wf s z b o hLs
        have hG1 : ghost_wf s1 A := remove_ghost_wf s A z b o hGs
        have hF1 : flags_clean s1 := remove_flags_clean s z b o hFs
        have hZ1 : page0_wf s1 := remove_page0 s z b o hZs
        have hSs1 : stale_ok s1 A (some (p1, o + 1)) := by
          intro oq hoq q hq hfl horq
          rw [hs1def, flr_page_count] at hq
          rw [hs1def, flr_pages] at hfl horq
          obtain ⟨f1, f2, fc⟩ := hSs oq hoq q hq hfl horq
          refine ⟨f1, by rw [hs1def, flr_page_count]; exact f2, ?_⟩
          rcases fc with hlist | hB | hC | hD
          · by_cases hzq : zone_of_pfn q = z
            · by_cases hoqo : oq = o
              · by_cases hqb : q = b
                · right; right; right
                  refine ⟨(p1, o + 1), rfl, ?_, ?_⟩
                  · show parent_lo q oq ≥ p1
                    rw [hqb, hoqo, m9]
                  · show parent_lo q oq + 2 ^ (oq + 1) ≤ p1 + 2 ^ (o + 1)
                    rw [hqb, hoqo, m9]
                · left
                  rw [hzq, hoqo] at hlist
                  rw [hzq, hoqo, hs1def, flr_lists_eq]
                  dsimp only []
                  exact (List.mem_erase_of_ne hqb).mpr hlist
              · left
                rw [hzq] at hlist
                rw [hzq, hs1def, flr_lists_ne s z b o oq hoqo]
                exact hlist
            · left
              rw [hs1def, flr_zones_ne s z b o _ hzq]
              exact hlist
          · obtain ⟨b2, hb2m, hb2a, hb2b⟩ := hB
            rcases List.mem_cons.mp (hperm2.subset hb2m) with he | hmem
            · right; right; right
              refine ⟨(p1, o + 1), rfl, ?_, ?_⟩
              · show parent_lo q oq ≥ p1
                rw [he] at hb2a
                dsimp only [] at hb2a
                omega
              · show parent_lo q oq + 2 ^ (oq + 1) ≤ p1 + 2 ^ (o + 1)
                rw [he] at hb2b
                dsimp only [] at hb2b
                omega
            · exact Or.inr (Or.inl ⟨b2, hmem, hb2a, hb2b⟩)
          · obtain ⟨ak, h1, h2, h3⟩ := hC
            exact Or.inr (Or.inr (Or.inl ⟨ak, h1, h2, h3⟩))
          · obtain ⟨e, heq, he1, he2⟩ := hD
            have he3 : e = (p, o) := by injection heq with h; exact h.symm
            rw [he3] at he1 he2
            dsimp only [] at he1 he2
            right; right; right
            refine ⟨(p1, o + 1), rfl, ?_, ?_⟩
            · show parent_lo q oq ≥ p1
              omega
            · show parent_lo q oq + 2 ^ (oq + 1) ≤ p1 + 2 ^ (o + 1)
              omega
        have hc1s : ∀ z2, z2 < 3 → ∀ o2, o2 < PMM_MAX_ORDER + 1 →
            ((s1.zones z2).free_lists o2).count = ((s1.zones z2).free_lists o2).head.length := by
          intro z2 hz2 o2 ho2
          by_cases hzz : z2 = z
          · rw [hzz]
            by_cases hoo : o2 = o
            · rw [hoo, hs1def, flr_lists_eq]
              dsimp only []
              rw [List.length_erase_of_mem hbmem, hc1 z hz o (by omega)]
            · rw [hs1def, flr_lists_ne s z b o o2 hoo]
              exact hc1 z hz o2 ho2
          · rw [hs1def, flr_zones_ne s z b o z2 hzz]
            exact hc1 z2 hz2 o2 ho2
        have hc2s : ∀ z2, z2 < 3 → (s1.zones z2).free_pages =
            (List.range (PMM_MAX_ORDER + 1)).foldr
              (fun o2 acc => 2 ^ o2 * ((s1.zones z2).free_lists o2).head.length + acc) 0 := by
          intro z2 hz2
          by_cases hzz : z2 = z
          · rw [hzz]
            have hwj : (fun o2 => 2 ^ o2 * ((s.zones z).free_lists o2).head.length) o =
                (fun o2 => 2 ^ o2 * ((s1.zones z).free_lists o2).head.length) o + 2 ^ o := by
              dsimp only []
              rw [hs1def, flr_lists_eq]
              dsimp only []
              rw [List.length_erase_of_mem hbmem]
              obtain ⟨k, hk⟩ := Nat.exists_eq_succ_of_ne_zero
                (show ((s.zones z).free_lists o).head.length ≠ 0 from by omega)
              rw [hk]
              have hk1 : k + 1 - 1 = k := rfl
              rw [hk1]
              ring_nf
              rw [Nat.succ_mul]
            have hother : ∀ x ∈ List.range (PMM_MAX_ORDER + 1), x ≠ o →
                (fun o2 => 2 ^ o2 * ((s.zones z).free_lists o2).head.length) x =
                (fun o2 => 2 ^ o2 * ((s1.zones z).free_lists o2).head.length) x := by
              intro x hx hne
              dsimp only []
              rw [hs1def, flr_lists_ne s z b o x hne]
            have hsum := foldr_sum_upd (List.range (PMM_MAX_ORDER + 1))
              (fun o2 => 2 ^ o2 * ((s1.zones z).free_lists o2).head.length)
              (fun o2 => 2 ^ o2 * ((s.zones z).free_lists o2).head.length)
              o (2 ^ o) (List.nodup_range _) (List.mem_range.mpr (by omega)) hwj hother
            dsimp only [] at hsum
            have hgoal := hc2 z hz
            omega
          · rw [hs1def, flr_zones_ne s z b o z2 hzz]
            exact hc2 z2 hz2
        have hst1 : s1.stats_free_memory = s.stats_free_memory := by
          rw [hs1def]
          exact (flr_stats s z b o).2.2.1
        have hfp_ne : ∀ z2, z2 ≠ z → (s1.zones z2).free_pages = (s.zones z2).free_pages := by
          intro z2 hne
          rw [hs1def, flr_zones_ne s z b o z2 hne]
        have hgfp : pmm_get_free_pages s1 + 2 ^ o = pmm_get_free_pages s := by
          show (s1.zones 0).free_pages + (s1.zones 1).free_pages + (s1.zones 2).free_pages +
            2 ^ o = (s.zones 0).free_pages + (s.zones 1).free_pages + (s.zones 2).free_pages
          have hz3 : z = 0 ∨ z = 1 ∨ z = 2 := by omega
          rcases hz3 with hzv | hzv | hzv
          · have ha := hfp_ne 1 (by rw [hzv]; omega)
            have hb3 := hfp_ne 2 (by rw [hzv]; omega)
            have hcz := hfp_s1_z
            rw [hzv] at hcz
            omega
          · have ha := hfp_ne 0 (by rw [hzv]; omega)
            have hb3 := hfp_ne 2 (by rw [hzv]; omega)
            have hcz := hfp_s1_z
            rw [hzv] at hcz
            omega
          · have ha := hfp_ne 0 (by rw [hzv]; omega)
            have hb3 := hfp_ne 1 (by rw [hzv]; omega)
            have hcz := hfp_s1_z
            rw [hzv] at hcz
            omega
        have hc3s : s1.stats_free_memory = PAGE_SIZE * (pmm_get_free_pages s1 + 2 ^ (o + 1)) := by
          rw [hst1, hc3]
          have he4 : pmm_get_free_pages s + 2 ^ o = pmm_get_free_pages s1 + 2 ^ (o + 1) := by
            omega
          rw [he4]
        have hp1pos : 0 < p1 := by omega
        have hrange1 : p1 + 2 ^ (o + 1) ≤ s1.page_count := by
          rw [hs1def, flr_page_count]
          omega
        have hcovs : ∀ q, free_covered s q ↔ (free_covered s1 q ∨ in_block b o q) := by
          intro q
          rw [free_covered_iff, free_covered_iff]
          constructor
          · rintro ⟨b2, hb2, hib⟩
            rcases List.mem_cons.mp (hperm2.subset hb2) with he | hmem
            · right
              rw [he] at hib
              exact hib
            · exact Or.inl ⟨b2, hmem, hib⟩
          · rintro (⟨b2, hmem, hib⟩ | hib)
            · exact ⟨b2, hperm2.symm.subset (List.mem_cons_of_mem _ hmem), hib⟩
            · exact ⟨(b, o), (mem_all_blocks s (b, o)).mpr ⟨z, hz, by omega, hbmem⟩, hib⟩
        obtain ⟨W1, Z21, FP1, SF1, SU1, SA1, SC1, PC1, COV1⟩ :=
          ih s1 A z p1 (o + 1) (by omega) hL1 hG1 hP1 hF1 hSs1 hZ1 hc1s hc2s hc3s hp1pos
            m3 hrange1 (by omega) hzone1 hz hdisj1
        refine ⟨W1, ?_, ?_, ?_, ?_, ?_, ?_, ?_, ?_⟩
        · intro z2 hne
          rw [Z21 z2 hne, hs1def]
          exact flr_zones_ne s z b o z2 hne
        · rw [FP1]
          omega
        · rw [SF1, hst1]
        · rw [SU1, hs1def]
          exact (flr_stats s z b o).2.2.2
        · rw [SA1, hs1def]
          exact (flr_stats s z b o).1
        · rw [SC1, hs1def]
          exact (flr_stats s z b o).2.1
        · rw [PC1, hs1def]
          exact flr_page_count s z b o
        · intro q
          have hiff1 := COV1 q
          have hiff2 := hcovs q
          have hiff3 := m7 q
          constructor
          · intro hcc
            rcases hiff1.mp hcc with hc | hb4
            · exact Or.inl (hiff2.mpr (Or.inl hc))
            · rcases hiff3.mp hb4 with hp3 | hb5
              · exact Or.inr hp3
              · exact Or.inl (hiff2.mpr (Or.inr hb5))
          · intro hcc
            rcases hcc with hc | hp3
            · rcases hiff2.mp hc with hc1 | hb5
              · exact hiff1.mpr (Or.inl hc1)
              · exact hiff1.mpr (Or.inr (hiff3.mpr (Or.inr hb5)))
            · exact hiff1.mpr (Or.inr (hiff3.mpr (Or.inl hp3)))

theorem pmm_free_spec (s : pmm_state_t) (A : List (Nat × Nat)) (pfn k : Nat)
    (hWF : WF s A) (hmem : (pfn, k) ∈ A) :
    WF (pmm_free_pages s (pfn * PAGE_SIZE) k) (A.erase (pfn, k)) ∧
    (pmm_free_pages s (pfn * PAGE_SIZE) k).page_count = s.page_count ∧
    (∀ z2, z2 ≠ zone_of_pfn pfn →
      (pmm_free_pages s (pfn * PAGE_SIZE) k).zones z2 = s.zones z2) ∧
    ((pmm_free_pages s (pfn * PAGE_SIZE) k).zones (zone_of_pfn pfn)).free_pages
      = (s.zones (zone_of_pfn pfn)).free_pages + 2 ^ k ∧
    pmm_get_free_pages (pmm_free_pages s (pfn * PAGE_SIZE) k)
      = pmm_get_free_pages s + 2 ^ k ∧
    (pmm_free_pages s (pfn * PAGE_SIZE) k).stats_free_memory
      = s.stats_free_memory + 2 ^ k * PAGE_SIZE ∧
    (pmm_free_pages s (pfn * PAGE_SIZE) k).stats_used_memory
      = s.stats_used_memory - 2 ^ k * PAGE_SIZE ∧
    (pmm_free_pages s (pfn * PAGE_SIZE) k).stats_alloc_count = s.stats_alloc_count ∧
    (pmm_free_pages s (pfn * PAGE_SIZE) k).stats_free_count = s.stats_free_count + 1 ∧
    (∀ q, free_covered (pmm_free_pages s (pfn * PAGE_SIZE) k) q ↔
      (free_covered s q ∨ in_block pfn k q)) := by
  have hWFc := hWF
  obtain ⟨hL, hG, hP, hF, hS, hC, hZ⟩ := hWFc
  obtain ⟨hg1, hg2, hg3, hg4, hg5, hg6⟩ := hG (pfn, k) hmem
  have hpos : 0 < pfn := hg1
  have hal : 2 ^ k ∣ pfn := hg2
  have hrange : pfn + 2 ^ k ≤ s.page_count := hg3
  have hkM : k ≤ PMM_MAX_ORDER := hg4
  have hflg : (s.pages pfn).flags = PAGE_FLAG_PRESENT ||| PAGE_FLAG_KERNEL := hg5
  have h2k : 0 < 2 ^ k := Nat.two_pow_pos k
  have haddr0 : ¬(pfn * PAGE_SIZE = 0 ∨ k > PMM_MAX_ORDER) := by
    push_neg
    refine ⟨Nat.mul_ne_zero (by omega) (by norm_num [PAGE_SIZE]), by omega⟩
  have hdiv : pfn * PAGE_SIZE / PAGE_SIZE = pfn := by
    rw [PAGE_SIZE]
    omega
  have hfree0 : ¬((s.pages pfn).flags &&& PAGE_FLAG_FREE ≠ 0) := by
    rw [hflg]
    decide
  have hstep : pmm_free_pages s (pfn * PAGE_SIZE) k =
      coalesce_buddies
        { s with stats_free_count := s.stats_free_count + 1,
                 stats_free_memory := s.stats_free_memory + 2 ^ k * PAGE_SIZE,
                 stats_used_memory := s.stats_used_memory - 2 ^ k * PAGE_SIZE }
        (zone_of_pfn pfn) pfn k := by
    rw [pmm_free_pages, if_neg haddr0]
    simp only []
    rw [hdiv]
    rw [if_neg (show ¬ pfn ≥ s.page_count from by omega)]
    rw [if_neg hfree0]
    rw [zone_of_pfn]
  rw [hstep]
  set s1 : pmm_state_t :=
    { s with stats_free_count := s.stats_free_count + 1,
             stats_free_memory := s.stats_free_memory + 2 ^ k * PAGE_SIZE,
             stats_used_memory := s.stats_used_memory - 2 ^ k * PAGE_SIZE } with hs1def
  have hL1 : lists_wf s1 := hL
  have hG1 : ghost_wf s1 (A.erase (pfn, k)) :=
    fun ak hak => hG ak (List.mem_of_mem_erase hak)
  have hab1 : all_blocks s1 = all_blocks s := rfl
  have hP1 : (all_blocks s1 ++ A.erase (pfn, k)).Pairwise blocks_disjoint := by
    rw [hab1]
    exact List.Pairwise.sublist ((List.erase_sublist (pfn, k) A).append_left (all_blocks s)) hP
  have hF1 : flags_clean s1 := hF
  have hZ1 : page0_wf s1 := hZ
  have hS1 : stale_ok s1 (A.erase (pfn, k)) (some (pfn, k)) := by
    intro oq hoq q hq hfl horq
    obtain ⟨f1, f2, fc⟩ := hS oq hoq q hq hfl horq
    refine ⟨f1, f2, ?_⟩
    rcases fc with h | h | ⟨ak, hak, ha1, ha2⟩ | ⟨e, he, -, -⟩
    · exact Or.inl h
    · exact Or.inr (Or.inl h)
    · by_cases hak2 : ak = (pfn, k)
      · right; right; right
        refine ⟨(pfn, k), rfl, ?_, ?_⟩
        · rw [hak2] at ha1
          exact ha1
        · rw [hak2] at ha2
          exact ha2
      · exact Or.inr (Or.inr (Or.inl ⟨ak, (List.mem_erase_of_ne hak2).mpr hak, ha1, ha2⟩))
    · exact Option.noConfusion he
  have hc1s : ∀ z2, z2 < 3 → ∀ o2, o2 < PMM_MAX_ORDER + 1 →
      ((s1.zones z2).free_lists o2).count = ((s1.zones z2).free_lists o2).head.length := hC.1
  have hc2s : ∀ z2, z2 < 3 → (s1.zones z2).free_pages =
      (List.range (PMM_MAX_ORDER + 1)).foldr
        (fun o2 acc => 2 ^ o2 * ((s1.zones z2).free_lists o2).head.length + acc) 0 := hC.2.1
  have hgf : pmm_get_free_pages s1 = pmm_get_free_pages s := rfl
  have hc3s : s1.stats_free_memory = PAGE_SIZE * (pmm_get_free_pages s1 + 2 ^ k) := by
    have hsf : s1.stats_free_memory = s.stats_free_memory + 2 ^ k * PAGE_SIZE := rfl
    rw [hsf, hgf, hC.2.2]
    ring
  have hrange1 : pfn + 2 ^ k ≤ s1.page_count := hrange
  have hdisj1 : ∀ x ∈ all_blocks s1 ++ A.erase (pfn, k), blocks_disjoint (pfn, k) x := by
    intro x hx
    have hin : (pfn, k) ∈ all_blocks s ++ A := List.mem_append_right _ hmem
    have hx2 : x ∈ all_blocks s ++ A := by
      rcases List.mem_append.mp hx with h | h
      · exact List.mem_append_left _ h
      · exact List.mem_append_right _ (List.mem_of_mem_erase h)
    by_cases hxe : x = (pfn, k)
    · exfalso
      rcases List.mem_append.mp hx with h | h
      · rw [hxe] at h
        have h2 : (pfn, k) ∈ all_blocks s := h
        have hd := (List.pairwise_append.mp hP).2.2 (pfn, k) h2 (pfn, k) hmem
        have hd2 : pfn + 2 ^ k ≤ pfn ∨ pfn + 2 ^ k ≤ pfn := hd
        omega
      · rw [hxe] at h
        have hnd : A.Pairwise blocks_disjoint := (List.pairwise_append.mp hP).2.1
        have hnodup : A.Nodup := hnd.imp (fun hab => blocks_disjoint_ne _ _ hab)
        exact hnodup.not_mem_erase h
    · exact pairwise_mem_disjoint _ hP (pfn, k) x hin hx2 (fun he => hxe he.symm)
  obtain ⟨W1, Z21, FP1, SF1, SU1, SA1, SC1, PC1, COV1⟩ :=
    coalesce_spec (PMM_MAX_ORDER - k) s1 (A.erase (pfn, k)) (zone_of_pfn pfn) pfn k rfl
      hL1 hG1 hP1 hF1 hS1 hZ1 hc1s hc2s hc3s hpos hal hrange1 hkM rfl (zone_lt3 pfn) hdisj1
  refine ⟨W1, ?_, ?_, ?_, ?_, ?_, ?_, ?_, ?_, ?_⟩
  · rw [PC1]
  · intro z2 hne
    rw [Z21 z2 hne]
  · rw [FP1]
  · have hz3 : zone_of_pfn pfn = 0 ∨ zone_of_pfn pfn = 1 ∨ zone_of_pfn pfn = 2 := by
      have := zone_lt3 pfn
      omega
    have hself := FP1
    show ((coalesce_buddies s1 (zone_of_pfn pfn) pfn k).zones 0).free_pages +
        ((coalesce_buddies s1 (zone_of_pfn pfn) pfn k).zones 1).free_pages +
        ((coalesce_buddies s1 (zone_of_pfn pfn) pfn k).zones 2).free_pages =
        (s.zones 0).free_pages + (s.zones 1).free_pages + (s.zones 2).free_pages + 2 ^ k
    rcases hz3 with hzv | hzv | hzv
    · have ha := Z21 1 (by rw [hzv]; omega)
      have hb := Z21 2 (by rw [hzv]; omega)
      rw [hzv] at hself ha hb ⊢
      rw [hself, ha, hb]
      have he0 : (s1.zones 0).free_pages = (s.zones 0).free_pages := rfl
      have he1 : (s1.zones 1).free_pages = (s.zones 1).free_pages := rfl
      have he2 : (s1.zones 2).free_pages = (s.zones 2).free_pages := rfl
      omega
    · have ha := Z21 0 (by rw [hzv]; omega)
      have hb := Z21 2 (by rw [hzv]; omega)
      rw [hzv] at hself ha hb ⊢
      rw [hself, ha, hb]
      have he0 : (s1.zones 0).free_pages = (s.zones 0).free_pages := rfl
      have he1 : (s1.zones 1).free_pages = (s.zones 1).free_pages := rfl
      have he2 : (s1.zones 2).free_pages = (s.zones 2).free_pages := rfl
      omega
    · have ha := Z21 0 (by rw [hzv]; omega)
      have hb := Z21 1 (by rw [hzv]; omega)
      rw [hzv] at hself ha hb ⊢
      rw [hself, ha, hb]
      have he0 : (s1.zones 0).free_pages = (s.zones 0).free_pages := rfl
      have he1 : (s1.zones 1).free_pages = (s.zones 1).free_pages := rfl
      have he2 : (s1.zones 2).free_pages = (s.zones 2).free_pages := rfl
      omega
  · rw [SF1]
  · rw [SU1]
  · rw [SA1]
  · rw [SC1]
  · intro q
    exact COV1 q

theorem to_pfn_to_addr : ∀ x : Nat × Nat, to_pfn (to_addr x) = x := by
  rintro ⟨a, b⟩
  show (a * PAGE_SIZE / PAGE_SIZE, b) = (a, b)
  have h : a * PAGE_SIZE / PAGE_SIZE = a := by
    rw [PAGE_SIZE]
    omega
  rw [h]

theorem WF_perm (s : pmm_state_t) (A A2 : List (Nat × Nat)) (hp : A.Perm A2)
    (hWF : WF s A) : WF s A2 := by
  obtain ⟨hL, hG, hP, hF, hS, hC, hZ⟩ := hWF
  refine ⟨hL, fun ak hak => hG ak (hp.symm.subset hak), ?_, hF, ?_, hC, hZ⟩
  · exact pairwise_of_perm (List.Perm.append_left (all_blocks s) hp) hP
  · intro oq hoq q hq hfl horq
    obtain ⟨f1, f2, fc⟩ := hS oq hoq q hq hfl horq
    refine ⟨f1, f2, ?_⟩
    rcases fc with h | h | ⟨ak, hak, h1, h2⟩ | ⟨e, he, -, -⟩
    · exact Or.inl h
    · exact Or.inr (Or.inl h)
    · exact Or.inr (Or.inr (Or.inl ⟨ak, hp.subset hak, h1, h2⟩))
    · exact Option.noConfusion he

theorem alloc_run_spec : ∀ (orders : List Nat) (s : pmm_state_t) (A : List (Nat × Nat)),
    WF s A → (∀ k ∈ orders, k ≤ PMM_MAX_ORDER) →
    ∃ R : List (Nat × Nat),
      (alloc_run s orders).2 = R.map to_addr ∧
      WF (alloc_run s orders).1 (R ++ A) ∧
      (∀ q, free_covered (alloc_run s orders).1 q ↔
        (free_covered s q ∧ ¬ ∃ ak ∈ R, in_block ak.1 ak.2 q)) ∧
      (∀ q, (∃ ak ∈ R, in_block ak.1 ak.2 q) → free_covered s q) := by
  intro orders
  induction orders with
  | nil =>
    intro s A hWF hks
    refine ⟨[], rfl, hWF, ?_, ?_⟩
    · intro q
      have h1 : (alloc_run s []).1 = s := rfl
      rw [h1]
      simp
    · intro q h
      exact absurd h (by simp)
  | cons k ks ih =>
    intro s A hWF hks
    have hk : k ≤ PMM_MAX_ORDER := hks k (List.mem_cons_self _ _)
    have hkrest : ∀ k2 ∈ ks, k2 ≤ PMM_MAX_ORDER :=
      fun k2 hk2 => hks k2 (List.mem_cons_of_mem _ hk2)
    have he : alloc_run s (k :: ks) =
        ((alloc_run (pmm_alloc_pages s k).1 ks).1,
         (if (pmm_alloc_pages s k).2 ≠ 0 then [((pmm_alloc_pages s k).2, k)] else []) ++
           (alloc_run (pmm_alloc_pages s k).1 ks).2) := rfl
    rcases pmm_alloc_spec s A k hWF hk with ⟨hz0, hs0⟩ |
      ⟨pfn, z, hz, ha1, ha2, ha3, ha4, ha5, ha6, ha7, ha8, ha9, ha10, ha11, ha12, ha13, ha14⟩
    · obtain ⟨R, hr1, hr2, hr3, hr4⟩ := ih (pmm_alloc_pages s k).1 A (by rw [hs0]; exact hWF)
        hkrest
      refine ⟨R, ?_, ?_, ?_, ?_⟩
      · rw [he]
        show (if (pmm_alloc_pages s k).2 ≠ 0 then [((pmm_alloc_pages s k).2, k)] else []) ++
            (alloc_run (pmm_alloc_pages s k).1 ks).2 = R.map to_addr
        rw [hz0]
        rw [if_neg (show ¬(0 : Nat) ≠ 0 from by omega)]
        rw [List.nil_append]
        exact hr1
      · rw [he]
        exact hr2
      · intro q
        rw [he]
        exact (hr3 q).trans (by rw [hs0])
      · intro q hq
        have h := hr4 q hq
        rw [hs0] at h
        exact h
    · obtain ⟨R, hr1, hr2, hr3, hr4⟩ := ih (pmm_alloc_pages s k).1 ((pfn, k) :: A) ha5 hkrest
      refine ⟨(pfn, k) :: R, ?_, ?_, ?_, ?_⟩
      · rw [he]
        show (if (pmm_alloc_pages s k).2 ≠ 0 then [((pmm_alloc_pages s k).2, k)] else []) ++
            (alloc_run (pmm_alloc_pages s k).1 ks).2 = ((pfn, k) :: R).map to_addr
        rw [ha1]
        rw [if_pos (show pfn * PAGE_SIZE ≠ 0 from
          Nat.mul_ne_zero (by omega) (by norm_num [PAGE_SIZE]))]
        rw [hr1]
        rfl
      · rw [he]
        show WF (alloc_run (pmm_alloc_pages s k).1 ks).1 (((pfn, k) :: R) ++ A)
        exact WF_perm _ _ _ List.perm_middle hr2
      · intro q
        rw [he]
        have h3 := hr3 q
        have h13 := ha13 q
        constructor
        · intro hc
          obtain ⟨hc1, hc2⟩ := h3.mp hc
          obtain ⟨hc3, hc4⟩ := h13.mp hc1
          refine ⟨hc3, ?_⟩
          rintro ⟨ak, hak, hib⟩
          rcases List.mem_cons.mp hak with he2 | he2
          · rw [he2] at hib
            exact hc4 hib
          · exact hc2 ⟨ak, he2, hib⟩
        · rintro ⟨hc3, hc4⟩
          refine h3.mpr ⟨h13.mpr ⟨hc3, fun hib =>
            hc4 ⟨(pfn, k), List.mem_cons_self _ _, hib⟩⟩, ?_⟩
          rintro ⟨ak, hak, hib⟩
          exact hc4 ⟨ak, List.mem_cons_of_mem _ hak, hib⟩
      · intro q hq
        obtain ⟨ak, hak, hib⟩ := hq
        rcases List.mem_cons.mp hak with he2 | he2
        · rw [he2] at hib
          exact ha14 q hib
        · exact ((ha13 q).mp (hr4 q ⟨ak, he2, hib⟩)).1

theorem free_run_spec : ∀ (R : List (Nat × Nat)) (s : pmm_state_t) (A0 : List (Nat × Nat)),
    WF s (R ++ A0) →
    WF (free_run s (R.map to_addr)) A0 ∧
    (∀ q, free_covered (free_run s (R.map to_addr)) q ↔
      (free_covered s q ∨ ∃ ak ∈ R, in_block ak.1 ak.2 q)) := by
  intro R
  induction R with
  | nil =>
    intro s A0 hWF
    refine ⟨hWF, ?_⟩
    intro q
    have h1 : free_run s (([] : List (Nat × Nat)).map to_addr) = s := rfl
    rw [h1]
    simp
  | cons hd tl ih =>
    intro s A0 hWF
    obtain ⟨pfn, k⟩ := hd
    obtain ⟨f1, f2, f3, f4, f5, f6, f7, f8, f9, f10⟩ :=
      pmm_free_spec s ((pfn, k) :: (tl ++ A0)) pfn k hWF (List.mem_cons_self _ _)
    have herase : ((pfn, k) :: (tl ++ A0)).erase (pfn, k) = tl ++ A0 :=
      List.erase_cons_head _ _
    rw [herase] at f1
    obtain ⟨w1, w2⟩ := ih (pmm_free_pages s (pfn * PAGE_SIZE) k) A0 f1
    have hred : free_run s (((pfn, k) :: tl).map to_addr) =
        free_run (pmm_free_pages s (pfn * PAGE_SIZE) k) (tl.map to_addr) := rfl
    rw [hred]
    refine ⟨w1, ?_⟩
    intro q
    rw [w2 q, f10 q]
    constructor
    · rintro ((hc | hib) | hE)
      · exact Or.inl hc
      · exact Or.inr ⟨(pfn, k), List.mem_cons_self _ _, hib⟩
      · obtain ⟨ak, hak, hib⟩ := hE
        exact Or.inr ⟨ak, List.mem_cons_of_mem _ hak, hib⟩
    · rintro (hc | ⟨ak, hak, hib⟩)
      · exact Or.inl (Or.inl hc)
      · rcases List.mem_cons.mp hak with he2 | he2
        · rw [he2] at hib
          exact Or.inl (Or.inr hib)
        · exact Or.inr ⟨ak, he2, hib⟩

theorem stale_demo : stale_ok demo_state [] none := by
  intro o ho q hq hfl hor
  have hq8 : q < 8 := hq
  interval_cases q
  · exact absurd hfl (by decide)
  · have h0 : 0 = o := hor
    subst h0
    exact ⟨by decide, by decide, Or.inl (by decide)⟩
  · have h0 : 0 = o := hor
    subst h0
    exact ⟨by decide, by decide, Or.inl (by decide)⟩
  · have h0 : 0 = o := hor
    subst h0
    exact ⟨by decide, by decide, Or.inl (by decide)⟩
  · have h0 : 0 = o := hor
    subst h0
    exact ⟨by decide, by decide, Or.inl (by decide)⟩
  · have h0 : 0 = o := hor
    subst h0
    exact ⟨by decide, by decide, Or.inl (by decide)⟩
  · have h0 : 0 = o := hor
    subst h0
    exact ⟨by decide, by decide, Or.inl (by decide)⟩
  · have h0 : 0 = o := hor
    subst h0
    exact ⟨by decide, by decide, Or.inl (by decide)⟩

theorem wf_demo : WF demo_state [] :=
  ⟨by unfold lists_wf; decide, by unfold ghost_wf; decide, by decide,
   by unfold flags_clean; decide, stale_demo, by unfold counts_wf; decide,
   by unfold page0_wf; decide⟩

/-- Claim C8: for every order `k` in `0..PMM_MAX_ORDER`, the round trip
`pmm_free_pages (pmm_alloc_pages k) k` leaves the free-page counts unchanged —
the total `pmm_get_free_pages`, every zone's `free_pages` and the
`stats_free_memory` counter — including the case where `pmm_alloc_pages`
fails (returns address 0) and the subsequent free is a no-op; and after any
run of allocations whose returned blocks are then freed again in any order,
the allocator's free set (the set of page frames covered by its free lists)
is exactly the initial free set. -/
theorem c8_roundtrip_and_free_set (s : pmm_state_t) (A : List (Nat × Nat))
    (hWF : WF s A) :
    (∀ k, k ≤ PMM_MAX_ORDER →
      pmm_get_free_pages (pmm_free_pages (pmm_alloc_pages s k).1 (pmm_alloc_pages s k).2 k)
        = pmm_get_free_pages s ∧
      (∀ z2, z2 < 3 →
        ((pmm_free_pages (pmm_alloc_pages s k).1 (pmm_alloc_pages s k).2 k).zones z2).free_pages
          = (s.zones z2).free_pages) ∧
      (pmm_free_pages (pmm_alloc_pages s k).1 (pmm_alloc_pages s k).2 k).stats_free_memory
        = s.stats_free_memory) ∧
    (∀ (orders : List Nat) (pi2 : List (Nat × Nat)),
      (∀ k ∈ orders, k ≤ PMM_MAX_ORDER) →
      pi2.Perm (alloc_run s orders).2 →
      ∀ q, free_covered (free_run (alloc_run s orders).1 pi2) q ↔ free_covered s q) := by
  constructor
  · intro k hk
    rcases pmm_alloc_spec s A k hWF hk with ⟨hz0, hs0⟩ |
      ⟨pfn, z, hz, ha1, ha2, ha3, ha4, ha5, ha6, ha7, ha8, ha9, ha10, ha11, ha12, ha13, ha14⟩
    · have hno : pmm_free_pages s 0 k = s := by
        rw [pmm_free_pages, if_pos (Or.inl rfl)]
      rw [hz0, hs0, hno]
      exact ⟨rfl, fun z2 _ => rfl, rfl⟩
    · obtain ⟨f1, f2, f3, f4, f5, f6, f7, f8, f9, f10⟩ :=
        pmm_free_spec (pmm_alloc_pages s k).1 ((pfn, k) :: A) pfn k ha5
          (List.mem_cons_self _ _)
      rw [ha1]
      have hgfpa : pmm_get_free_pages (pmm_alloc_pages s k).1 + 2 ^ k
          = pmm_get_free_pages s := by
        show ((pmm_alloc_pages s k).1.zones 0).free_pages +
            ((pmm_alloc_pages s k).1.zones 1).free_pages +
            ((pmm_alloc_pages s k).1.zones 2).free_pages + 2 ^ k =
          (s.zones 0).free_pages + (s.zones 1).free_pages + (s.zones 2).free_pages
        have hz3 : z = 0 ∨ z = 1 ∨ z = 2 := by omega
        rcases hz3 with hzv | hzv | hzv
        · have ha := ha7 1 (by rw [hzv]; omega)
          have hb := ha7 2 (by rw [hzv]; omega)
          have hcz := ha8
          rw [hzv] at hcz
          rw [ha, hb]
          omega
        · have ha := ha7 0 (by rw [hzv]; omega)
          have hb := ha7 2 (by rw [hzv]; omega)
          have hcz := ha8
          rw [hzv] at hcz
          rw [ha, hb]
          omega
        · have ha := ha7 0 (by rw [hzv]; omega)
          have hb := ha7 1 (by rw [hzv]; omega)
          have hcz := ha8
          rw [hzv] at hcz
          rw [ha, hb]
          omega
      refine ⟨?_, ?_, ?_⟩
      · rw [f5]
        omega
      · intro z2 hz2
        by_cases hze : z2 = zone_of_pfn pfn
        · rw [hze, f4, ha4]
          exact ha8
        · rw [f3 z2 hze]
          rw [ha4] at hze
          rw [ha7 z2 hze]
      · rw [f6]
        omega
  · intro orders pi2 horders hperm
    obtain ⟨R, hr1, hr2, hr3, hr4⟩ := alloc_run_spec orders s A hWF horders
    rw [hr1] at hperm
    have hfg : ∀ x ∈ pi2, to_addr (to_pfn x) = x := by
      intro x hx
      obtain ⟨ak, hak, hfx⟩ := List.mem_map.mp (hperm.subset hx)
      rw [← hfx, to_pfn_to_addr]
    have hpi2 : (pi2.map to_pfn).map to_addr = pi2 := by
      rw [List.map_map]
      have h1 : pi2.map (to_addr ∘ to_pfn) = pi2.map id :=
        List.map_congr_left (fun a ha => hfg a ha)
      rw [h1, List.map_id]
    have hR2 : (pi2.map to_pfn).Perm R := by
      have h2 := hperm.map to_pfn
      rw [List.map_map] at h2
      have h3 : R.map (to_pfn ∘ to_addr) = R.map id :=
        List.map_congr_left (fun a _ => to_pfn_to_addr a)
      rw [h3, List.map_id] at h2
      exact h2
    have hWF2 : WF (alloc_run s orders).1 ((pi2.map to_pfn) ++ A) :=
      WF_perm _ _ _ (hR2.symm.append_right A) hr2
    obtain ⟨w1, w2⟩ := free_run_spec (pi2.map to_pfn) (alloc_run s orders).1 A hWF2
    rw [hpi2] at w2
    intro q
    rw [w2 q, hr3 q]
    constructor
    · rintro (⟨hc, -⟩ | hE)
      · exact hc
      · obtain ⟨ak, hak, hib⟩ := hE
        exact hr4 q ⟨ak, hR2.subset hak, hib⟩
    · intro hc
      by_cases hE : ∃ ak ∈ R, in_block ak.1 ak.2 q
      · right
        obtain ⟨ak, hak, hib⟩ := hE
        exact ⟨ak, hR2.symm.subset hak, hib⟩
      · left
        exact ⟨hc, hE⟩

/-- Witness for claim C8: the full allocator invariant holds on the concrete
8-frame `demo_state`, order 0 is a legal order, and an order-0 allocate/free
round trip on it restores the total free-page count. -/
theorem c8_roundtrip_and_free_set_witness :
    WF demo_state [] ∧ 0 ≤ PMM_MAX_ORDER ∧
    pmm_get_free_pages (pmm_free_pages (pmm_alloc_pages demo_state 0).1
      (pmm_alloc_pages demo_state 0).2 0) = pmm_get_free_pages demo_state := by
  refine ⟨wf_demo, by decide, ?_⟩
  exact ((c8_roundtrip_and_free_set demo_state [] wf_demo).1 0 (by decide)).1

end PureVisor.Pmm
